import Mathlib

/-! Verification of eth2-beaconchain-explorer: the ingestion / reconciliation core.

A shallow embedding of

* `rpc/hybrid.go`   : `HybridClient.GetEpochData`
* `cmd/bls/bls.go`  : `ComputeDomain`, `domain`, `computeForkDataRoot`, `VerifyEth1DepositSignature`
* `cmd/eth1/eth1.go`: the second copy of the same verifier, `fetchEth1Deposits`,
  `eth1BatchRequestHeadersAndTxs`
* `services/charts_updater.go`: `getChartsPageData`
* `handlers/validators.go`    : `parseValidatorsDataQueryParams`
* `handlers/validator.go`     : the proposal counters and the income of the validator page
* `cmd/foo2/foo.go`           : `decodePoapGraffiti`

Conventions.  A Go `uint64` is a `Nat` reduced with `u64`.  A Go byte is a `Fin 256`.
A Go result pair `(value, error)` is a Lean pair of options (`none` is `nil`).
A Go `map` is an association list whose keys are kept unique by `mapSet`.
A Go call that may panic returns an `Outcome`.
Calls into other packages (beacon node adapters, ssz, bls, params, the clock)
are parameters of the model.
-/

namespace Explorer

/-! ## Machine integers, bytes, maps, errors -/

/-- One byte. -/
abbrev Byte := Fin 256

/-- Reduction of a natural number to a Go `uint64`. -/
def u64 (n : Nat) : Nat := n % 2 ^ 64

/-- The largest `uint64`. -/
def maxU64 : Nat := 2 ^ 64 - 1

/-- Go `m[k]` with the comma-ok form: `none` when the key is absent. -/
def mapGet {K V : Type} [DecidableEq K] : List (K × V) → K → Option V
  | [], _ => none
  | (k', v) :: rest, k => if k' = k then some v else mapGet rest k

/-- Go `m[k] = v`: replaces the value of an existing key, otherwise adds the key. -/
def mapSet {K V : Type} [DecidableEq K] : List (K × V) → K → V → List (K × V)
  | [], k, v => [(k, v)]
  | (k', v') :: rest, k, v => if k' = k then (k, v) :: rest else (k', v') :: mapSet rest k v

/-- Go error values: errors raised by a collaborator, `fmt.Errorf` without a wrapped
error, and `fmt.Errorf` with an error operand (`%w` or `%v`). -/
inductive GoError where
  | lib (msg : String)
  | errorf (format : String) (args : List String)
  | wrap (format : String) (args : List String) (cause : GoError)
  deriving DecidableEq, Repr

/-- One lower-case hexadecimal digit, as `%x` prints it. -/
def hexDigit (n : Nat) : Char :=
  if n < 10 then Char.ofNat (48 + n) else Char.ofNat (87 + n)

/-- Characters of `fmt.Sprintf("%x", bs)`: two digits per byte. -/
def hexChars : List Byte → List Char
  | [] => []
  | b :: bs => hexDigit (b.val / 16) :: hexDigit (b.val % 16) :: hexChars bs

/-- The string `fmt.Sprintf("%x", bs)`. -/
def hexKey (bs : List Byte) : String := String.mk (hexChars bs)

/-! ## `types` records used by `GetEpochData` -/

/-- Record `types.Eth1Data` (carried through unchanged). -/
structure Eth1Data where
  DepositRoot : List Byte
  DepositCount : Nat
  BlockHash : List Byte
  deriving DecidableEq, Repr

/-- Nested block operations are carried through unchanged; only their number matters here. -/
structure BlockOps where
  ProposerSlashings : Nat
  AttesterSlashings : Nat
  Attestations : Nat
  Deposits : Nat
  VoluntaryExits : Nat
  deriving DecidableEq, Repr

/-- Record `types.Block`. -/
structure Block where
  Status : Nat
  Proposer : Nat
  BlockRoot : List Byte
  Slot : Nat
  ParentRoot : List Byte
  StateRoot : List Byte
  Signature : List Byte
  RandaoReveal : List Byte
  Graffiti : List Byte
  BodyRoot : List Byte
  Eth1Data : Eth1Data
  Ops : BlockOps
  deriving DecidableEq, Repr

/-- Record `types.EpochAssignments`. -/
structure EpochAssignments where
  ProposerAssignments : List (Nat × Nat)
  AttestorAssignments : List (String × Nat)
  deriving DecidableEq, Repr

/-- Validator entry as the eth2 API adapter returns it. -/
structure ApiValidator where
  Index : Nat
  Balance : Nat
  Pubkey : List Byte
  WithdrawalCredentials : List Byte
  EffectiveBalance : Nat
  Slashed : Bool
  ActivationEligibilityEpoch : Nat
  ActivationEpoch : Nat
  ExitEpoch : Nat
  WithdrawableEpoch : Nat
  deriving DecidableEq, Repr

/-- Record `types.Validator`. -/
structure Validator where
  Index : Nat
  PublicKey : List Byte
  WithdrawalCredentials : List Byte
  Balance : Nat
  EffectiveBalance : Nat
  Slashed : Bool
  ActivationEligibilityEpoch : Nat
  ActivationEpoch : Nat
  ExitEpoch : Nat
  WithdrawableEpoch : Nat
  deriving DecidableEq, Repr

/-- Record `types.ValidatorParticipation`; the rate is kept as an opaque numerator. -/
structure ValidatorParticipation where
  Epoch : Nat
  Finalized : Bool
  GlobalParticipationRate : Nat
  VotedEther : Nat
  EligibleEther : Nat
  deriving DecidableEq, Repr

/-- The `slot -> (root -> Block)` map of `types.EpochData`. -/
abbrev BlockMap := List (Nat × List (String × Block))

/-- Record `types.EpochData`. -/
structure EpochData where
  Epoch : Nat
  Validators : List Validator
  ValidatorAssignmentes : EpochAssignments
  Blocks : BlockMap
  EpochParticipationStats : ValidatorParticipation
  deriving DecidableEq, Repr

/-- Everything `GetEpochData` reads from outside `hybrid.go`: the chain configuration,
`utils.SlotToTime` and the wall clock (instants in nanoseconds), and the four adapter
calls.  `now slot` is the reading of `time.Now()` taken while the placeholder of `slot`
is built (the clock is read once per placeholder). -/
structure World where
  SlotsPerEpoch : Nat
  SlotToTime : Nat → Int
  now : Nat → Int
  GetEpochAssignments : Nat → Except GoError EpochAssignments
  GetBlocksBySlot : Nat → Except GoError (List Block)
  GetValidators : String → Except GoError (List ApiValidator)
  GetValidatorParticipation : Nat → Except GoError ValidatorParticipation

/-! ## `HybridClient.GetEpochData` -/

/-- Entry of `blocks[slot][key]`, `none` when the slot or the key is absent. -/
def lookup2 (m : BlockMap) (slot : Nat) (key : String) : Option Block :=
  match mapGet m slot with
  | none => none
  | some inner => mapGet inner key

/-- Body of the inner loop (hybrid.go 69-72): store one returned block. -/
def mergeBlock (data : BlockMap) (block : Block) : BlockMap :=
  let data1 := if mapGet data block.Slot = none then mapSet data block.Slot [] else data
  mapSet data1 block.Slot (mapSet ((mapGet data1 block.Slot).getD []) (hexKey block.BlockRoot) block)

/-- Inner loop (hybrid.go 68-73) over the blocks of one response. -/
def mergeBlocks (data : BlockMap) (blocks : List Block) : BlockMap :=
  blocks.foldl mergeBlock data

/-- Loop `for slot := lo; slot <= hi; slot++` (hybrid.go 63-74) on `uint64`, started at
`slot`.  `fuel` bounds the number of iterations; `none` means the loop is still running
when the fuel is used up.  The first failing fetch ends the call with that error. -/
def blockLoop (w : World) (hi : Nat) : Nat → Nat → BlockMap → Option (Except GoError BlockMap)
  | 0, slot, data => if slot ≤ hi then none else some (.ok data)
  | fuel + 1, slot, data =>
    if slot ≤ hi then
      match w.GetBlocksBySlot slot with
      | .error err => some (.error err)
      | .ok blocks => blockLoop w hi fuel (u64 (slot + 1)) (mergeBlocks data blocks)
    else some (.ok data)

/-- Sixty seconds as a `time.Duration` (nanoseconds). -/
def graceNanos : Int := 60 * 1000000000

/-- Empty `types.Eth1Data`. -/
def emptyEth1Data : Eth1Data := { DepositRoot := [], DepositCount := 0, BlockHash := [] }

/-- Empty operation lists. -/
def emptyOps : BlockOps :=
  { ProposerSlashings := 0, AttesterSlashings := 0, Attestations := 0, Deposits := 0,
    VoluntaryExits := 0 }

/-- The synthetic block of hybrid.go 82-109: built with status 0 and root `[0]`, then
re-tagged from the clock. -/
def placeholderBlock (w : World) (slot proposer : Nat) : Block :=
  let b : Block :=
    { Status := 0, Proposer := proposer, BlockRoot := [0], Slot := slot, ParentRoot := [],
      StateRoot := [], Signature := [], RandaoReveal := [], Graffiti := [], BodyRoot := [],
      Eth1Data := emptyEth1Data, Ops := emptyOps }
  if w.SlotToTime slot > w.now slot + (-graceNanos) then
    { b with Status := 0, BlockRoot := [0] }
  else
    { b with Status := 2, BlockRoot := [1] }

/-- Body of the fill loop (hybrid.go 78-110). -/
def fillSlot (w : World) (data : BlockMap) (entry : Nat × Nat) : BlockMap :=
  match mapGet data entry.1 with
  | some _ => data
  | none => mapSet data entry.1 (mapSet [] "0x0" (placeholderBlock w entry.1 entry.2))

/-- Fill loop (hybrid.go 77-111) over the entries of `ProposerAssignments`, in the order
the `range` statement happens to visit them. -/
def fillPlaceholders (w : World) (data : BlockMap) (assignments : List (Nat × Nat)) : BlockMap :=
  assignments.foldl (fillSlot w) data

/-- Conversion of one validator (hybrid.go 125-136). -/
def convertValidator (v : ApiValidator) : Validator :=
  { Index := v.Index, PublicKey := v.Pubkey, WithdrawalCredentials := v.WithdrawalCredentials,
    Balance := v.Balance, EffectiveBalance := v.EffectiveBalance, Slashed := v.Slashed,
    ActivationEligibilityEpoch := v.ActivationEligibilityEpoch,
    ActivationEpoch := v.ActivationEpoch, ExitEpoch := v.ExitEpoch,
    WithdrawableEpoch := v.WithdrawableEpoch }

/-- First slot of the loop: `epoch * SlotsPerEpoch` on `uint64`. -/
def firstSlot (w : World) (epoch : Nat) : Nat := u64 (epoch * w.SlotsPerEpoch)

/-- Loop bound `(epoch+1)*SlotsPerEpoch-1` on `uint64`. -/
def lastSlot (w : World) (epoch : Nat) : Nat := u64 (u64 ((epoch + 1) * w.SlotsPerEpoch) + maxU64)

/-- The method `HybridClient.GetEpochData` (hybrid.go 44-159).  The result is the Go pair
`(data, err)`; the outer `none` means the block loop has not finished within `fuel`
iterations. -/
def GetEpochData (w : World) (epoch fuel : Nat) : Option (Option EpochData × Option GoError) :=
  let slotStr := toString (firstSlot w epoch)
  match w.GetEpochAssignments epoch with
  | .error err =>
    some (none, some (.wrap "error retrieving assignments for epoch %v: %w" [toString epoch] err))
  | .ok assignments =>
    match blockLoop w (lastSlot w epoch) fuel (firstSlot w epoch) [] with
    | none => none
    | some (.error err) => some (none, some err)
    | some (.ok merged) =>
      let blocks := fillPlaceholders w merged assignments.ProposerAssignments
      match w.GetValidators slotStr with
      | .error err => some (none, some err)
      | .ok validators =>
        match w.GetValidatorParticipation epoch with
        | .error err =>
          some (none, some (.wrap
            "error retrieving epoch participation statistics for epoch %v: %v" [toString epoch] err))
        | .ok stats =>
          some (some { Epoch := epoch, Validators := validators.map convertValidator,
                       ValidatorAssignmentes := assignments, Blocks := blocks,
                       EpochParticipationStats := stats }, none)

/-! ### What the loop has seen -/

/-- Blocks of a response, nothing for a failed fetch. -/
def responseBlocks (w : World) (slot : Nat) : List Block :=
  match w.GetBlocksBySlot slot with
  | .ok blocks => blocks
  | .error _ => []

/-- Blocks returned by the fetches of slots `lo, lo+1, ..., lo+n-1`, in loop order. -/
def observedFrom (w : World) : Nat → Nat → List Block
  | _, 0 => []
  | lo, n + 1 => responseBlocks w lo ++ observedFrom w (lo + 1) n

/-- Blocks observed by `GetEpochData` for `epoch`: the responses for the slots
`firstSlot .. lastSlot` (none when the bound lies below the start). -/
def observed (w : World) (epoch : Nat) : List Block :=
  observedFrom w (firstSlot w epoch) (lastSlot w epoch + 1 - firstSlot w epoch)

/-! ## Deposit signature verification (`cmd/bls/bls.go`, `cmd/eth1/eth1.go`) -/

/-- Go array type `[4]byte`. -/
abbrev Bytes4 := { l : List Byte // l.length = 4 }

/-- Go array type `[32]byte`. -/
abbrev Bytes32 := { l : List Byte // l.length = 32 }

/-- The fields of prysm's `params.BeaconChainConfig` that the verifier reads.  A `[]byte`
that may be `nil` is an `Option`. -/
structure BeaconChainConfig where
  DomainDeposit : Bytes4
  GenesisForkVersion : Option (List Byte)
  deriving DecidableEq

/-- Modelled from the spec: the field `ZeroHash` of prysm's configurations (package
`params`, not part of the sources) is "the all-zero 32-byte root", in every network
configuration. -/
def ZeroHash : Bytes32 := ⟨List.replicate 32 0, by decide⟩

/-- Message `ethpb.Deposit_Data`. -/
structure DepositData where
  PublicKey : List Byte
  WithdrawalCredentials : List Byte
  Amount : Nat
  Signature : List Byte
  deriving DecidableEq, Repr

/-- The library calls of the verifier: the four network configurations of `params`,
`ssz.HashTreeRoot` on `pb.ForkData` and on `pb.SigningData` (fields in declaration order),
`ssz.SigningRoot` on the deposit data, and the three `bls` operations. -/
structure Crypto (PK Sig : Type) where
  BeaconConfig : BeaconChainConfig
  AltonaConfig : BeaconChainConfig
  MedallaConfig : BeaconChainConfig
  SpadinaConfig : BeaconChainConfig
  HashTreeRootForkData : List Byte → List Byte → Except GoError Bytes32
  SigningRoot : DepositData → Except GoError Bytes32
  HashTreeRootSigningData : List Byte → List Byte → Except GoError Bytes32
  PublicKeyFromBytes : List Byte → Except GoError PK
  SignatureFromBytes : List Byte → Except GoError Sig
  Verify : Sig → PK → List Byte → Bool

/-- `forkBytes := [4]byte{}; copy(forkBytes[:], forkVersion)`: the first four bytes of the
source, zero where the source is shorter (`copy` moves `min(4, len)` bytes). -/
def copyForkBytes (forkVersion : List Byte) : List Byte :=
  (forkVersion ++ [0, 0, 0, 0]).take 4

/-- Value of `[32]byte{}`. -/
def emptyBytes32 : Bytes32 := ⟨List.replicate 32 0, by decide⟩

namespace Bls

/-- Lines 60-62 of `ComputeDomain`: a `nil` fork version becomes
`params.BeaconConfig().GenesisForkVersion`. -/
def forkVersionOrDefault {PK Sig : Type} (L : Crypto PK Sig) (forkVersion : Option (List Byte)) :
    Option (List Byte) :=
  match forkVersion with
  | none => L.BeaconConfig.GenesisForkVersion
  | some v => some v

/-- Lines 63-65 of `ComputeDomain`: a `nil` root becomes `params.BeaconConfig().ZeroHash[:]`. -/
def rootOrDefault (genesisValidatorsRoot : Option (List Byte)) : List Byte :=
  match genesisValidatorsRoot with
  | none => ZeroHash.val
  | some r => r

/-- Function `domain` (bls.go 77-82).  Its only caller passes a 32-byte array. -/
def domain (domainType : Bytes4) (forkDataRoot : List Byte) : List Byte :=
  ([] ++ domainType.val.take 4) ++ forkDataRoot.take 28

/-- Function `computeForkDataRoot` (bls.go 84-93). -/
def computeForkDataRoot {PK Sig : Type} (L : Crypto PK Sig) (version root : List Byte) :
    Bytes32 × Option GoError :=
  match L.HashTreeRootForkData version root with
  | .error err => (emptyBytes32, some err)
  | .ok r => (r, none)

/-- Function `ComputeDomain` (bls.go 59-75). -/
def ComputeDomain {PK Sig : Type} (L : Crypto PK Sig) (domainType : Bytes4)
    (forkVersion genesisValidatorsRoot : Option (List Byte)) :
    Option (List Byte) × Option GoError :=
  let forkVersion := forkVersionOrDefault L forkVersion
  let genesisValidatorsRoot := rootOrDefault genesisValidatorsRoot
  let forkBytes := copyForkBytes (forkVersion.getD [])
  match computeForkDataRoot L forkBytes genesisValidatorsRoot with
  | (_, some err) => (none, some err)
  | (forkDataRoot, none) => (some (domain domainType forkDataRoot.val), none)

/-- Lines 96-103 of `VerifyEth1DepositSignature`: the configuration for a network name. -/
def networkConfig {PK Sig : Type} (L : Crypto PK Sig) (network : String) : BeaconChainConfig :=
  if network = "altona" then L.AltonaConfig
  else if network = "medalla" then L.MedallaConfig
  else if network = "spadina" then L.SpadinaConfig
  else L.BeaconConfig

/-- Function `VerifyEth1DepositSignature` (bls.go 95-136); the result is the returned
`error`, `none` for `nil`. -/
def VerifyEth1DepositSignature {PK Sig : Type} (L : Crypto PK Sig) (obj : DepositData)
    (network : String) : Option GoError :=
  let cfg := networkConfig L network
  match ComputeDomain L cfg.DomainDeposit cfg.GenesisForkVersion (some ZeroHash.val) with
  | (_, some err) => some (.wrap "could not get domain: %w" [] err)
  | (domain, none) =>
    match L.PublicKeyFromBytes obj.PublicKey with
    | .error err => some (.wrap "could not get pubkey: %w" [] err)
    | .ok blsPubkey =>
      match L.SignatureFromBytes obj.Signature with
      | .error err => some (.wrap "could not get sig %w" [] err)
      | .ok blsSig =>
        match L.SigningRoot obj with
        | .error err => some (.wrap "could not get root: %w" [] err)
        | .ok root =>
          match L.HashTreeRootSigningData root.val (domain.getD []) with
          | .error err => some (.wrap "could not get ctr root: %w" [] err)
          | .ok ctrRoot =>
            if ! L.Verify blsSig blsPubkey ctrRoot.val then
              some (.errorf "invalid signature" [])
            else none

end Bls

namespace Eth1

/-- Lines 231-233 of `ComputeDomain` in eth1.go. -/
def forkVersionOrDefault {PK Sig : Type} (L : Crypto PK Sig) (forkVersion : Option (List Byte)) :
    Option (List Byte) :=
  match forkVersion with
  | none => L.BeaconConfig.GenesisForkVersion
  | some v => some v

/-- Lines 234-236 of `ComputeDomain` in eth1.go. -/
def rootOrDefault (genesisValidatorsRoot : Option (List Byte)) : List Byte :=
  match genesisValidatorsRoot with
  | none => ZeroHash.val
  | some r => r

/-- Function `domain` (eth1.go 248-253). -/
def domain (domainType : Bytes4) (forkDataRoot : List Byte) : List Byte :=
  ([] ++ domainType.val.take 4) ++ forkDataRoot.take 28

/-- Function `computeForkDataRoot` (eth1.go 255-264). -/
def computeForkDataRoot {PK Sig : Type} (L : Crypto PK Sig) (version root : List Byte) :
    Bytes32 × Option GoError :=
  match L.HashTreeRootForkData version root with
  | .error err => (emptyBytes32, some err)
  | .ok r => (r, none)

/-- Function `ComputeDomain` (eth1.go 230-246). -/
def ComputeDomain {PK Sig : Type} (L : Crypto PK Sig) (domainType : Bytes4)
    (forkVersion genesisValidatorsRoot : Option (List Byte)) :
    Option (List Byte) × Option GoError :=
  let forkVersion := forkVersionOrDefault L forkVersion
  let genesisValidatorsRoot := rootOrDefault genesisValidatorsRoot
  let forkBytes := copyForkBytes (forkVersion.getD [])
  match computeForkDataRoot L forkBytes genesisValidatorsRoot with
  | (_, some err) => (none, some err)
  | (forkDataRoot, none) => (some (domain domainType forkDataRoot.val), none)

/-- Function `VerifyEth1DepositSignature` (eth1.go 266-300): the configuration is always
`params.SpadinaConfig()`. -/
def VerifyEth1DepositSignature {PK Sig : Type} (L : Crypto PK Sig) (obj : DepositData) :
    Option GoError :=
  let cfg := L.SpadinaConfig
  match ComputeDomain L cfg.DomainDeposit cfg.GenesisForkVersion (some ZeroHash.val) with
  | (_, some err) => some (.wrap "could not get domain: %w" [] err)
  | (domain, none) =>
    match L.PublicKeyFromBytes obj.PublicKey with
    | .error err => some (.wrap "could not get pubkey: %w" [] err)
    | .ok blsPubkey =>
      match L.SignatureFromBytes obj.Signature with
      | .error err => some (.wrap "could not get sig %w" [] err)
      | .ok blsSig =>
        match L.SigningRoot obj with
        | .error err => some (.wrap "could not get root: %w" [] err)
        | .ok root =>
          match L.HashTreeRootSigningData root.val (domain.getD []) with
          | .error err => some (.wrap "could not get ctr root: %w" [] err)
          | .ok ctrRoot =>
            if ! L.Verify blsSig blsPubkey ctrRoot.val then
              some (.errorf "invalid signature" [])
            else none

end Eth1

/-! ## Hexadecimal digits (`encoding/hex`) -/

/-- Value of one hexadecimal character (`fromHexChar` of `encoding/hex`). -/
def fromHexChar (c : Char) : Option Nat :=
  if 48 ≤ c.toNat ∧ c.toNat ≤ 57 then some (c.toNat - 48)
  else if 97 ≤ c.toNat ∧ c.toNat ≤ 102 then some (c.toNat - 87)
  else if 65 ≤ c.toNat ∧ c.toNat ≤ 70 then some (c.toNat - 55)
  else none

/-! ## Deposit log ingestion (`cmd/eth1/eth1.go`) -/

/-- Outcome of a Go call that may panic. -/
inductive Outcome (α : Type) where
  | panic (msg : String)
  | ret (value : α)
  deriving DecidableEq, Repr

/-- Go conversion `int64(x)` of a `uint64`. -/
def toInt64 (n : Nat) : Int :=
  if u64 n < 2 ^ 63 then (u64 n : Int) else (u64 n : Int) - 2 ^ 64

/-- The fields of `gethTypes.Log` that the ingester reads. -/
structure Log where
  Topics : List Bytes32
  Data : List Byte
  BlockNumber : Nat
  TxHash : Bytes32
  TxIndex : Nat
  Removed : Bool
  deriving DecidableEq, Repr

/-- The field of `gethTypes.Header` that the ingester reads. -/
structure Header where
  Time : Nat
  deriving DecidableEq, Repr

/-- A `gethTypes.Transaction` seen through its accessors: `Data()` and `ChainId()`;
`Raw` stands for the rest of the transaction.  `ChainId()` derives the chain id from the
signature value `V` through the pointer `tx.data.V`: it panics when that pointer is
`nil`, and otherwise returns a `*big.Int` (`none` for `nil`). -/
structure Transaction where
  Data : List Byte
  ChainId : Outcome (Option Nat)
  Raw : List Byte
  deriving DecidableEq, Repr

/-- Record `types.Eth1Deposit`. -/
structure Eth1Deposit where
  TxHash : List Byte
  TxInput : List Byte
  TxIndex : Nat
  BlockNumber : Nat
  BlockTs : Int
  FromAddress : List Byte
  PublicKey : List Byte
  WithdrawalCredentials : List Byte
  Amount : Nat
  Signature : List Byte
  MerkletreeIndex : List Byte
  Removed : Bool
  ValidSignature : Bool
  deriving DecidableEq, Repr

/-- An argument of a batch element (`interface{}`): a string or a boolean. -/
inductive BatchArg where
  | str (s : String)
  | bool (b : Bool)
  deriving DecidableEq, Repr

/-- The request part of a `gethRPC.BatchElem`. -/
structure BatchElem where
  Method : String
  Args : List BatchArg
  deriving DecidableEq, Repr

/-- The five byte fields returned by `contracts.UnpackDepositLogData`. -/
structure Unpacked where
  pubkey : List Byte
  withdrawalCredentials : List Byte
  amount : List Byte
  signature : List Byte
  merkletreeIndex : List Byte
  deriving DecidableEq, Repr

/-- Everything eth1.go reads from outside: the crypto library, `hashutil.HashKeccak256`,
the contract address, `eth1Client.FilterLogs`, `contracts.UnpackDepositLogData`,
`bytesutil.FromBytes8`, `hexutil.EncodeBig`, the RPC client, and sender recovery with
`NewEIP155Signer(chainID)`.

`eth1RPCClient.BatchCall(elems)` returns `batchTransport elems`; when that is `nil`,
element `i` either has its `Result` filled (`replyHeader` / `replyTx` is `ok`) or has its
`Error` field set (`error`), its `Result` staying the zero value. -/
structure Eth1Env (PK Sig : Type) where
  crypto : Crypto PK Sig
  HashKeccak256 : List Byte → Bytes32
  eth1DepositContractAddress : List Byte
  FilterLogs : List Byte → Nat → Nat → Except GoError (List Log)
  UnpackDepositLogData : List Byte → Except GoError Unpacked
  FromBytes8 : List Byte → Nat
  EncodeBig : Int → String
  batchTransport : List BatchElem → Option GoError
  replyHeader : List BatchElem → Nat → Except GoError Header
  replyTx : List BatchElem → Nat → Except GoError Transaction
  Sender : Nat → Transaction → Except GoError (List Byte)

/-- Bytes of an ASCII string (`[]byte(s)`). -/
def stringBytes (s : String) : List Byte := s.data.map fun c => Fin.ofNat c.toNat

/-- Variable `eth1DepositEventSignature` (eth1.go 28). -/
def eth1DepositEventSignature {PK Sig : Type} (env : Eth1Env PK Sig) : Bytes32 :=
  env.HashKeccak256 (stringBytes "DepositEvent(bytes,bytes,bytes,bytes,bytes)")

/-- Method `common.Hash.Hex`: `0x` followed by the lower-case hexadecimal digits. -/
def hashHex (h : Bytes32) : String := "0x" ++ hexKey h.val

/-- Zero value `&gethTypes.Header{}`. -/
def emptyHeader : Header := { Time := 0 }

/-- Zero value `&gethTypes.Transaction{}`: no calldata, and a `nil` signature value `V`,
so that `ChainId()` dereferences a `nil` pointer. -/
def emptyTransaction : Transaction :=
  { Data := []
    ChainId := .panic "runtime error: invalid memory address or nil pointer dereference"
    Raw := [] }

/-- The locals of `eth1BatchRequestHeadersAndTxs` before the call.  The maps hold
pointers: the index of the batch element whose `Result` is the same pointer. -/
structure BatchState where
  elems : List BatchElem
  headers : List (Nat × Nat)
  txs : List (String × Nat)
  errors : List (Option GoError)
  deriving DecidableEq, Repr

/-- The batch element of a block number (eth1.go 183-188). -/
def blockElem {PK Sig : Type} (env : Eth1Env PK Sig) (b : Nat) : BatchElem :=
  { Method := "eth_getBlockByNumber", Args := [.str (env.EncodeBig (toInt64 b)), .bool false] }

/-- The batch element of a transaction hash (eth1.go 196-201). -/
def txElem (txHashHex : String) : BatchElem :=
  { Method := "eth_getTransactionByHash", Args := [.str txHashHex] }

/-- Body of the first loop (eth1.go 180-191).  The local `err` is `nil`; the element and
the list `errors` each receive a copy of that `nil`. -/
def addBlockElem {PK Sig : Type} (env : Eth1Env PK Sig) (st : BatchState) (b : Nat) :
    BatchState :=
  { elems := st.elems ++ [blockElem env b]
    headers := mapSet st.headers b st.elems.length
    txs := st.txs
    errors := st.errors ++ [none] }

/-- Body of the second loop (eth1.go 193-204). -/
def addTxElem (st : BatchState) (txHashHex : String) : BatchState :=
  { elems := st.elems ++ [txElem txHashHex]
    headers := st.headers
    txs := mapSet st.txs txHashHex st.elems.length
    errors := st.errors ++ [none] }

/-- Loop `for _, e := range errors` (eth1.go 211-215): the first non-`nil` entry. -/
def firstError : List (Option GoError) → Option GoError
  | [] => none
  | some e :: _ => some e
  | none :: rest => firstError rest

/-- The header behind the pointer of element `i` after the call. -/
def headerAt {PK Sig : Type} (env : Eth1Env PK Sig) (elems : List BatchElem) (i : Nat) : Header :=
  match env.replyHeader elems i with
  | .ok h => h
  | .error _ => emptyHeader

/-- The transaction behind the pointer of element `i` after the call. -/
def txAt {PK Sig : Type} (env : Eth1Env PK Sig) (elems : List BatchElem) (i : Nat) :
    Transaction :=
  match env.replyTx elems i with
  | .ok t => t
  | .error _ => emptyTransaction

/-- Result of `eth1BatchRequestHeadersAndTxs`: the two maps (`none` for `nil`), the error,
and the batches handed to `BatchCall`, in call order. -/
structure BatchResult where
  headers : Option (List (Nat × Header))
  txs : Option (List (String × Transaction))
  err : Option GoError
  batchCalls : List (List BatchElem)
  deriving DecidableEq, Repr

/-- Function `eth1BatchRequestHeadersAndTxs` (eth1.go 174-218). -/
def eth1BatchRequestHeadersAndTxs {PK Sig : Type} (env : Eth1Env PK Sig)
    (blocksToFetch : List Nat) (txsToFetch : List String) : BatchResult :=
  let st0 : BatchState := { elems := [], headers := [], txs := [], errors := [] }
  let st1 := blocksToFetch.foldl (addBlockElem env) st0
  let st2 := txsToFetch.foldl addTxElem st1
  match env.batchTransport st2.elems with
  | some ioErr => { headers := none, txs := none, err := some ioErr, batchCalls := [st2.elems] }
  | none =>
    match firstError st2.errors with
    | some e => { headers := none, txs := none, err := some e, batchCalls := [st2.elems] }
    | none =>
      { headers := some (st2.headers.map fun kv => (kv.1, headerAt env st2.elems kv.2))
        txs := some (st2.txs.map fun kv => (kv.1, txAt env st2.elems kv.2))
        err := none
        batchCalls := [st2.elems] }

/-- The deposit appended for one unpacked log (eth1.go 114-134): the signature is
verified, and `validSignature := err == nil`. -/
def newDeposit {PK Sig : Type} (env : Eth1Env PK Sig) (depositLog : Log) (u : Unpacked) :
    Eth1Deposit :=
  let err := Eth1.VerifyEth1DepositSignature env.crypto
    { PublicKey := u.pubkey, WithdrawalCredentials := u.withdrawalCredentials,
      Amount := env.FromBytes8 u.amount, Signature := u.signature }
  let validSignature := err.isNone
  { TxHash := depositLog.TxHash.val, TxInput := [], TxIndex := depositLog.TxIndex,
    BlockNumber := depositLog.BlockNumber, BlockTs := 0, FromAddress := [],
    PublicKey := u.pubkey, WithdrawalCredentials := u.withdrawalCredentials,
    Amount := env.FromBytes8 u.amount, Signature := u.signature,
    MerkletreeIndex := u.merkletreeIndex, Removed := depositLog.Removed,
    ValidSignature := validSignature }

/-- The three lists that the log loop of `fetchEth1Deposits` builds. -/
structure Collected where
  depositsToSave : List Eth1Deposit
  blocksToFetch : List Nat
  txsToFetch : List String
  deriving DecidableEq, Repr

/-- The log loop of `fetchEth1Deposits` (eth1.go 98-135).  `Topics[0]` panics on an empty
topic list; a failing unpack leaves the loop with the lists built so far and the error. -/
def collectDeposits {PK Sig : Type} (env : Eth1Env PK Sig) :
    List Log → Collected → Outcome (Collected × Option GoError)
  | [], acc => .ret (acc, none)
  | depositLog :: rest, acc =>
    match depositLog.Topics with
    | [] => .panic "runtime error: index out of range [0] with length 0"
    | topic0 :: _ =>
      if topic0 ≠ eth1DepositEventSignature env then collectDeposits env rest acc
      else
        match env.UnpackDepositLogData depositLog.Data with
        | .error err =>
          .ret (acc, some (.wrap "error unpacking eth1-deposit-log: %x: %w"
            [hexKey depositLog.Data] err))
        | .ok u =>
          collectDeposits env rest
            { blocksToFetch := acc.blocksToFetch ++ [depositLog.BlockNumber]
              txsToFetch := acc.txsToFetch ++ [hashHex depositLog.TxHash]
              depositsToSave := acc.depositsToSave ++ [newDeposit env depositLog u] }

/-- The enrichment loop of `fetchEth1Deposits` (eth1.go 142-166).  The deposits are
updated in place, so the list returned with an error holds the deposits as far as they
have been filled.  The call `tx.ChainId()` (eth1.go 156) may panic, which ends the loop. -/
def enrichDeposits {PK Sig : Type} (env : Eth1Env PK Sig) (headers : List (Nat × Header))
    (txs : List (String × Transaction)) :
    List Eth1Deposit → Outcome (List Eth1Deposit × Option GoError)
  | [] => .ret ([], none)
  | d :: rest =>
    match mapGet headers d.BlockNumber with
    | none =>
      .ret (d :: rest, some (.errorf
        "error getting block for eth1-deposit: block does not exist in fetched map" []))
    | some b =>
      let d1 := { d with BlockTs := toInt64 b.Time }
      match mapGet txs ("0x" ++ hexKey d.TxHash) with
      | none =>
        .ret (d1 :: rest, some (.errorf
          "error getting tx for eth1-deposit: tx does not exist in fetched map" []))
      | some tx =>
        let d2 := { d1 with TxInput := tx.Data }
        match tx.ChainId with
        | .panic msg => .panic msg
        | .ret none =>
          .ret (d2 :: rest, some (.errorf "error getting tx-chainId for eth1-deposit" []))
        | .ret (some chainID) =>
          match env.Sender chainID tx with
          | .error _ =>
            .ret (d2 :: rest, some (.errorf "error getting sender for eth1-deposit" []))
          | .ok sender =>
            match enrichDeposits env headers txs rest with
            | .panic msg => .panic msg
            | .ret out => .ret ({ d2 with FromAddress := sender } :: out.1, out.2)

/-- Result of `fetchEth1Deposits`: the named result `depositsToSave` (`nil` is `[]`), the
error, and the batches handed to `BatchCall`. -/
structure FetchResult where
  depositsToSave : List Eth1Deposit
  err : Option GoError
  batchCalls : List (List BatchElem)
  deriving DecidableEq, Repr

/-- Function `fetchEth1Deposits` (eth1.go 81-169). -/
def fetchEth1Deposits {PK Sig : Type} (env : Eth1Env PK Sig) (fromBlock toBlock : Nat) :
    Outcome FetchResult :=
  match env.FilterLogs env.eth1DepositContractAddress fromBlock toBlock with
  | .error err =>
    .ret { depositsToSave := [],
           err := some (.wrap "error getting logs from eth1-client: %w" [] err),
           batchCalls := [] }
  | .ok depositLogs =>
    match collectDeposits env depositLogs
        { depositsToSave := [], blocksToFetch := [], txsToFetch := [] } with
    | .panic msg => .panic msg
    | .ret (c, some err) => .ret { depositsToSave := c.depositsToSave, err := some err,
                                   batchCalls := [] }
    | .ret (c, none) =>
      let res := eth1BatchRequestHeadersAndTxs env c.blocksToFetch c.txsToFetch
      match res.err with
      | some err =>
        .ret { depositsToSave := c.depositsToSave,
               err := some (.wrap "error getting eth1-blocks: %w" [] err),
               batchCalls := res.batchCalls }
      | none =>
        match enrichDeposits env (res.headers.getD []) (res.txs.getD []) c.depositsToSave with
        | .panic msg => .panic msg
        | .ret out =>
          .ret { depositsToSave := out.1, err := out.2, batchCalls := res.batchCalls }

/-- Function `fetchEth1Deposits` once more, together with the batches that it has handed
to `BatchCall` by the time it ends, also when it ends in a panic. -/
def fetchEth1DepositsTraced {PK Sig : Type} (env : Eth1Env PK Sig) (fromBlock toBlock : Nat) :
    List (List BatchElem) × Outcome FetchResult :=
  match env.FilterLogs env.eth1DepositContractAddress fromBlock toBlock with
  | .error err =>
    ([], .ret { depositsToSave := [],
                err := some (.wrap "error getting logs from eth1-client: %w" [] err),
                batchCalls := [] })
  | .ok depositLogs =>
    match collectDeposits env depositLogs
        { depositsToSave := [], blocksToFetch := [], txsToFetch := [] } with
    | .panic msg => ([], .panic msg)
    | .ret (c, some err) =>
      ([], .ret { depositsToSave := c.depositsToSave, err := some err, batchCalls := [] })
    | .ret (c, none) =>
      let res := eth1BatchRequestHeadersAndTxs env c.blocksToFetch c.txsToFetch
      match res.err with
      | some err =>
        (res.batchCalls,
         .ret { depositsToSave := c.depositsToSave,
                err := some (.wrap "error getting eth1-blocks: %w" [] err),
                batchCalls := res.batchCalls })
      | none =>
        match enrichDeposits env (res.headers.getD []) (res.txs.getD []) c.depositsToSave with
        | .panic msg => (res.batchCalls, .panic msg)
        | .ret out =>
          (res.batchCalls,
           .ret { depositsToSave := out.1, err := out.2, batchCalls := res.batchCalls })

/-! ## The block loop with its fetches (`rpc/hybrid.go` 63-74) -/

/-- The loop `blockLoop` once more, together with the slots handed to `GetBlocksBySlot`,
in call order. -/
def blockLoopTraced (w : World) (hi : Nat) :
    Nat → Nat → BlockMap → Option (Except GoError BlockMap × List Nat)
  | 0, slot, data => if slot ≤ hi then none else some (.ok data, [])
  | fuel + 1, slot, data =>
    if slot ≤ hi then
      match w.GetBlocksBySlot slot with
      | .error err => some (.error err, [slot])
      | .ok blocks =>
        (blockLoopTraced w hi fuel (u64 (slot + 1)) (mergeBlocks data blocks)).map
          fun r => (r.1, slot :: r.2)
    else some (.ok data, [])

/-! ## The charts page (`services/charts_updater.go`) -/

/-- The names and orders of the map `ChartHandlers` (charts_updater.go 20-35). -/
def ChartHandlers : List (String × Int) :=
  [("blocks", 1), ("validators", 2), ("staked_ether", 3), ("average_balance", 4),
   ("network_liveness", 5), ("participation_rate", 6), ("validator_income", 7),
   ("staking_rewards", 8), ("stake_effectiveness", 9), ("balance_distribution", 10),
   ("effective_balance_distribution", 11), ("performance_distribution_365d", 12),
   ("deposits", 13), ("graffiti_wordcloud", 14)]

/-- Local type `chartHandlerRes` (charts_updater.go 70-75); `D` is
`types.GenericChartData`. -/
structure chartHandlerRes (D : Type) where
  Order : Int
  Path : String
  Data : Option D
  Error : Option GoError

/-- Record `types.ChartsPageDataChart`. -/
structure ChartsPageDataChart (D : Type) where
  Order : Int
  Path : String
  Data : Option D

/-- The worker of one handler (charts_updater.go 83-90): it calls the `DataFunc` of the
handler and sends one result.  `dataFunc name` is the pair returned by that call. -/
def runChartHandler {D : Type} (dataFunc : String → Option D × Option GoError)
    (handler : String × Int) : chartHandlerRes D :=
  { Order := handler.2, Path := handler.1, Data := (dataFunc handler.1).1,
    Error := (dataFunc handler.1).2 }

/-- The receive loop (charts_updater.go 98-109) over the results in the order in which
the channel delivers them: the first result with an error ends the call. -/
def receiveCharts {D : Type} :
    List (chartHandlerRes D) → List (ChartsPageDataChart D) →
      Except GoError (List (ChartsPageDataChart D))
  | [], pageCharts => .ok pageCharts
  | chart :: rest, pageCharts =>
    match chart.Error with
    | some err => .error err
    | none =>
      receiveCharts rest
        (pageCharts ++ [{ Order := chart.Order, Path := chart.Path, Data := chart.Data }])

/-- Insertion of one chart before the first chart of a larger order. -/
def insertChart {D : Type} (c : ChartsPageDataChart D) :
    List (ChartsPageDataChart D) → List (ChartsPageDataChart D)
  | [] => [c]
  | x :: xs => if c.Order < x.Order then c :: x :: xs else x :: insertChart c xs

/-- The call `sort.Slice(pageCharts, Order <)` (charts_updater.go 111-113), as an
insertion sort.  `sort.Slice` is not stable; charts of pairwise distinct orders have
one sorted arrangement only. -/
def sortCharts {D : Type} : List (ChartsPageDataChart D) → List (ChartsPageDataChart D)
  | [] => []
  | c :: cs => insertChart c (sortCharts cs)

/-- Function `getChartsPageData` (charts_updater.go 69-116).  Every handler of
`ChartHandlers` runs in its own goroutine and sends one result on a channel large
enough for all; `arrival` lists the handlers in the order in which their results are
received. -/
def getChartsPageData {D : Type} (dataFunc : String → Option D × Option GoError)
    (arrival : List (String × Int)) : Option (List (ChartsPageDataChart D)) × Option GoError :=
  match receiveCharts (arrival.map (runChartHandler dataFunc)) [] with
  | .error err => (none, some err)
  | .ok pageCharts => (some (sortCharts pageCharts), none)

/-! ## Query parameters of the validators table (`handlers/validators.go`) -/

/-- Type `ValidatorsDataQueryParams` (validators.go 97-105).  `Search` is kept as the
bytes of the Go string, since it is cut by byte length. -/
structure ValidatorsDataQueryParams where
  Search : List Byte
  OrderBy : String
  OrderDir : String
  Draw : Nat
  Start : Nat
  Length : Int
  StateFilter : String
  deriving DecidableEq, Repr

/-- The call `strings.Replace(s, "0x", "", -1)` on the bytes of `s`: every occurrence of
`0x`, from left to right, is dropped. -/
def remove0x : List Byte → List Byte
  | [] => []
  | [b] => [b]
  | a :: b :: rest =>
    if a = 48 ∧ b = 120 then remove0x rest else a :: remove0x (b :: rest)

/-- The `switch filterByState` (validators.go 117-144). -/
def stateFilterClause (filterByState : List Byte) : String :=
  if filterByState = stringBytes "pending" then "AND a.state LIKE 'pending%'"
  else if filterByState = stringBytes "active" then "AND a.state LIKE 'active%'"
  else if filterByState = stringBytes "active_online" then "AND a.state = 'active_online'"
  else if filterByState = stringBytes "active_offline" then "AND a.state = 'active_offline'"
  else if filterByState = stringBytes "slashing" then "AND a.state LIKE 'slashing%'"
  else if filterByState = stringBytes "slashing_online" then "AND a.state = 'slashing_online'"
  else if filterByState = stringBytes "slashing_offline" then
    "AND a.state = 'slashing_offline'"
  else if filterByState = stringBytes "slashed" then "AND a.state = 'slashed'"
  else if filterByState = stringBytes "exiting" then "AND a.state LIKE 'exiting%'"
  else if filterByState = stringBytes "exiting_online" then "AND a.state = 'exiting_online'"
  else if filterByState = stringBytes "exiting_offline" then "AND a.state = 'exiting_offline'"
  else if filterByState = stringBytes "exited" then "AND a.state = 'exited'"
  else ""

/-- The map `orderByMap` (validators.go 147-157). -/
def orderByMap : List (List Byte × String) :=
  [(stringBytes "0", "pubkey"), (stringBytes "1", "validatorindex"),
   (stringBytes "2", "balance"), (stringBytes "3", "state"),
   (stringBytes "4", "activationepoch"), (stringBytes "5", "exitepoch"),
   (stringBytes "6", "withdrawableepoch"), (stringBytes "7", "lastattestationslot"),
   (stringBytes "8", "executedproposals")]

/-- Function `parseValidatorsDataQueryParams` (validators.go 107-211).  `q key` is the
value `q.Get(key)` as bytes; `ParseUint` and `ParseInt` are the calls of `strconv` with
base 10 and 64 bits. -/
def parseValidatorsDataQueryParams (ParseUint : List Byte → Except GoError Nat)
    (ParseInt : List Byte → Except GoError Int) (q : String → List Byte) :
    Option ValidatorsDataQueryParams × Option GoError :=
  let search := remove0x (q "search[value]")
  let search := if search.length > 128 then search.take 128 else search
  let qryStateFilter := stateFilterClause (q "filterByState")
  let orderBy :=
    match mapGet orderByMap (q "order[0][column]") with
    | some column => column
    | none => "validatorindex"
  let orderDir := q "order[0][dir]"
  let orderDir : String :=
    if orderDir ≠ stringBytes "desc" ∧ orderDir ≠ stringBytes "asc" then "desc"
    else if orderDir = stringBytes "desc" then "desc" else "asc"
  let orderDir :=
    if orderBy = "lastattestationslot" then
      if orderDir = "desc" then "desc nulls last" else "asc nulls first"
    else orderDir
  match ParseUint (q "draw") with
  | .error err => (none, some err)
  | .ok draw =>
    match ParseUint (q "start") with
    | .error err => (none, some err)
    | .ok start =>
      match ParseInt (q "length") with
      | .error err => (none, some err)
      | .ok length =>
        let length := if length < 0 then 100 else length
        let length := if length > 100 then 100 else length
        (some { Search := search, OrderBy := orderBy, OrderDir := orderDir, Draw := draw,
                Start := start, Length := length, StateFilter := qryStateFilter }, none)

/-! ## POAP graffiti (`cmd/foo2/foo.go`) -/

/-- Variable `poapClients` (foo.go 127). -/
def poapClients : List String := ["Prysm", "Lighthouse", "Teku", "Nimbus", "Lodestar"]

/-- Value of one character of the standard base64 alphabet. -/
def base64Value (c : Byte) : Option Nat :=
  if 65 ≤ c.val ∧ c.val ≤ 90 then some (c.val - 65)
  else if 97 ≤ c.val ∧ c.val ≤ 122 then some (c.val - 71)
  else if 48 ≤ c.val ∧ c.val ≤ 57 then some (c.val + 4)
  else if c.val = 43 then some 62
  else if c.val = 47 then some 63
  else none

/-- Decoding of padded standard base64, quantum by quantum: four characters give three
bytes; `xx==` and `xxx=` are allowed as the last quantum only. -/
def base64Quanta : List Byte → Except GoError (List Byte)
  | [] => .ok []
  | a :: b :: c :: d :: rest =>
    match base64Value a, base64Value b with
    | some x, some y =>
      if c.val = 61 ∧ d.val = 61 ∧ rest = [] then
        .ok [Fin.ofNat ((x * 64 + y) / 16)]
      else
        match base64Value c with
        | none => .error (.lib "illegal base64 data")
        | some z =>
          if d.val = 61 ∧ rest = [] then
            .ok [Fin.ofNat (((x * 64 + y) * 64 + z) / 1024),
                 Fin.ofNat (((x * 64 + y) * 64 + z) / 4)]
          else
            match base64Value d with
            | none => .error (.lib "illegal base64 data")
            | some v =>
              match base64Quanta rest with
              | .error err => .error err
              | .ok bytes =>
                .ok (Fin.ofNat ((((x * 64 + y) * 64 + z) * 64 + v) / 65536) ::
                     Fin.ofNat ((((x * 64 + y) * 64 + z) * 64 + v) / 256) ::
                     Fin.ofNat ((((x * 64 + y) * 64 + z) * 64 + v)) :: bytes)
    | _, _ => .error (.lib "illegal base64 data")
  | _ => .error (.lib "illegal base64 data")

/-- The call `base64.StdEncoding.DecodeString`: carriage returns and line feeds are
skipped, the rest is decoded quantum by quantum. -/
def base64DecodeString (s : List Byte) : Except GoError (List Byte) :=
  base64Quanta (s.filter fun c => c.val ≠ 13 ∧ c.val ≠ 10)

/-- Digits of `strconv.ParseInt(s, 16, 64)` read from the left. -/
def parseHexDigits : List Char → Nat → Option Nat
  | [], acc => some acc
  | c :: rest, acc =>
    match fromHexChar c with
    | some v => parseHexDigits rest (acc * 16 + v)
    | none => none

/-- The call `strconv.ParseInt(s, 16, 64)`: an optional sign, then at least one
hexadecimal digit, and a value that fits 64 bits. -/
def ParseInt16 (s : List Char) : Except GoError Int :=
  let body := match s with
    | '+' :: rest => rest
    | '-' :: rest => rest
    | other => other
  let negative := s.head? = some '-'
  if body = [] then .error (.lib "strconv.ParseInt: invalid syntax")
  else
    match parseHexDigits body 0 with
    | none => .error (.lib "strconv.ParseInt: invalid syntax")
    | some n =>
      if negative then
        if n ≤ 2 ^ 63 then .ok (-(n : Int))
        else .error (.lib "strconv.ParseInt: value out of range")
      else
        if n < 2 ^ 63 then .ok (n : Int)
        else .error (.lib "strconv.ParseInt: value out of range")

/-- Function `decodePoapGraffiti` (foo.go 129-153).  The graffiti is the byte sequence
of the Go string; the result is `(eth1Address, client, err)`.  `IsValidEth1Address` is
the helper of package `utils`. -/
def decodePoapGraffiti (IsValidEth1Address : String → Bool) (graffiti : List Byte) :
    Outcome (String × String × Option GoError) :=
  if graffiti.length ≠ 32 then .ret ("", "", some (.errorf "invalid graffiti-length" []))
  else
    match base64DecodeString (graffiti.drop 4) with
    | .error err => .ret ("", "", some (.wrap "failed decoding base64: %w" [] err))
    | .ok b =>
      let str := hexChars b
      if str.length ≠ 42 then .ret ("", "", some (.errorf "invalid length" []))
      else
        let eth1Address := "0x" ++ String.mk (str.take 40)
        if ! IsValidEth1Address eth1Address then
          .ret ("", "", some (.errorf "invalid eth1-address: %v" [eth1Address]))
        else
          match ParseInt16 (str.drop 40) with
          | .error err =>
            .ret ("", "", some (.wrap "invalid clientID: %v: %w" [String.mk (str.drop 40)] err))
          | .ok clientID =>
            if clientID < 0 ∨ (poapClients.length : Int) < clientID then
              .ret ("", "", some (.errorf "invalid clientID: %v" [String.mk (str.drop 40)]))
            else
              match poapClients.get? clientID.toNat with
              | none => .panic "runtime error: index out of range"
              | some client => .ret (eth1Address, client, none)

/-- A stand-in for `utils.IsValidEth1Address`: `0x` followed by forty hexadecimal
digits. -/
def sampleIsValidEth1Address (s : String) : Bool :=
  match s.data with
  | '0' :: 'x' :: digits => decide (digits.length = 40) && digits.all fun c => (fromHexChar c).isSome
  | _ => false

/-! ## Counters of the validator page (`handlers/validator.go`) -/

/-- One row of the query `proposedBlocksCount` (validator.go 192-196). -/
structure ProposedBlocksCountRow where
  Count : Nat
  Status : Nat
  Cutoff : Nat
  deriving DecidableEq, Repr

/-- The counters that the loop of validator.go 229-279 updates: five fields of
`validatorPageData` and the six window counters. -/
structure ProposalCounters where
  TotalProposedBlocksCount : Nat
  OrphanedProposedBlocksCount : Nat
  MissedProposedBlocksCount : Nat
  ExecutedProposedBlocksCount : Nat
  ScheduledProposedBlocksCount : Nat
  missedProposedBlocksCount1d : Nat
  missedProposedBlocksCount7d : Nat
  missedProposedBlocksCount31d : Nat
  executedProposedBlocksCount1d : Nat
  executedProposedBlocksCount7d : Nat
  executedProposedBlocksCount31d : Nat
  deriving DecidableEq, Repr

/-- Body of the loop (validator.go 230-278); every `+=` is an addition of `uint64`, and
`fallthrough` runs the following cases too. -/
def countRow (s : ProposalCounters) (c : ProposedBlocksCountRow) : ProposalCounters :=
  let s := { s with TotalProposedBlocksCount := u64 (s.TotalProposedBlocksCount + c.Count) }
  if c.Status = 3 then
    { s with OrphanedProposedBlocksCount := u64 (s.OrphanedProposedBlocksCount + c.Count) }
  else if c.Status = 2 then
    let s := if c.Cutoff = 1 then
      { s with missedProposedBlocksCount1d := u64 (s.missedProposedBlocksCount1d + c.Count) }
      else s
    let s := if c.Cutoff = 1 ∨ c.Cutoff = 7 then
      { s with missedProposedBlocksCount7d := u64 (s.missedProposedBlocksCount7d + c.Count) }
      else s
    let s := if c.Cutoff = 1 ∨ c.Cutoff = 7 ∨ c.Cutoff = 31 then
      { s with missedProposedBlocksCount31d := u64 (s.missedProposedBlocksCount31d + c.Count) }
      else s
    { s with MissedProposedBlocksCount := u64 (s.MissedProposedBlocksCount + c.Count) }
  else if c.Status = 1 then
    let s := if c.Cutoff = 1 then
      { s with executedProposedBlocksCount1d := u64 (s.executedProposedBlocksCount1d + c.Count) }
      else s
    let s := if c.Cutoff = 1 ∨ c.Cutoff = 7 then
      { s with executedProposedBlocksCount7d := u64 (s.executedProposedBlocksCount7d + c.Count) }
      else s
    let s := if c.Cutoff = 1 ∨ c.Cutoff = 7 ∨ c.Cutoff = 31 then
      { s with
        executedProposedBlocksCount31d := u64 (s.executedProposedBlocksCount31d + c.Count) }
      else s
    { s with ExecutedProposedBlocksCount := u64 (s.ExecutedProposedBlocksCount + c.Count) }
  else if c.Status = 0 then
    { s with ScheduledProposedBlocksCount := u64 (s.ScheduledProposedBlocksCount + c.Count) }
  else s

/-- The counters before the loop: all zero. -/
def zeroCounters : ProposalCounters :=
  { TotalProposedBlocksCount := 0, OrphanedProposedBlocksCount := 0,
    MissedProposedBlocksCount := 0, ExecutedProposedBlocksCount := 0,
    ScheduledProposedBlocksCount := 0, missedProposedBlocksCount1d := 0,
    missedProposedBlocksCount7d := 0, missedProposedBlocksCount31d := 0,
    executedProposedBlocksCount1d := 0, executedProposedBlocksCount7d := 0,
    executedProposedBlocksCount31d := 0 }

/-- The loop of validator.go 229-279. -/
def countProposedBlocks (rows : List ProposedBlocksCountRow) : ProposalCounters :=
  rows.foldl countRow zeroCounters

/-- Sum of the counts of the rows that satisfy `p`. -/
def sumWhere (p : ProposedBlocksCountRow → Bool) (rows : List ProposedBlocksCountRow) : Nat :=
  ((rows.filter p).map (·.Count)).sum

/-- The counters as the specification words them: for each counter, the sum of the
counts of the rows of its status whose cutoff lies within its window. -/
def specCounters (rows : List ProposedBlocksCountRow) : ProposalCounters :=
  { TotalProposedBlocksCount := sumWhere (fun _ => true) rows
    OrphanedProposedBlocksCount := sumWhere (fun r => decide (r.Status = 3)) rows
    MissedProposedBlocksCount := sumWhere (fun r => decide (r.Status = 2)) rows
    ExecutedProposedBlocksCount := sumWhere (fun r => decide (r.Status = 1)) rows
    ScheduledProposedBlocksCount := sumWhere (fun r => decide (r.Status = 0)) rows
    missedProposedBlocksCount1d :=
      sumWhere (fun r => decide (r.Status = 2 ∧ r.Cutoff = 1)) rows
    missedProposedBlocksCount7d :=
      sumWhere (fun r => decide (r.Status = 2 ∧ (r.Cutoff = 1 ∨ r.Cutoff = 7))) rows
    missedProposedBlocksCount31d :=
      sumWhere (fun r => decide (r.Status = 2 ∧ (r.Cutoff = 1 ∨ r.Cutoff = 7 ∨ r.Cutoff = 31)))
        rows
    executedProposedBlocksCount1d :=
      sumWhere (fun r => decide (r.Status = 1 ∧ r.Cutoff = 1)) rows
    executedProposedBlocksCount7d :=
      sumWhere (fun r => decide (r.Status = 1 ∧ (r.Cutoff = 1 ∨ r.Cutoff = 7))) rows
    executedProposedBlocksCount31d :=
      sumWhere (fun r => decide (r.Status = 1 ∧ (r.Cutoff = 1 ∨ r.Cutoff = 7 ∨ r.Cutoff = 31)))
        rows }

/-! ## Income of the validator page (`handlers/validator.go` 392-426) -/

/-- Record `types.ValidatorBalanceHistory`. -/
structure ValidatorBalanceHistory where
  Epoch : Nat
  Balance : Nat
  deriving DecidableEq, Repr

/-- Subtraction of `int64` values. -/
def subInt64 (a b : Int) : Int :=
  let d := (a - b) % 2 ^ 64
  if d < 2 ^ 63 then d else d - 2 ^ 64

/-- The income fields of `validatorPageData`. -/
structure Incomes where
  Income1d : Int
  Income7d : Int
  Income31d : Int
  IncomeTotal : Int
  deriving DecidableEq, Repr

/-- Body of the loop over the balance history (validator.go 402-416), without the chart
point.  Instants are nanoseconds; `EpochToTime` is the helper of package `utils`. -/
def incomeRow (EpochToTime : Nat → Int) (cutoff1d cutoff7d cutoff31d : Int)
    (CurrentBalance : Nat) (s : Incomes) (balance : ValidatorBalanceHistory) : Incomes :=
  let balanceTs := EpochToTime balance.Epoch
  let s := if balanceTs < cutoff1d then
    { s with Income1d := subInt64 (toInt64 CurrentBalance) (toInt64 balance.Balance) } else s
  let s := if balanceTs < cutoff7d then
    { s with Income7d := subInt64 (toInt64 CurrentBalance) (toInt64 balance.Balance) } else s
  let s := if balanceTs < cutoff31d then
    { s with Income31d := subInt64 (toInt64 CurrentBalance) (toInt64 balance.Balance) } else s
  s

/-- The income computation of the handler `Validator` (validator.go 400-426): the loop,
then three reads of `balanceHistory[0]`, each of which panics on an empty history. -/
def computeIncome (EpochToTime : Nat → Int) (cutoff1d cutoff7d cutoff31d : Int)
    (CurrentBalance : Nat) (balanceHistory : List ValidatorBalanceHistory) : Outcome Incomes :=
  let s0 : Incomes := { Income1d := 0, Income7d := 0, Income31d := 0, IncomeTotal := 0 }
  let s := balanceHistory.foldl (incomeRow EpochToTime cutoff1d cutoff7d cutoff31d CurrentBalance)
    s0
  let first := balanceHistory.head?
  let step7 : Outcome Incomes :=
    if s.Income7d = 0 then
      match first with
      | none => .panic "runtime error: index out of range [0] with length 0"
      | some h =>
        .ret { s with Income7d := subInt64 (toInt64 CurrentBalance) (toInt64 h.Balance) }
    else .ret s
  match step7 with
  | .panic msg => .panic msg
  | .ret s =>
    let step31 : Outcome Incomes :=
      if s.Income31d = 0 then
        match first with
        | none => .panic "runtime error: index out of range [0] with length 0"
        | some h =>
          .ret { s with Income31d := subInt64 (toInt64 CurrentBalance) (toInt64 h.Balance) }
      else .ret s
    match step31 with
    | .panic msg => .panic msg
    | .ret s =>
      match first with
      | none => .panic "runtime error: index out of range [0] with length 0"
      | some h =>
        .ret { s with IncomeTotal := subInt64 (toInt64 CurrentBalance) (toInt64 h.Balance) }

/-! ### Vocabulary for the statements about the ingester -/

/-- Topic-0 of the log is the deposit event signature. -/
def matchesDepositEvent {PK Sig : Type} (env : Eth1Env PK Sig) (l : Log) : Bool :=
  decide (l.Topics.head? = some (eth1DepositEventSignature env))

/-- A deposit with the three fields of the enrichment loop reset. -/
def stripEnrichment (d : Eth1Deposit) : Eth1Deposit :=
  { d with BlockTs := 0, TxInput := [], FromAddress := [] }

/-- A deposit with its verification flag reset. -/
def clearValidSignature (d : Eth1Deposit) : Eth1Deposit :=
  { d with ValidSignature := false }

/-- A result of `fetchEth1Deposits` with the verification flags reset. -/
def clearFlags (r : FetchResult) : FetchResult :=
  { r with depositsToSave := r.depositsToSave.map clearValidSignature }

/-- Application of a function to a returned value. -/
def mapOutcome {α β : Type} (f : α → β) : Outcome α → Outcome β
  | .panic msg => .panic msg
  | .ret a => .ret (f a)

/-- The lists of the log loop with the verification flags reset. -/
def clearCollected (c : Collected) : Collected :=
  { c with depositsToSave := c.depositsToSave.map clearValidSignature }

/-- The flag of the deposit tells whether the verifier of eth1.go returns `nil` on the
four signed fields of the deposit. -/
def flagMatchesVerifier {PK Sig : Type} (env : Eth1Env PK Sig) (d : Eth1Deposit) : Prop :=
  d.ValidSignature = true ↔
    Eth1.VerifyEth1DepositSignature env.crypto
      { PublicKey := d.PublicKey, WithdrawalCredentials := d.WithdrawalCredentials,
        Amount := d.Amount, Signature := d.Signature } = none

/-! ## Sample worlds -/

/-- A proposed block with the given slot, root and proposer. -/
def sampleBlock (slot : Nat) (root : List Byte) (proposer : Nat) : Block :=
  { Status := 1, Proposer := proposer, BlockRoot := root, Slot := slot, ParentRoot := [],
    StateRoot := [], Signature := [], RandaoReveal := [], Graffiti := [], BodyRoot := [],
    Eth1Data := emptyEth1Data, Ops := emptyOps }

/-- Participation statistics of the sample worlds. -/
def sampleStats (epoch : Nat) : ValidatorParticipation :=
  { Epoch := epoch, Finalized := true, GlobalParticipationRate := 1, VotedEther := 1,
    EligibleEther := 2 }

/-- Two slots per epoch, twelve seconds per slot, the clock at 100 s.  Slot 2 has two
competing blocks, slot 3 has none; both slots have a proposer. -/
def sampleWorld : World :=
  { SlotsPerEpoch := 2
    SlotToTime := fun s => 12000000000 * s
    now := fun _ => 100000000000
    GetEpochAssignments := fun _ =>
      .ok { ProposerAssignments := [(3, 7), (2, 9)], AttestorAssignments := [] }
    GetBlocksBySlot := fun s =>
      if s = 2 then .ok [sampleBlock 2 [171, 1] 9, sampleBlock 2 [171, 2] 9] else .ok []
    GetValidators := fun _ => .ok []
    GetValidatorParticipation := fun e => .ok (sampleStats e) }

/-- What `GetEpochData` returns for epoch 1 of `sampleWorld`. -/
def sampleData : EpochData :=
  { Epoch := 1
    Validators := []
    ValidatorAssignmentes := { ProposerAssignments := [(3, 7), (2, 9)], AttestorAssignments := [] }
    Blocks :=
      [(2, [("ab01", sampleBlock 2 [171, 1] 9), ("ab02", sampleBlock 2 [171, 2] 9)]),
       (3, [("0x0", { sampleBlock 3 [1] 7 with Status := 2 })])]
    EpochParticipationStats := sampleStats 1 }

/-- The world `sampleWorld` with a failing validator-set fetch. -/
def sampleWorldNoValidators : World :=
  { sampleWorld with GetValidators := fun _ => .error (.lib "validators unavailable") }

/-- A world whose block adapter returns, for slot 2, two blocks with the same root and
different proposers. -/
def sampleWorldSameRoot : World :=
  { sampleWorld with
    GetBlocksBySlot := fun s =>
      if s = 2 then .ok [sampleBlock 2 [171] 9, sampleBlock 2 [171] 8] else .ok [] }

/-! ## Sample library -/

/-- A stand-in for the ssz hash: the two fields followed by zeros, cut to 32 bytes. -/
def sampleHash (a b : List Byte) : Except GoError Bytes32 :=
  .ok ⟨(a ++ b ++ List.replicate 32 0).take 32, by simp; omega⟩

/-- A stand-in library.  The fork versions are those of the four networks; keys are 48
bytes, signatures 96 bytes; the BLS check answers `accept` for every input. -/
def sampleCrypto (accept : Bool) : Crypto (List Byte) (List Byte) :=
  { BeaconConfig := { DomainDeposit := ⟨[3, 0, 0, 0], rfl⟩, GenesisForkVersion := some [0, 0, 0, 0] }
    AltonaConfig := { DomainDeposit := ⟨[3, 0, 0, 0], rfl⟩, GenesisForkVersion := some [0, 0, 1, 21] }
    MedallaConfig := { DomainDeposit := ⟨[3, 0, 0, 0], rfl⟩, GenesisForkVersion := some [0, 0, 0, 1] }
    SpadinaConfig := { DomainDeposit := ⟨[3, 0, 0, 0], rfl⟩, GenesisForkVersion := some [0, 0, 0, 2] }
    HashTreeRootForkData := sampleHash
    SigningRoot := fun obj => sampleHash obj.PublicKey obj.WithdrawalCredentials
    HashTreeRootSigningData := sampleHash
    PublicKeyFromBytes := fun b =>
      if b.length = 48 then .ok b else .error (.lib "public key must be 48 bytes")
    SignatureFromBytes := fun b =>
      if b.length = 96 then .ok b else .error (.lib "signature must be 96 bytes")
    Verify := fun _ _ _ => accept }

/-- A deposit with a well-formed key and signature. -/
def sampleDeposit : DepositData :=
  { PublicKey := List.replicate 48 1, WithdrawalCredentials := List.replicate 32 0,
    Amount := 32000000000, Signature := List.replicate 96 2 }

/-- A deposit whose public key is too short. -/
def sampleDepositBadKey : DepositData :=
  { sampleDeposit with PublicKey := [1, 2, 3] }

/-- The deposit domain type `[3,0,0,0]`. -/
def sampleDomainType : Bytes4 := ⟨[3, 0, 0, 0], rfl⟩

/-! ## Sample execution node -/

/-- A 32-byte value made of one repeated byte. -/
def sampleHash32 (b : Byte) : Bytes32 := ⟨List.replicate 32 b, by simp⟩

/-- A log with the given topic byte, data, block number and transaction byte. -/
def sampleLog (topic : Byte) (data : List Byte) (block : Nat) (tx : Byte) : Log :=
  { Topics := [sampleHash32 topic], Data := data, BlockNumber := block,
    TxHash := sampleHash32 tx, TxIndex := 0, Removed := false }

/-- A stand-in execution node.  The event signature hashes to 32 bytes `7`; log data
unpacks when it has four bytes; every header has time 1600721131; every transaction has
chain id 5 and sender twenty bytes `9`.  `transportErr` is the answer of the batch
transport, `headerOk` tells whether the header sub-calls succeed. -/
def sampleEth1Env (logs : List Log) (transportErr : Option GoError) (headerOk : Bool) :
    Eth1Env (List Byte) (List Byte) :=
  { crypto := sampleCrypto true
    HashKeccak256 := fun _ => sampleHash32 7
    eth1DepositContractAddress := List.replicate 20 4
    FilterLogs := fun _ _ _ => .ok logs
    UnpackDepositLogData := fun data =>
      match data with
      | [a, b, c, d] =>
        .ok { pubkey := List.replicate 48 a, withdrawalCredentials := List.replicate 32 b,
              amount := List.replicate 8 c, signature := List.replicate 96 d,
              merkletreeIndex := [d] }
      | _ => .error (.lib "abi: cannot unmarshal")
    FromBytes8 := fun bs => bs.length
    EncodeBig := fun n => toString n
    batchTransport := fun _ => transportErr
    replyHeader := fun _ _ =>
      if headerOk then .ok { Time := 1600721131 } else .error (.lib "header not found")
    replyTx := fun _ _ => .ok { Data := [34], ChainId := .ret (some 5), Raw := [] }
    Sender := fun _ _ => .ok (List.replicate 20 9) }

/-- The stand-in node with a successful transport whose transaction sub-calls all report
an error. -/
def sampleEth1EnvNoTx (logs : List Log) : Eth1Env (List Byte) (List Byte) :=
  { sampleEth1Env logs none true with
    replyTx := fun _ _ => .error (.lib "transaction not found") }

/-- The deposit that the stand-in node yields for `sampleLog 7 [1, 2, 3, 4] block tx`,
before enrichment. -/
def sampleRawDeposit (block : Nat) (tx : Byte) : Eth1Deposit :=
  { TxHash := List.replicate 32 tx, TxInput := [], TxIndex := 0, BlockNumber := block,
    BlockTs := 0, FromAddress := [], PublicKey := List.replicate 48 1,
    WithdrawalCredentials := List.replicate 32 2, Amount := 8,
    Signature := List.replicate 96 4, MerkletreeIndex := [4], Removed := false,
    ValidSignature := true }

/-- The same deposit after enrichment. -/
def sampleDepositRecord (block : Nat) (tx : Byte) : Eth1Deposit :=
  { sampleRawDeposit block tx with
    BlockTs := 1600721131, TxInput := [34], FromAddress := List.replicate 20 9 }

/-- The result of a successful run of the stand-in node over one matching log of block
3448162 and one log of another event. -/
def sampleFetchResult : FetchResult :=
  { depositsToSave := [sampleDepositRecord 3448162 171], err := none,
    batchCalls := [[blockElem (sampleEth1Env [] none true) 3448162,
                    txElem (hashHex (sampleHash32 171))]] }

/-- The logs of that run. -/
def sampleLogs : List Log := [sampleLog 7 [1, 2, 3, 4] 3448162 171, sampleLog 8 [1] 5 1]

/-! ## Maps -/

theorem mapGet_mapSet_same {K V : Type} [DecidableEq K] (m : List (K × V)) (k : K) (v : V) :
    mapGet (mapSet m k v) k = some v := by
  induction m with
  | nil => simp [mapSet, mapGet]
  | cons e rest ih =>
    obtain ⟨k1, v1⟩ := e
    by_cases h : k1 = k
    · simp [mapSet, mapGet, h]
    · simp [mapSet, mapGet, h, ih]

theorem mapGet_mapSet_other {K V : Type} [DecidableEq K] (m : List (K × V)) (k k2 : K) (v : V)
    (hne : k ≠ k2) : mapGet (mapSet m k v) k2 = mapGet m k2 := by
  induction m with
  | nil => simp [mapSet, mapGet, hne]
  | cons e rest ih =>
    obtain ⟨k1, v1⟩ := e
    by_cases h : k1 = k
    · subst h
      simp [mapSet, mapGet, hne]
    · by_cases h2 : k1 = k2
      · subst h2
        simp [mapSet, mapGet, h]
      · simp [mapSet, mapGet, h, h2, ih]

/-! ## The merge of one block -/

theorem mapGet_mergeBlock_same (d : BlockMap) (b : Block) :
    mapGet (mergeBlock d b) b.Slot
      = some (mapSet ((mapGet d b.Slot).getD []) (hexKey b.BlockRoot) b) := by
  unfold mergeBlock
  by_cases h : mapGet d b.Slot = none
  · simp [h, mapGet_mapSet_same]
  · simp [h, mapGet_mapSet_same]

theorem mapGet_mergeBlock_other (d : BlockMap) (b : Block) (s : Nat) (hne : b.Slot ≠ s) :
    mapGet (mergeBlock d b) s = mapGet d s := by
  unfold mergeBlock
  by_cases h : mapGet d b.Slot = none
  · simp [h, mapGet_mapSet_other _ _ _ _ hne]
  · simp [h, mapGet_mapSet_other _ _ _ _ hne]

theorem lookup2_mergeBlock (d : BlockMap) (b : Block) (s : Nat) (k : String) :
    lookup2 (mergeBlock d b) s k
      = if b.Slot = s ∧ hexKey b.BlockRoot = k then some b else lookup2 d s k := by
  by_cases hs : b.Slot = s
  · subst hs
    by_cases hk : hexKey b.BlockRoot = k
    · subst hk
      simp [lookup2, mapGet_mergeBlock_same, mapGet_mapSet_same]
    · simp only [lookup2, mapGet_mergeBlock_same, hk, and_false, if_false]
      rw [mapGet_mapSet_other _ _ _ _ hk]
      cases hd : mapGet d b.Slot with
      | none => simp [mapGet]
      | some inner => simp
  · simp [lookup2, mapGet_mergeBlock_other _ _ _ hs, hs]

theorem mergeBlocks_append (d : BlockMap) (xs ys : List Block) :
    mergeBlocks d (xs ++ ys) = mergeBlocks (mergeBlocks d xs) ys := by
  simp [mergeBlocks, List.foldl_append]

theorem mergeBlocks_concat (d : BlockMap) (xs : List Block) (b : Block) :
    mergeBlocks d (xs ++ [b]) = mergeBlock (mergeBlocks d xs) b := by
  simp [mergeBlocks, List.foldl_append]

/-- A slot is absent after the merge exactly when it was absent before and no merged
block carries it. -/
theorem mapGet_mergeBlocks_none (obs : List Block) (d : BlockMap) (s : Nat) :
    mapGet (mergeBlocks d obs) s = none ↔ (mapGet d s = none ∧ ∀ b ∈ obs, b.Slot ≠ s) := by
  induction obs generalizing d with
  | nil => simp [mergeBlocks]
  | cons b rest ih =>
    have hstep : mergeBlocks d (b :: rest) = mergeBlocks (mergeBlock d b) rest := rfl
    rw [hstep, ih]
    by_cases hs : b.Slot = s
    · subst hs
      simp [mapGet_mergeBlock_same]
    · simp [mapGet_mergeBlock_other _ _ _ hs, hs]

/-- The entry under a key after the merge: the last merged block with that slot and that
key, or the old entry when there is none. -/
theorem lookup2_mergeBlocks (obs : List Block) (d : BlockMap) (s : Nat) (k : String) :
    lookup2 (mergeBlocks d obs) s k
      = match (obs.filter (fun b => decide (b.Slot = s ∧ hexKey b.BlockRoot = k))).getLast? with
        | some b => some b
        | none => lookup2 d s k := by
  induction obs using List.reverseRecOn with
  | nil => simp [mergeBlocks]
  | append_singleton xs b ih =>
    rw [mergeBlocks_concat, lookup2_mergeBlock, List.filter_append]
    by_cases h : b.Slot = s ∧ hexKey b.BlockRoot = k
    · simp [h, List.filter_cons, List.getLast?_append]
    · simp only [h, if_false, List.filter_cons, List.filter_nil, decide_False,
        Bool.false_eq_true, List.append_nil]
      exact ih

/-! ## Hexadecimal keys -/

theorem hexChars_length (bs : List Byte) : (hexChars bs).length = 2 * bs.length := by
  induction bs with
  | nil => rfl
  | cons b rest ih => simp [hexChars, ih]; omega

/-- No rendering of a root is the sentinel key: a rendering has an even number of
characters. -/
theorem hexKey_ne_sentinel (bs : List Byte) : hexKey bs ≠ "0x0" := by
  intro h
  have hlen : (hexKey bs).length = ("0x0" : String).length := by rw [h]
  have h3 : ("0x0" : String).length = 3 := by decide
  rw [h3] at hlen
  have h2 : (hexKey bs).length = 2 * bs.length := by
    simp [hexKey, String.length, hexChars_length]
  omega

theorem hexDigit_inj16 : ∀ a b : Fin 16, hexDigit a.val = hexDigit b.val → a = b := by
  decide

theorem hexDigit_inj (a b : Nat) (ha : a < 16) (hb : b < 16) (h : hexDigit a = hexDigit b) :
    a = b := by
  have := hexDigit_inj16 ⟨a, ha⟩ ⟨b, hb⟩ h
  exact congrArg Fin.val this

theorem hexChars_injective : ∀ xs ys : List Byte, hexChars xs = hexChars ys → xs = ys
  | [], [], _ => rfl
  | [], y :: ys, h => by simp [hexChars] at h
  | x :: xs, [], h => by simp [hexChars] at h
  | x :: xs, y :: ys, h => by
    simp only [hexChars, List.cons.injEq] at h
    obtain ⟨h1, h2, h3⟩ := h
    have hx := x.isLt
    have hy := y.isLt
    have e1 := hexDigit_inj _ _ (by omega) (by omega) h1
    have e2 := hexDigit_inj _ _ (by omega) (by omega) h2
    have hxy : x = y := Fin.ext (by omega)
    rw [hxy, hexChars_injective xs ys h3]

/-- Distinct roots have distinct keys. -/
theorem hexKey_injective (xs ys : List Byte) (h : hexKey xs = hexKey ys) : xs = ys := by
  apply hexChars_injective
  exact congrArg String.data h

/-! ## The block loop -/

theorem u64_le_max (n : Nat) : u64 n ≤ maxU64 := by
  have : n % 2 ^ 64 < 2 ^ 64 := Nat.mod_lt _ (by decide)
  simp only [u64, maxU64]
  omega

theorem firstSlot_le_max (w : World) (epoch : Nat) : firstSlot w epoch ≤ maxU64 :=
  u64_le_max _

theorem lastSlot_le_max (w : World) (epoch : Nat) : lastSlot w epoch ≤ maxU64 :=
  u64_le_max _

/-- With the bound at the largest `uint64` the loop condition never fails: the loop can
only be left through a failing fetch. -/
theorem blockLoop_max_never_ok (w : World) (fuel : Nat) :
    ∀ (slot : Nat) (data m : BlockMap), slot ≤ maxU64 →
      blockLoop w maxU64 fuel slot data ≠ some (.ok m) := by
  induction fuel with
  | zero =>
    intro slot data m hs
    simp [blockLoop, hs]
  | succ fuel ih =>
    intro slot data m hs
    simp only [blockLoop, hs, if_true]
    cases hr : w.GetBlocksBySlot slot with
    | error err => simp
    | ok blocks => exact ih _ _ _ (u64_le_max _)

/-- A loop that ends normally below the largest bound has fetched every slot from its
start to the bound, all successfully, and has merged exactly those responses. -/
theorem blockLoop_ok_below (w : World) (hi : Nat) (hhi : hi < maxU64) (fuel : Nat) :
    ∀ (slot : Nat) (data m : BlockMap), blockLoop w hi fuel slot data = some (.ok m) →
      m = mergeBlocks data (observedFrom w slot (hi + 1 - slot)) ∧
      ∀ q, slot ≤ q → q ≤ hi → ∃ bs, w.GetBlocksBySlot q = .ok bs := by
  induction fuel with
  | zero =>
    intro slot data m h
    by_cases hs : slot ≤ hi
    · simp [blockLoop, hs] at h
    · simp only [blockLoop, hs, if_false, Option.some.injEq, Except.ok.injEq] at h
      have h0 : hi + 1 - slot = 0 := by omega
      refine ⟨by simp [h0, observedFrom, mergeBlocks, h], ?_⟩
      intro q h1 h2
      omega
  | succ fuel ih =>
    intro slot data m h
    by_cases hs : slot ≤ hi
    · simp only [blockLoop, hs, if_true] at h
      cases hr : w.GetBlocksBySlot slot with
      | error err => simp [hr] at h
      | ok blocks =>
        simp only [hr] at h
        have hu : u64 (slot + 1) = slot + 1 := by
          simp only [u64, maxU64] at *
          exact Nat.mod_eq_of_lt (by omega)
        rw [hu] at h
        obtain ⟨hm, hall⟩ := ih _ _ _ h
        have hn : hi + 1 - slot = (hi + 1 - (slot + 1)) + 1 := by omega
        refine ⟨?_, ?_⟩
        · rw [hn, observedFrom, mergeBlocks_append, hm]
          simp [responseBlocks, hr]
        · intro q h1 h2
          by_cases hq : q = slot
          · subst hq
            exact ⟨blocks, hr⟩
          · exact hall q (by omega) h2
    · simp only [blockLoop, hs, if_false, Option.some.injEq, Except.ok.injEq] at h
      have h0 : hi + 1 - slot = 0 := by omega
      refine ⟨by simp [h0, observedFrom, mergeBlocks, h], ?_⟩
      intro q h1 h2
      omega

/-- The loop of `GetEpochData`, whenever it ends normally. -/
theorem blockLoop_ok (w : World) (epoch fuel : Nat) (m : BlockMap)
    (h : blockLoop w (lastSlot w epoch) fuel (firstSlot w epoch) [] = some (.ok m)) :
    m = mergeBlocks [] (observed w epoch) ∧
    ∀ q, firstSlot w epoch ≤ q → q ≤ lastSlot w epoch → ∃ bs, w.GetBlocksBySlot q = .ok bs := by
  by_cases hmax : lastSlot w epoch = maxU64
  · rw [hmax] at h
    exact absurd h (blockLoop_max_never_ok w fuel _ _ _ (firstSlot_le_max w epoch))
  · have hlt : lastSlot w epoch < maxU64 := by
      have := lastSlot_le_max w epoch
      omega
    exact blockLoop_ok_below w _ hlt fuel _ _ _ h

/-- Below the largest bound the loop ends within `hi + 1 - slot` iterations. -/
theorem blockLoop_terminates (w : World) (hi : Nat) (hhi : hi < maxU64) (fuel : Nat) :
    ∀ (slot : Nat) (data : BlockMap), hi + 1 - slot ≤ fuel →
      blockLoop w hi fuel slot data ≠ none := by
  induction fuel with
  | zero =>
    intro slot data hf
    have hs : ¬ slot ≤ hi := by omega
    simp [blockLoop, hs]
  | succ fuel ih =>
    intro slot data hf
    by_cases hs : slot ≤ hi
    · simp only [blockLoop, hs, if_true]
      cases hr : w.GetBlocksBySlot slot with
      | error err => simp
      | ok blocks =>
        have hu : u64 (slot + 1) = slot + 1 := by
          simp only [u64, maxU64] at *
          exact Nat.mod_eq_of_lt (by omega)
        simp only [hu]
        exact ih _ _ (by omega)
    · simp [blockLoop, hs]

/-! ## The fill loop -/

theorem fillSlot_present (w : World) (d : BlockMap) (e : Nat × Nat) (s : Nat)
    (inner : List (String × Block)) (h : mapGet d s = some inner) :
    mapGet (fillSlot w d e) s = some inner := by
  unfold fillSlot
  cases he : mapGet d e.1 with
  | some x => simpa using h
  | none =>
    have hne : e.1 ≠ s := by
      intro heq
      rw [heq, h] at he
      cases he
    simpa [mapGet_mapSet_other _ _ _ _ hne] using h

/-- The fill loop never touches a slot that already has an entry. -/
theorem fillPlaceholders_present (w : World) (as : List (Nat × Nat)) :
    ∀ (d : BlockMap) (s : Nat) (inner : List (String × Block)), mapGet d s = some inner →
      mapGet (fillPlaceholders w d as) s = some inner := by
  induction as with
  | nil => intro d s inner h; simpa [fillPlaceholders] using h
  | cons e rest ih =>
    intro d s inner h
    have hstep : fillPlaceholders w d (e :: rest) = fillPlaceholders w (fillSlot w d e) rest := rfl
    rw [hstep]
    exact ih _ _ _ (fillSlot_present w d e s inner h)

/-- A slot without entry and without assignment stays without entry. -/
theorem fillPlaceholders_unassigned (w : World) (as : List (Nat × Nat)) :
    ∀ (d : BlockMap) (s : Nat), mapGet d s = none → s ∉ as.map Prod.fst →
      mapGet (fillPlaceholders w d as) s = none := by
  induction as with
  | nil => intro d s h _; simpa [fillPlaceholders] using h
  | cons e rest ih =>
    intro d s h hs
    have hstep : fillPlaceholders w d (e :: rest) = fillPlaceholders w (fillSlot w d e) rest := rfl
    rw [hstep]
    simp only [List.map_cons, List.mem_cons, not_or] at hs
    apply ih _ _ _ hs.2
    unfold fillSlot
    cases he : mapGet d e.1 with
    | some x => simpa using h
    | none =>
      have hne : e.1 ≠ s := fun heq => hs.1 heq.symm
      simpa [mapGet_mapSet_other _ _ _ _ hne] using h

/-- A slot without entry and with an assignment gets exactly the placeholder. -/
theorem fillPlaceholders_absent (w : World) (as : List (Nat × Nat)) :
    ∀ (d : BlockMap) (s p : Nat), mapGet d s = none → (s, p) ∈ as → (as.map Prod.fst).Nodup →
      mapGet (fillPlaceholders w d as) s = some [("0x0", placeholderBlock w s p)] := by
  induction as with
  | nil => intro d s p _ hmem; simp at hmem
  | cons e rest ih =>
    intro d s p h hmem hnd
    have hstep : fillPlaceholders w d (e :: rest) = fillPlaceholders w (fillSlot w d e) rest := rfl
    rw [hstep]
    simp only [List.map_cons, List.nodup_cons] at hnd
    rcases List.mem_cons.mp hmem with heq | hrest
    · subst heq
      apply fillPlaceholders_present
      simp [fillSlot, h, mapGet_mapSet_same, mapSet]
    · have hne : e.1 ≠ s := by
        intro heq
        apply hnd.1
        rw [heq]
        exact List.mem_map.mpr ⟨(s, p), hrest, rfl⟩
      apply ih _ _ _ _ hrest hnd.2
      unfold fillSlot
      cases he : mapGet d e.1 with
      | some x => simpa using h
      | none => simpa [mapGet_mapSet_other _ _ _ _ hne] using h

/-- An entry that the fill loop creates is the placeholder of an assignment of that slot. -/
theorem fillPlaceholders_new (w : World) (as : List (Nat × Nat)) :
    ∀ (d : BlockMap) (s : Nat) (inner : List (String × Block)), mapGet d s = none →
      mapGet (fillPlaceholders w d as) s = some inner →
      ∃ p, (s, p) ∈ as ∧ inner = [("0x0", placeholderBlock w s p)] := by
  induction as with
  | nil =>
    intro d s inner h hget
    simp only [fillPlaceholders, List.foldl_nil] at hget
    rw [h] at hget
    cases hget
  | cons e rest ih =>
    intro d s inner h hget
    have hstep : fillPlaceholders w d (e :: rest) = fillPlaceholders w (fillSlot w d e) rest := rfl
    rw [hstep] at hget
    by_cases hes : e.1 = s
    · have hnow : mapGet (fillSlot w d e) s = some [("0x0", placeholderBlock w s e.2)] := by
        subst hes
        simp [fillSlot, h, mapGet_mapSet_same, mapSet]
      rw [fillPlaceholders_present w rest _ _ _ hnow] at hget
      refine ⟨e.2, ?_, ?_⟩
      · rw [← hes]
        exact List.mem_cons_self _ _
      · cases hget
        rfl
    · have hstill : mapGet (fillSlot w d e) s = none := by
        unfold fillSlot
        cases he : mapGet d e.1 with
        | some x => simpa using h
        | none => simpa [mapGet_mapSet_other _ _ _ _ hes] using h
      obtain ⟨p, hp, hin⟩ := ih _ _ _ hstill hget
      exact ⟨p, List.mem_cons_of_mem _ hp, hin⟩

/-! ## Shape of a returned result -/

/-- A call that returns data has passed every step, and its blocks are the merged
responses completed by the fill loop. -/
theorem GetEpochData_data (w : World) (epoch fuel : Nat) (data : EpochData) (err : Option GoError)
    (h : GetEpochData w epoch fuel = some (some data, err)) :
    ∃ a vs stats,
      w.GetEpochAssignments epoch = .ok a ∧
      w.GetValidators (toString (firstSlot w epoch)) = .ok vs ∧
      w.GetValidatorParticipation epoch = .ok stats ∧
      blockLoop w (lastSlot w epoch) fuel (firstSlot w epoch) []
        = some (.ok (mergeBlocks [] (observed w epoch))) ∧
      err = none ∧
      data = { Epoch := epoch, Validators := vs.map convertValidator,
               ValidatorAssignmentes := a,
               Blocks := fillPlaceholders w (mergeBlocks [] (observed w epoch))
                 a.ProposerAssignments,
               EpochParticipationStats := stats } := by
  unfold GetEpochData at h
  cases ha : w.GetEpochAssignments epoch with
  | error e => simp [ha] at h
  | ok a =>
    simp only [ha] at h
    cases hl : blockLoop w (lastSlot w epoch) fuel (firstSlot w epoch) [] with
    | none => simp [hl] at h
    | some r =>
      cases r with
      | error e => simp [hl] at h
      | ok merged =>
        simp only [hl] at h
        have hm := (blockLoop_ok w epoch fuel merged hl).1
        cases hv : w.GetValidators (toString (firstSlot w epoch)) with
        | error e => simp [hv] at h
        | ok vs =>
          simp only [hv] at h
          cases hp : w.GetValidatorParticipation epoch with
          | error e => simp [hp] at h
          | ok stats =>
            simp only [hp, Option.some.injEq, Prod.mk.injEq] at h
            refine ⟨a, vs, stats, rfl, rfl, rfl, ?_, h.2.symm, ?_⟩
            · rw [hm]
            · rw [← hm]
              exact h.1.symm

/-- Blocks of a returned result. -/
theorem GetEpochData_blocks (w : World) (epoch fuel : Nat) (data : EpochData)
    (err : Option GoError) (a : EpochAssignments)
    (h : GetEpochData w epoch fuel = some (some data, err))
    (ha : w.GetEpochAssignments epoch = .ok a) :
    data.Blocks = fillPlaceholders w (mergeBlocks [] (observed w epoch)) a.ProposerAssignments := by
  obtain ⟨a2, vs, stats, ha2, _, _, _, _, hd⟩ := GetEpochData_data w epoch fuel data err h
  rw [ha] at ha2
  cases ha2
  rw [hd]

/-- Entries of the merged map are observed blocks stored under the rendering of their
root. -/
theorem lookup2_merged_observed (obs : List Block) (s : Nat) (k : String) (b : Block)
    (h : lookup2 (mergeBlocks [] obs) s k = some b) :
    b ∈ obs ∧ b.Slot = s ∧ hexKey b.BlockRoot = k := by
  rw [lookup2_mergeBlocks] at h
  cases hl : (obs.filter (fun b => decide (b.Slot = s ∧ hexKey b.BlockRoot = k))).getLast? with
  | none =>
    rw [hl] at h
    simp [lookup2, mapGet] at h
  | some b2 =>
    rw [hl] at h
    simp only [Option.some.injEq] at h
    subst h
    have hmem := List.mem_of_getLast?_eq_some hl
    rw [List.mem_filter] at hmem
    simpa using hmem

/-- The merged map has no entry under the sentinel key. -/
theorem lookup2_merged_sentinel (obs : List Block) (s : Nat) :
    lookup2 (mergeBlocks [] obs) s "0x0" = none := by
  cases h : lookup2 (mergeBlocks [] obs) s "0x0" with
  | none => rfl
  | some b => exact absurd (lookup2_merged_observed obs s _ b h).2.2 (hexKey_ne_sentinel _)

/-- A slot present in the merged map keeps its inner map through the fill loop. -/
theorem lookup2_fill_of_present (w : World) (as : List (Nat × Nat)) (d : BlockMap) (s : Nat)
    (hs : mapGet d s ≠ none) (k : String) :
    lookup2 (fillPlaceholders w d as) s k = lookup2 d s k := by
  cases hd : mapGet d s with
  | none => exact absurd hd hs
  | some inner => simp [lookup2, fillPlaceholders_present w as d s inner hd, hd]

/-! ## Claims about `GetEpochData` -/

theorem sampleWorld_run : GetEpochData sampleWorld 1 2 = some (some sampleData, none) := by
  decide

/-- C1: after a successful `GetEpochData`, every slot that has a proposer assignment and
for which no block was observed has exactly one entry in `blocks[slot]`: the placeholder
under the key `"0x0"`, with that slot, the assigned proposer and status 0 or 2. -/
theorem GetEpochData_placeholder_for_unobserved (w : World) (epoch fuel : Nat)
    (data : EpochData) (a : EpochAssignments)
    (hret : GetEpochData w epoch fuel = some (some data, none))
    (ha : w.GetEpochAssignments epoch = .ok a)
    (hmap : (a.ProposerAssignments.map Prod.fst).Nodup)
    (slot proposer : Nat) (hassigned : (slot, proposer) ∈ a.ProposerAssignments)
    (hnone : ∀ b ∈ observed w epoch, b.Slot ≠ slot) :
    ∃ b, mapGet data.Blocks slot = some [("0x0", b)] ∧ b.Slot = slot ∧
      b.Proposer = proposer ∧ (b.Status = 0 ∨ b.Status = 2) := by
  have hb := GetEpochData_blocks w epoch fuel data none a hret ha
  have hmerged : mapGet (mergeBlocks [] (observed w epoch)) slot = none :=
    (mapGet_mergeBlocks_none _ _ _).2 ⟨rfl, hnone⟩
  refine ⟨placeholderBlock w slot proposer, ?_, ?_, ?_, ?_⟩
  · rw [hb]
    exact fillPlaceholders_absent w _ _ slot proposer hmerged hassigned hmap
  · unfold placeholderBlock
    split <;> rfl
  · unfold placeholderBlock
    split <;> rfl
  · unfold placeholderBlock
    split
    · exact Or.inl rfl
    · exact Or.inr rfl

theorem GetEpochData_placeholder_for_unobserved_witness :
    ∃ b, mapGet sampleData.Blocks 3 = some [("0x0", b)] ∧ b.Slot = 3 ∧
      b.Proposer = 7 ∧ (b.Status = 0 ∨ b.Status = 2) :=
  GetEpochData_placeholder_for_unobserved sampleWorld 1 2 sampleData
    { ProposerAssignments := [(3, 7), (2, 9)], AttestorAssignments := [] }
    (by decide) rfl (by decide) 3 7 (by decide) (by decide)

/-- C2: `GetEpochData` never replaces or removes a real block with a placeholder.  For
every observed block, the inner map of its slot is the merged one, has no entry under
the sentinel key and holds observed blocks only; and every entry of the merged map is
still there, unchanged, in the returned map. -/
theorem GetEpochData_keeps_real_blocks (w : World) (epoch fuel : Nat) (data : EpochData)
    (hret : GetEpochData w epoch fuel = some (some data, none)) :
    (∀ b ∈ observed w epoch,
        mapGet data.Blocks b.Slot = mapGet (mergeBlocks [] (observed w epoch)) b.Slot ∧
        lookup2 data.Blocks b.Slot "0x0" = none ∧
        ∀ k b2, lookup2 data.Blocks b.Slot k = some b2 → b2 ∈ observed w epoch) ∧
    (∀ s k b, lookup2 (mergeBlocks [] (observed w epoch)) s k = some b →
        lookup2 data.Blocks s k = some b) := by
  obtain ⟨a, vs, stats, ha, _, _, _, _, _⟩ := GetEpochData_data w epoch fuel data none hret
  have hb := GetEpochData_blocks w epoch fuel data none a hret ha
  have hpresent : ∀ s, mapGet (mergeBlocks [] (observed w epoch)) s ≠ none →
      mapGet data.Blocks s = mapGet (mergeBlocks [] (observed w epoch)) s := by
    intro s hs
    cases hd : mapGet (mergeBlocks [] (observed w epoch)) s with
    | none => exact absurd hd hs
    | some inner => rw [hb]; exact fillPlaceholders_present w _ _ s inner hd
  constructor
  · intro b hbmem
    have hs : mapGet (mergeBlocks [] (observed w epoch)) b.Slot ≠ none := by
      intro hn
      exact ((mapGet_mergeBlocks_none _ _ _).1 hn).2 b hbmem rfl
    have hl : ∀ k, lookup2 data.Blocks b.Slot k
        = lookup2 (mergeBlocks [] (observed w epoch)) b.Slot k := by
      intro k
      rw [hb]
      exact lookup2_fill_of_present w _ _ _ hs k
    refine ⟨hpresent _ hs, ?_, ?_⟩
    · rw [hl]
      exact lookup2_merged_sentinel _ _
    · intro k b2 h2
      rw [hl] at h2
      exact (lookup2_merged_observed _ _ _ _ h2).1
  · intro s k b h
    have hs : mapGet (mergeBlocks [] (observed w epoch)) s ≠ none := by
      intro hn
      simp [lookup2, hn] at h
    rw [hb, lookup2_fill_of_present w _ _ _ hs k]
    exact h

theorem GetEpochData_keeps_real_blocks_witness :
    lookup2 sampleData.Blocks 2 "0x0" = none ∧
    lookup2 sampleData.Blocks 2 "ab01" = some (sampleBlock 2 [171, 1] 9) :=
  ⟨((GetEpochData_keeps_real_blocks sampleWorld 1 2 sampleData (by decide)).1
      (sampleBlock 2 [171, 1] 9) (by decide)).2.1,
   (GetEpochData_keeps_real_blocks sampleWorld 1 2 sampleData (by decide)).2
      2 "ab01" (sampleBlock 2 [171, 1] 9) (by decide)⟩

/-- C3: a placeholder has status 0 when the time of its slot lies after now minus sixty
seconds, and status 2 otherwise; a slot whose time is sixty seconds or more before now
is tagged 2. -/
theorem GetEpochData_placeholder_status (w : World) (epoch fuel : Nat) (data : EpochData)
    (hret : GetEpochData w epoch fuel = some (some data, none))
    (slot : Nat) (b : Block) (hb : lookup2 data.Blocks slot "0x0" = some b) :
    (∃ p, (slot, p) ∈ data.ValidatorAssignmentes.ProposerAssignments ∧
        b = placeholderBlock w slot p) ∧
    (w.SlotToTime slot > w.now slot - graceNanos → b.Status = 0) ∧
    (¬ w.SlotToTime slot > w.now slot - graceNanos → b.Status = 2) ∧
    (w.SlotToTime slot + graceNanos ≤ w.now slot → b.Status = 2) := by
  obtain ⟨a, vs, stats, ha, _, _, _, _, hd⟩ := GetEpochData_data w epoch fuel data none hret
  have hblocks := GetEpochData_blocks w epoch fuel data none a hret ha
  have hassign : data.ValidatorAssignmentes = a := by rw [hd]
  have hplace : ∃ p, (slot, p) ∈ a.ProposerAssignments ∧ b = placeholderBlock w slot p := by
    cases hm : mapGet (mergeBlocks [] (observed w epoch)) slot with
    | some inner =>
      have hs : mapGet (mergeBlocks [] (observed w epoch)) slot ≠ none := by simp [hm]
      rw [hblocks, lookup2_fill_of_present w _ _ _ hs, lookup2_merged_sentinel] at hb
      cases hb
    | none =>
      rw [hblocks] at hb
      cases hf : mapGet (fillPlaceholders w (mergeBlocks [] (observed w epoch))
          a.ProposerAssignments) slot with
      | none => simp [lookup2, hf] at hb
      | some inner =>
        obtain ⟨p, hp, hin⟩ := fillPlaceholders_new w _ _ _ _ hm hf
        refine ⟨p, hp, ?_⟩
        simp only [lookup2, hf, hin, mapGet, if_true, Option.some.injEq] at hb
        exact hb.symm
  obtain ⟨p, hp, hbp⟩ := hplace
  refine ⟨⟨p, by rw [hassign]; exact hp, hbp⟩, ?_, ?_, ?_⟩
  · intro h
    have h2 : w.SlotToTime slot > w.now slot + (-graceNanos) := by omega
    rw [hbp]
    simp [placeholderBlock, h2]
  · intro h
    have h2 : ¬ w.SlotToTime slot > w.now slot + (-graceNanos) := by omega
    rw [hbp]
    simp only [placeholderBlock, h2, if_false]
  · intro h
    have h2 : ¬ w.SlotToTime slot > w.now slot + (-graceNanos) := by omega
    rw [hbp]
    simp only [placeholderBlock, h2, if_false]

theorem GetEpochData_placeholder_status_witness :
    sampleWorld.SlotToTime 3 + graceNanos ≤ sampleWorld.now 3 ∧
    ({ sampleBlock 3 [1] 7 with Status := 2 } : Block).Status = 2 :=
  ⟨by decide,
   (GetEpochData_placeholder_status sampleWorld 1 2 sampleData (by decide) 3
      { sampleBlock 3 [1] 7 with Status := 2 } (by decide)).2.2.2 (by decide)⟩

/-- C4: the sentinel never collides with a genuine root.  A block with a 32-byte root is
stored under the rendering of its root, which differs from the key `"0x0"`, storing it
leaves the entry under `"0x0"` alone, and the root bytes of a placeholder differ from
every 32-byte root. -/
theorem sentinel_never_collides (root : List Byte) (hlen : root.length = 32) :
    hexKey root ≠ "0x0" ∧
    (∀ (d : BlockMap) (b : Block), b.BlockRoot = root →
        lookup2 (mergeBlock d b) b.Slot (hexKey root) = some b ∧
        lookup2 (mergeBlock d b) b.Slot "0x0" = lookup2 d b.Slot "0x0") ∧
    (∀ (w : World) (slot proposer : Nat), (placeholderBlock w slot proposer).BlockRoot ≠ root) := by
  refine ⟨hexKey_ne_sentinel root, ?_, ?_⟩
  · intro d b hb
    subst hb
    constructor
    · simp [lookup2_mergeBlock]
    · simp [lookup2_mergeBlock, hexKey_ne_sentinel]
  · intro w slot proposer h
    have hl : (placeholderBlock w slot proposer).BlockRoot.length = 1 := by
      unfold placeholderBlock
      split <;> rfl
    rw [h, hlen] at hl
    omega

theorem sentinel_never_collides_witness :
    hexKey (List.replicate 32 (0 : Byte)) ≠ "0x0" ∧
    (placeholderBlock sampleWorld 3 7).BlockRoot ≠ List.replicate 32 (0 : Byte) :=
  ⟨(sentinel_never_collides (List.replicate 32 0) (by decide)).1,
   (sentinel_never_collides (List.replicate 32 0) (by decide)).2.2 sampleWorld 3 7⟩

/-- Every returned pair is either `(nil, err)` or `(data, nil)`. -/
theorem GetEpochData_shape (w : World) (epoch fuel : Nat)
    (r : Option EpochData × Option GoError) (h : GetEpochData w epoch fuel = some r) :
    (r.1 = none ∧ r.2 ≠ none) ∨ (∃ data, r = (some data, none)) := by
  unfold GetEpochData at h
  cases ha : w.GetEpochAssignments epoch with
  | error e =>
    simp only [ha, Option.some.injEq] at h
    subst h
    exact Or.inl ⟨rfl, by simp⟩
  | ok a =>
    simp only [ha] at h
    cases hl : blockLoop w (lastSlot w epoch) fuel (firstSlot w epoch) [] with
    | none => simp [hl] at h
    | some res =>
      cases res with
      | error e =>
        simp only [hl, Option.some.injEq] at h
        subst h
        exact Or.inl ⟨rfl, by simp⟩
      | ok merged =>
        simp only [hl] at h
        cases hv : w.GetValidators (toString (firstSlot w epoch)) with
        | error e =>
          simp only [hv, Option.some.injEq] at h
          subst h
          exact Or.inl ⟨rfl, by simp⟩
        | ok vs =>
          simp only [hv] at h
          cases hp : w.GetValidatorParticipation epoch with
          | error e =>
            simp only [hp, Option.some.injEq] at h
            subst h
            exact Or.inl ⟨rfl, by simp⟩
          | ok stats =>
            simp only [hp, Option.some.injEq] at h
            subst h
            exact Or.inr ⟨_, rfl⟩

/-- A call that returns data has had every fetch succeed. -/
theorem GetEpochData_data_all_ok (w : World) (epoch fuel : Nat) (data : EpochData)
    (err : Option GoError) (h : GetEpochData w epoch fuel = some (some data, err)) :
    (∃ a, w.GetEpochAssignments epoch = .ok a) ∧
    (∀ q, firstSlot w epoch ≤ q → q ≤ lastSlot w epoch → ∃ bs, w.GetBlocksBySlot q = .ok bs) ∧
    (∃ vs, w.GetValidators (toString (firstSlot w epoch)) = .ok vs) ∧
    (∃ stats, w.GetValidatorParticipation epoch = .ok stats) := by
  obtain ⟨a, vs, stats, ha, hv, hp, hl, _, _⟩ := GetEpochData_data w epoch fuel data err h
  exact ⟨⟨a, ha⟩, (blockLoop_ok w epoch fuel _ hl).2, ⟨vs, hv⟩, ⟨stats, hp⟩⟩

/-- Below the largest bound the call returns once the fuel covers the slot range. -/
theorem GetEpochData_returns (w : World) (epoch : Nat) (hlast : lastSlot w epoch < maxU64)
    (fuel : Nat) (hfuel : lastSlot w epoch + 1 - firstSlot w epoch ≤ fuel) :
    ∃ r, GetEpochData w epoch fuel = some r := by
  have hl := blockLoop_terminates w _ hlast fuel (firstSlot w epoch) [] hfuel
  cases h : GetEpochData w epoch fuel with
  | some r => exact ⟨r, rfl⟩
  | none =>
    exfalso
    unfold GetEpochData at h
    cases ha : w.GetEpochAssignments epoch with
    | error e => simp [ha] at h
    | ok a =>
      simp only [ha] at h
      cases hb : blockLoop w (lastSlot w epoch) fuel (firstSlot w epoch) [] with
      | none => exact hl hb
      | some res =>
        cases res with
        | error e => simp [hb] at h
        | ok merged =>
          simp only [hb] at h
          cases hv : w.GetValidators (toString (firstSlot w epoch)) with
          | error e => simp [hv] at h
          | ok vs =>
            simp only [hv] at h
            cases hp : w.GetValidatorParticipation epoch with
            | error e => simp [hp] at h
            | ok stats => simp [hp] at h

/-- C5: `GetEpochData` never returns a partial result.  Whatever it returns, an error
comes with no data; a failed assignments fetch, per-slot block fetch, validator-set
fetch or participation fetch makes the returned pair `(nil, err)`; and data without
error is returned only when all of them succeeded.  The call does return whenever the
loop bound stays below the largest `uint64`. -/
theorem GetEpochData_all_or_nothing (w : World) (epoch : Nat) :
    (∀ fuel r, GetEpochData w epoch fuel = some r →
      (r.2 ≠ none → r.1 = none) ∧
      (((∃ e, w.GetEpochAssignments epoch = .error e) ∨
        (∃ q e, firstSlot w epoch ≤ q ∧ q ≤ lastSlot w epoch ∧
            w.GetBlocksBySlot q = .error e) ∨
        (∃ e, w.GetValidators (toString (firstSlot w epoch)) = .error e) ∨
        (∃ e, w.GetValidatorParticipation epoch = .error e)) →
          r.1 = none ∧ r.2 ≠ none) ∧
      (r.2 = none →
        r.1 ≠ none ∧
        (∃ a, w.GetEpochAssignments epoch = .ok a) ∧
        (∀ q, firstSlot w epoch ≤ q → q ≤ lastSlot w epoch →
            ∃ bs, w.GetBlocksBySlot q = .ok bs) ∧
        (∃ vs, w.GetValidators (toString (firstSlot w epoch)) = .ok vs) ∧
        (∃ stats, w.GetValidatorParticipation epoch = .ok stats))) ∧
    (lastSlot w epoch < maxU64 →
      ∀ fuel, lastSlot w epoch + 1 - firstSlot w epoch ≤ fuel →
        ∃ r, GetEpochData w epoch fuel = some r) := by
  refine ⟨?_, fun hlast fuel hfuel => GetEpochData_returns w epoch hlast fuel hfuel⟩
  intro fuel r h
  rcases GetEpochData_shape w epoch fuel r h with ⟨h1, h2⟩ | ⟨data, hdata⟩
  · exact ⟨fun _ => h1, fun _ => ⟨h1, h2⟩, fun h3 => absurd h3 h2⟩
  · subst hdata
    obtain ⟨⟨a, ha⟩, hblocks, ⟨vs, hv⟩, ⟨stats, hp⟩⟩ :=
      GetEpochData_data_all_ok w epoch fuel data none h
    refine ⟨fun h3 => absurd rfl h3, ?_, ?_⟩
    · intro hfail
      exfalso
      rcases hfail with ⟨e, he⟩ | ⟨q, e, h1, h2, he⟩ | ⟨e, he⟩ | ⟨e, he⟩
      · rw [ha] at he; cases he
      · obtain ⟨bs, hbs⟩ := hblocks q h1 h2
        rw [hbs] at he; cases he
      · rw [hv] at he; cases he
      · rw [hp] at he; cases he
    · intro _
      exact ⟨by simp, ⟨a, ha⟩, hblocks, ⟨vs, hv⟩, ⟨stats, hp⟩⟩

theorem GetEpochData_all_or_nothing_witness :
    GetEpochData sampleWorldNoValidators 1 2
      = some (none, some (.lib "validators unavailable")) ∧
    ((none : Option EpochData) = none ∧
      (some (GoError.lib "validators unavailable")) ≠ none) ∧
    (∃ r, GetEpochData sampleWorldNoValidators 1 2 = some r) :=
  ⟨by decide,
   ((GetEpochData_all_or_nothing sampleWorldNoValidators 1).1 2
      (none, some (.lib "validators unavailable")) (by decide)).2.1
      (Or.inr (Or.inr (Or.inl ⟨.lib "validators unavailable", rfl⟩))),
   (GetEpochData_all_or_nothing sampleWorldNoValidators 1).2 (by decide) 2 (by decide)⟩

/-- C6, as stated, fails: of two returned blocks with the same slot and the same root the
first is no longer in the map. -/
theorem GetEpochData_every_block_present_counterexample :
    GetEpochData sampleWorldSameRoot 1 2 ≠ none ∧
    sampleBlock 2 [171] 9 ∈ observed sampleWorldSameRoot 1 ∧
    ¬ (∀ data, GetEpochData sampleWorldSameRoot 1 2 = some (some data, none) →
        ∀ b ∈ observed sampleWorldSameRoot 1,
          lookup2 data.Blocks b.Slot (hexKey b.BlockRoot) = some b) := by
  refine ⟨by decide, by decide, ?_⟩
  intro h
  have hrun : GetEpochData sampleWorldSameRoot 1 2
      = some (some { sampleData with
          Blocks := [(2, [("ab", sampleBlock 2 [171] 8)]),
                     (3, [("0x0", { sampleBlock 3 [1] 7 with Status := 2 })])] }, none) := by
    decide
  have := h _ hrun (sampleBlock 2 [171] 9) (by decide)
  revert this
  decide

/-- C6 (amended): every returned block has an entry under
`blocks[block.Slot][hex(block.BlockRoot)]`; the entry is the block returned last among
those with that slot and root, hence the block itself when it is the only one; and the
keys of two returned blocks with the same slot and distinct roots differ, so that both
have their entry. -/
theorem GetEpochData_merges_competing_blocks (w : World) (epoch fuel : Nat) (data : EpochData)
    (hret : GetEpochData w epoch fuel = some (some data, none)) :
    (∀ b ∈ observed w epoch,
      ∃ b2, lookup2 data.Blocks b.Slot (hexKey b.BlockRoot) = some b2 ∧
        ((observed w epoch).filter
          (fun x => decide (x.Slot = b.Slot ∧ x.BlockRoot = b.BlockRoot))).getLast? = some b2 ∧
        b2 ∈ observed w epoch ∧ b2.Slot = b.Slot ∧ b2.BlockRoot = b.BlockRoot ∧
        ((∀ x ∈ observed w epoch, x.Slot = b.Slot → x.BlockRoot = b.BlockRoot → x = b) →
          b2 = b)) ∧
    (∀ b1 ∈ observed w epoch, ∀ b2 ∈ observed w epoch, b1.Slot = b2.Slot →
      b1.BlockRoot ≠ b2.BlockRoot → hexKey b1.BlockRoot ≠ hexKey b2.BlockRoot) := by
  obtain ⟨a, vs, stats, ha, _, _, _, _, _⟩ := GetEpochData_data w epoch fuel data none hret
  have hb := GetEpochData_blocks w epoch fuel data none a hret ha
  constructor
  · intro b hbmem
    have hs : mapGet (mergeBlocks [] (observed w epoch)) b.Slot ≠ none := by
      intro hn
      exact ((mapGet_mergeBlocks_none _ _ _).1 hn).2 b hbmem rfl
    have hfilter : (observed w epoch).filter
          (fun x => decide (x.Slot = b.Slot ∧ hexKey x.BlockRoot = hexKey b.BlockRoot))
        = (observed w epoch).filter
          (fun x => decide (x.Slot = b.Slot ∧ x.BlockRoot = b.BlockRoot)) := by
      apply List.filter_congr
      intro x _
      have : hexKey x.BlockRoot = hexKey b.BlockRoot ↔ x.BlockRoot = b.BlockRoot :=
        ⟨hexKey_injective _ _, fun h => by rw [h]⟩
      simp [this]
    have hin : b ∈ (observed w epoch).filter
          (fun x => decide (x.Slot = b.Slot ∧ x.BlockRoot = b.BlockRoot)) := by
      simp [List.mem_filter, hbmem]
    cases hl : ((observed w epoch).filter
          (fun x => decide (x.Slot = b.Slot ∧ x.BlockRoot = b.BlockRoot))).getLast? with
    | none =>
      rw [List.getLast?_eq_none_iff] at hl
      rw [hl] at hin
      cases hin
    | some b2 =>
      have hmem := List.mem_of_getLast?_eq_some hl
      rw [List.mem_filter] at hmem
      have hprop : b2.Slot = b.Slot ∧ b2.BlockRoot = b.BlockRoot := by simpa using hmem.2
      refine ⟨b2, ?_, rfl, hmem.1, hprop.1, hprop.2, fun honly => honly b2 hmem.1 hprop.1 hprop.2⟩
      rw [hb, lookup2_fill_of_present w _ _ _ hs, lookup2_mergeBlocks, hfilter, hl]
  · intro b1 _ b2 _ _ hne hkey
    exact hne (hexKey_injective _ _ hkey)

theorem GetEpochData_merges_competing_blocks_witness :
    hexKey (sampleBlock 2 [171, 1] 9).BlockRoot ≠ hexKey (sampleBlock 2 [171, 2] 9).BlockRoot ∧
    (∃ b2, lookup2 sampleData.Blocks 2 (hexKey [171, 2]) = some b2 ∧ b2.BlockRoot = [171, 2]) := by
  have h := GetEpochData_merges_competing_blocks sampleWorld 1 2 sampleData (by decide)
  refine ⟨h.2 _ (by decide) _ (by decide) rfl (by decide), ?_⟩
  obtain ⟨b2, h1, _, _, _, h5, _⟩ := h.1 (sampleBlock 2 [171, 2] 9) (by decide)
  exact ⟨b2, h1, h5⟩

/-! ## Claims about `ComputeDomain` and `VerifyEth1DepositSignature` -/

theorem copyForkBytes_length (v : List Byte) : (copyForkBytes v).length = 4 := by
  simp [copyForkBytes]

theorem Eth1_ComputeDomain_eq {PK Sig : Type} (L : Crypto PK Sig) (dt : Bytes4)
    (fv gvr : Option (List Byte)) :
    Eth1.ComputeDomain L dt fv gvr = Bls.ComputeDomain L dt fv gvr := by
  cases fv <;> cases gvr <;> rfl

/-- Layout of a domain built from a 32-byte fork data root. -/
theorem domain_layout (dt : Bytes4) (root : Bytes32) :
    (Bls.domain dt root.val).length = 32 ∧ (Bls.domain dt root.val).take 4 = dt.val ∧
    (Bls.domain dt root.val).drop 4 = root.val.take 28 := by
  obtain ⟨d, hd⟩ := dt
  obtain ⟨r, hr⟩ := root
  have h4 : d.take 4 = d := List.take_of_length_le (by omega)
  simp only [Bls.domain, List.nil_append, h4]
  refine ⟨by simp [hd, hr], ?_, ?_⟩
  · rw [List.take_append_of_le_length (by omega)]
    exact List.take_of_length_le (by omega)
  · rw [List.drop_append_of_le_length (by omega), List.drop_of_length_le (by omega)]
    rfl

/-- C7: whenever hashing the fork data succeeds, `ComputeDomain` (either copy) returns
exactly 32 bytes: the four bytes of the domain type followed by the first 28 bytes of
the hash tree root of `ForkData` with the four-byte fork version and the genesis
validators root that the function hands to the hash. -/
theorem ComputeDomain_layout {PK Sig : Type} (L : Crypto PK Sig) (domainType : Bytes4)
    (forkVersion genesisValidatorsRoot : Option (List Byte)) (root : Bytes32)
    (hhash : L.HashTreeRootForkData
        (copyForkBytes ((Bls.forkVersionOrDefault L forkVersion).getD []))
        (Bls.rootOrDefault genesisValidatorsRoot) = .ok root) :
    ∃ d, Bls.ComputeDomain L domainType forkVersion genesisValidatorsRoot = (some d, none) ∧
      Eth1.ComputeDomain L domainType forkVersion genesisValidatorsRoot = (some d, none) ∧
      d.length = 32 ∧ d.take 4 = domainType.val ∧ d.drop 4 = root.val.take 28 := by
  have hb : Bls.ComputeDomain L domainType forkVersion genesisValidatorsRoot
      = (some (Bls.domain domainType root.val), none) := by
    simp [Bls.ComputeDomain, Bls.computeForkDataRoot, hhash]
  obtain ⟨h1, h2, h3⟩ := domain_layout domainType root
  exact ⟨_, hb, by rw [Eth1_ComputeDomain_eq, hb], h1, h2, h3⟩

theorem ComputeDomain_layout_witness :
    ∃ d, Bls.ComputeDomain (sampleCrypto true) sampleDomainType (some [0, 0, 0, 2]) none
        = (some d, none) ∧
      Eth1.ComputeDomain (sampleCrypto true) sampleDomainType (some [0, 0, 0, 2]) none
        = (some d, none) ∧
      d.length = 32 ∧ d.take 4 = [3, 0, 0, 0] ∧
      d.drop 4 = ((0 : Byte) :: 0 :: 0 :: 2 :: List.replicate 28 0).take 28 :=
  ComputeDomain_layout (sampleCrypto true) sampleDomainType (some [0, 0, 0, 2]) none
    ⟨(0 : Byte) :: 0 :: 0 :: 2 :: List.replicate 28 0, by decide⟩ rfl

/-- C8, as stated, fails: while the network being verified is spadina, a `nil` fork
version gives the domain of the default configuration, not the domain of spadina. -/
theorem ComputeDomain_nil_fork_version_counterexample :
    Bls.networkConfig (sampleCrypto true) "spadina" = (sampleCrypto true).SpadinaConfig ∧
    Bls.ComputeDomain (sampleCrypto true) sampleDomainType none (some ZeroHash.val)
      ≠ Bls.ComputeDomain (sampleCrypto true) sampleDomainType
          (Bls.networkConfig (sampleCrypto true) "spadina").GenesisForkVersion
          (some ZeroHash.val) := by
  decide

/-- C8 (amended): with a `nil` genesis validators root `ComputeDomain` returns what it
returns for the all-zero 32-byte root, and with a `nil` fork version it returns what it
returns for the genesis fork version of the default configuration
`params.BeaconConfig()`. -/
theorem ComputeDomain_defaults {PK Sig : Type} (L : Crypto PK Sig) (domainType : Bytes4)
    (forkVersion genesisValidatorsRoot : Option (List Byte)) :
    Bls.ComputeDomain L domainType forkVersion none
      = Bls.ComputeDomain L domainType forkVersion (some (List.replicate 32 0)) ∧
    Bls.ComputeDomain L domainType none genesisValidatorsRoot
      = Bls.ComputeDomain L domainType L.BeaconConfig.GenesisForkVersion
          genesisValidatorsRoot := by
  constructor
  · rfl
  · cases h : L.BeaconConfig.GenesisForkVersion with
    | none => rfl
    | some v => simp [Bls.ComputeDomain, Bls.forkVersionOrDefault, h]

/-- C9, as stated, fails: for the unknown network name `goerli` the verifier raises no
configuration error; it takes the default configuration and accepts the deposit. -/
theorem VerifyEth1DepositSignature_unknown_network_counterexample :
    "goerli" ∉ ["mainnet", "altona", "medalla", "spadina"] ∧
    Bls.networkConfig (sampleCrypto true) "goerli" = (sampleCrypto true).BeaconConfig ∧
    Bls.VerifyEth1DepositSignature (sampleCrypto true) sampleDeposit "goerli" = none := by
  decide

/-- C9 (amended): for every network name other than altona, medalla and spadina, known
or not, the verifier selects the default configuration `params.BeaconConfig()` and
returns what it returns for `mainnet`; no configuration error exists. -/
theorem VerifyEth1DepositSignature_default_network {PK Sig : Type} (L : Crypto PK Sig)
    (obj : DepositData) (network : String)
    (h1 : network ≠ "altona") (h2 : network ≠ "medalla") (h3 : network ≠ "spadina") :
    Bls.networkConfig L network = L.BeaconConfig ∧
    Bls.VerifyEth1DepositSignature L obj network
      = Bls.VerifyEth1DepositSignature L obj "mainnet" := by
  have hc : Bls.networkConfig L network = L.BeaconConfig := by
    simp [Bls.networkConfig, h1, h2, h3]
  have hm : Bls.networkConfig L "mainnet" = L.BeaconConfig := by
    simp [Bls.networkConfig]
  refine ⟨hc, ?_⟩
  simp only [Bls.VerifyEth1DepositSignature, hc, hm]

theorem VerifyEth1DepositSignature_default_network_witness :
    Bls.networkConfig (sampleCrypto false) "goerli" = (sampleCrypto false).BeaconConfig ∧
    Bls.VerifyEth1DepositSignature (sampleCrypto false) sampleDeposit "goerli"
      = Bls.VerifyEth1DepositSignature (sampleCrypto false) sampleDeposit "mainnet" :=
  VerifyEth1DepositSignature_default_network (sampleCrypto false) sampleDeposit "goerli"
    (by decide) (by decide) (by decide)

/-- C10, as stated, fails: a well-formed key and signature whose BLS check does not pass
make the verifier return an error, not a negative answer without error. -/
theorem VerifyEth1DepositSignature_mismatch_counterexample :
    (sampleCrypto false).PublicKeyFromBytes sampleDeposit.PublicKey
      = .ok sampleDeposit.PublicKey ∧
    (sampleCrypto false).SignatureFromBytes sampleDeposit.Signature
      = .ok sampleDeposit.Signature ∧
    Bls.VerifyEth1DepositSignature (sampleCrypto false) sampleDeposit "spadina" ≠ none ∧
    Eth1.VerifyEth1DepositSignature (sampleCrypto false) sampleDeposit ≠ none :=
  ⟨rfl, rfl, by decide, by decide⟩

/-- C10 (amended): when the domain, the key, the signature and both roots are obtained
and the BLS check does not pass, the verifier (either copy) returns the error
`invalid signature`; malformed public key or signature bytes return the library error
wrapped as `could not get pubkey` or `could not get sig`; the two kinds of outcome are
both errors and differ as values. -/
theorem VerifyEth1DepositSignature_mismatch_is_error {PK Sig : Type} (L : Crypto PK Sig)
    (obj : DepositData) (network : String) (dom : Option (List Byte)) (pk : PK) (sig : Sig)
    (root ctrRoot : Bytes32)
    (hdom : Bls.ComputeDomain L (Bls.networkConfig L network).DomainDeposit
        (Bls.networkConfig L network).GenesisForkVersion (some ZeroHash.val) = (dom, none))
    (hpk : L.PublicKeyFromBytes obj.PublicKey = .ok pk)
    (hsig : L.SignatureFromBytes obj.Signature = .ok sig)
    (hroot : L.SigningRoot obj = .ok root)
    (hctr : L.HashTreeRootSigningData root.val (dom.getD []) = .ok ctrRoot)
    (hver : L.Verify sig pk ctrRoot.val = false) :
    Bls.VerifyEth1DepositSignature L obj network = some (.errorf "invalid signature" []) ∧
    (network = "spadina" →
      Eth1.VerifyEth1DepositSignature L obj = some (.errorf "invalid signature" [])) ∧
    (∀ (bad : DepositData) (e : GoError), L.PublicKeyFromBytes bad.PublicKey = .error e →
      Bls.VerifyEth1DepositSignature L bad network
        = some (.wrap "could not get pubkey: %w" [] e)) ∧
    (∀ (bad : DepositData) (pk2 : PK) (e : GoError),
      L.PublicKeyFromBytes bad.PublicKey = .ok pk2 →
      L.SignatureFromBytes bad.Signature = .error e →
      Bls.VerifyEth1DepositSignature L bad network
        = some (.wrap "could not get sig %w" [] e)) ∧
    (∀ (format : String) (args : List String) (e : GoError),
      GoError.errorf "invalid signature" [] ≠ GoError.wrap format args e) := by
  refine ⟨?_, ?_, ?_, ?_, ?_⟩
  · simp [Bls.VerifyEth1DepositSignature, hdom, hpk, hsig, hroot, hctr, hver]
  · intro hn
    subst hn
    have hcfg : Bls.networkConfig L "spadina" = L.SpadinaConfig := by
      simp [Bls.networkConfig]
    rw [hcfg] at hdom
    simp [Eth1.VerifyEth1DepositSignature, Eth1_ComputeDomain_eq, hdom, hpk, hsig, hroot, hctr,
      hver]
  · intro bad e hbad
    simp [Bls.VerifyEth1DepositSignature, hdom, hbad]
  · intro bad pk2 e hbad hbadsig
    simp [Bls.VerifyEth1DepositSignature, hdom, hbad, hbadsig]
  · intro format args e h
    cases h

theorem VerifyEth1DepositSignature_mismatch_is_error_witness :
    Bls.VerifyEth1DepositSignature (sampleCrypto false) sampleDeposit "spadina"
      = some (.errorf "invalid signature" []) ∧
    Bls.VerifyEth1DepositSignature (sampleCrypto false) sampleDepositBadKey "spadina"
      = some (.wrap "could not get pubkey: %w" [] (.lib "public key must be 48 bytes")) := by
  have h := VerifyEth1DepositSignature_mismatch_is_error (sampleCrypto false) sampleDeposit
    "spadina"
    (some ((3 : Byte) :: 0 :: 0 :: 0 :: 0 :: 0 :: 0 :: 2 :: List.replicate 24 0))
    sampleDeposit.PublicKey sampleDeposit.Signature
    ⟨List.replicate 32 1, by decide⟩
    ⟨List.replicate 32 1, by decide⟩
    (by decide) rfl rfl rfl rfl rfl
  exact ⟨h.1, h.2.2.1 sampleDepositBadKey _ rfl⟩

/-! ## The batched lookup -/

theorem foldl_addBlockElem {PK Sig : Type} (env : Eth1Env PK Sig) (blocks : List Nat) :
    ∀ st : BatchState,
      (blocks.foldl (addBlockElem env) st).elems = st.elems ++ blocks.map (blockElem env) ∧
      (blocks.foldl (addBlockElem env) st).errors
        = st.errors ++ List.replicate blocks.length none := by
  induction blocks with
  | nil => intro st; simp
  | cons b rest ih =>
    intro st
    obtain ⟨h1, h2⟩ := ih (addBlockElem env st b)
    simp only [List.foldl_cons, h1, h2]
    simp [addBlockElem, List.replicate_succ]

theorem foldl_addTxElem (txs : List String) :
    ∀ st : BatchState,
      (txs.foldl addTxElem st).elems = st.elems ++ txs.map txElem ∧
      (txs.foldl addTxElem st).errors = st.errors ++ List.replicate txs.length none := by
  induction txs with
  | nil => intro st; simp
  | cons t rest ih =>
    intro st
    obtain ⟨h1, h2⟩ := ih (addTxElem st t)
    simp only [List.foldl_cons, h1, h2]
    simp [addTxElem, List.replicate_succ]

theorem firstError_replicate (n : Nat) : firstError (List.replicate n none) = none := by
  induction n with
  | zero => rfl
  | succ n ih => simpa [List.replicate_succ, firstError] using ih

/-- The elements handed to `BatchCall`. -/
theorem batch_elems {PK Sig : Type} (env : Eth1Env PK Sig) (blocks : List Nat)
    (txs : List String) :
    (txs.foldl addTxElem (blocks.foldl (addBlockElem env)
        { elems := [], headers := [], txs := [], errors := [] })).elems
      = blocks.map (blockElem env) ++ txs.map txElem := by
  rw [(foldl_addTxElem txs _).1, (foldl_addBlockElem env blocks _).1]
  simp

/-- The list `errors` holds `nil` only, whatever the call has written into the elements. -/
theorem batch_errors {PK Sig : Type} (env : Eth1Env PK Sig) (blocks : List Nat)
    (txs : List String) :
    firstError (txs.foldl addTxElem (blocks.foldl (addBlockElem env)
        { elems := [], headers := [], txs := [], errors := [] })).errors = none := by
  rw [(foldl_addTxElem txs _).2, (foldl_addBlockElem env blocks _).2]
  simp only [List.nil_append, ← List.replicate_add]
  exact firstError_replicate _

theorem batch_calls {PK Sig : Type} (env : Eth1Env PK Sig) (blocks : List Nat)
    (txs : List String) :
    (eth1BatchRequestHeadersAndTxs env blocks txs).batchCalls
      = [blocks.map (blockElem env) ++ txs.map txElem] := by
  unfold eth1BatchRequestHeadersAndTxs
  simp only [batch_elems, batch_errors]
  cases env.batchTransport (blocks.map (blockElem env) ++ txs.map txElem) <;> rfl

/-- An error of the batched lookup is the transport error of its one batch. -/
theorem batch_err {PK Sig : Type} (env : Eth1Env PK Sig) (blocks : List Nat)
    (txs : List String) :
    (eth1BatchRequestHeadersAndTxs env blocks txs).err
      = env.batchTransport (blocks.map (blockElem env) ++ txs.map txElem) := by
  unfold eth1BatchRequestHeadersAndTxs
  simp only [batch_elems, batch_errors]
  cases env.batchTransport (blocks.map (blockElem env) ++ txs.map txElem) <;> rfl

/-- C15: evaluation at the failing input.  The transport succeeds, the one sub-call
reports an error, and the function returns both maps with a `nil` error; the header of
block 5 is the zero value. -/
theorem eth1BatchRequestHeadersAndTxs_ignores_element_error :
    (sampleEth1Env [] none false).batchTransport
        [blockElem (sampleEth1Env [] none false) 5] = none ∧
    (sampleEth1Env [] none false).replyHeader
        [blockElem (sampleEth1Env [] none false) 5] 0 = .error (.lib "header not found") ∧
    eth1BatchRequestHeadersAndTxs (sampleEth1Env [] none false) [5] []
      = { headers := some [(5, emptyHeader)], txs := some [], err := none,
          batchCalls := [[blockElem (sampleEth1Env [] none false) 5]] } :=
  ⟨rfl, rfl, by decide⟩

/-- C16: `eth1BatchRequestHeadersAndTxs` hands exactly one batch to `BatchCall`: one
`eth_getBlockByNumber` element per block number, in order, followed by one
`eth_getTransactionByHash` element per hash, `len(blocks)+len(txs)` elements in all. -/
theorem eth1BatchRequestHeadersAndTxs_one_batch {PK Sig : Type} (env : Eth1Env PK Sig)
    (blocksToFetch : List Nat) (txsToFetch : List String) :
    (eth1BatchRequestHeadersAndTxs env blocksToFetch txsToFetch).batchCalls
      = [blocksToFetch.map (blockElem env) ++ txsToFetch.map txElem] ∧
    (eth1BatchRequestHeadersAndTxs env blocksToFetch txsToFetch).batchCalls.length = 1 ∧
    (blocksToFetch.map (blockElem env) ++ txsToFetch.map txElem).length
      = blocksToFetch.length + txsToFetch.length ∧
    (∀ b ∈ blocksToFetch, (blockElem env b).Method = "eth_getBlockByNumber") ∧
    (∀ t ∈ txsToFetch, (txElem t).Method = "eth_getTransactionByHash" ∧
      (txElem t).Args = [.str t]) := by
  refine ⟨batch_calls env _ _, by rw [batch_calls]; rfl, by simp, ?_, ?_⟩
  · intro b _; rfl
  · intro t _; exact ⟨rfl, rfl⟩

/-! ## The log loop -/

/-- The loop over a concatenation: the second part starts from what the first part has
built, unless the first part has panicked or failed. -/
theorem collectDeposits_append {PK Sig : Type} (env : Eth1Env PK Sig) (pre rest : List Log) :
    ∀ acc : Collected,
      collectDeposits env (pre ++ rest) acc
        = match collectDeposits env pre acc with
          | .ret (c, none) => collectDeposits env rest c
          | o => o := by
  induction pre with
  | nil => intro acc; simp [collectDeposits]
  | cons l pre ih =>
    intro acc
    simp only [List.cons_append, collectDeposits]
    cases hT : l.Topics with
    | nil => simp
    | cons topic0 more =>
      dsimp only
      by_cases hm : topic0 ≠ eth1DepositEventSignature env
      · rw [if_pos hm, if_pos hm]
        exact ih acc
      · rw [if_neg hm, if_neg hm]
        cases hu : env.UnpackDepositLogData l.Data with
        | error e => rfl
        | ok u => exact ih _

/-- A loop that ends normally has appended one deposit, one block number and one
transaction hash per matching log, in log order. -/
theorem collectDeposits_ok {PK Sig : Type} (env : Eth1Env PK Sig) (logs : List Log) :
    ∀ acc c : Collected, collectDeposits env logs acc = .ret (c, none) →
      ∃ new,
        c.depositsToSave = acc.depositsToSave ++ new ∧
        List.Forall₂
          (fun l d => ∃ u, env.UnpackDepositLogData l.Data = .ok u ∧ d = newDeposit env l u)
          (logs.filter (matchesDepositEvent env)) new ∧
        c.blocksToFetch
          = acc.blocksToFetch ++ (logs.filter (matchesDepositEvent env)).map (·.BlockNumber) ∧
        c.txsToFetch
          = acc.txsToFetch ++
            (logs.filter (matchesDepositEvent env)).map (fun l => hashHex l.TxHash) := by
  induction logs with
  | nil =>
    intro acc c h
    simp only [collectDeposits, Outcome.ret.injEq, Prod.mk.injEq, and_true] at h
    subst h
    exact ⟨[], by simp, by simp, by simp, by simp⟩
  | cons l rest ih =>
    intro acc c h
    simp only [collectDeposits] at h
    cases hT : l.Topics with
    | nil => simp [hT] at h
    | cons topic0 more =>
      rw [hT] at h
      dsimp only at h
      by_cases hm : topic0 ≠ eth1DepositEventSignature env
      · rw [if_pos hm] at h
        have hf : matchesDepositEvent env l = false := by
          simp [matchesDepositEvent, hT, hm]
        obtain ⟨new, h1, h2, h3, h4⟩ := ih acc c h
        refine ⟨new, h1, ?_, ?_, ?_⟩
        · simpa [List.filter_cons, hf] using h2
        · simpa [List.filter_cons, hf] using h3
        · simpa [List.filter_cons, hf] using h4
      · rw [if_neg hm] at h
        have hm2 : topic0 = eth1DepositEventSignature env := not_not.mp hm
        have hf : matchesDepositEvent env l = true := by
          simp [matchesDepositEvent, hT, hm2]
        cases hu : env.UnpackDepositLogData l.Data with
        | error e => simp [hu] at h
        | ok u =>
          simp only [hu] at h
          obtain ⟨new, h1, h2, h3, h4⟩ := ih _ c h
          refine ⟨newDeposit env l u :: new, ?_, ?_, ?_, ?_⟩
          · simpa using h1
          · rw [List.filter_cons, hf]
            simp only [if_true]
            exact List.Forall₂.cons ⟨u, hu, rfl⟩ h2
          · simpa [List.filter_cons, hf] using h3
          · simpa [List.filter_cons, hf] using h4

/-! ## The enrichment loop -/

/-- The enrichment loop changes `BlockTs`, `TxInput` and `FromAddress` only, and keeps
every deposit in its place, also when it ends with an error. -/
theorem enrichDeposits_strip {PK Sig : Type} (env : Eth1Env PK Sig)
    (headers : List (Nat × Header)) (txs : List (String × Transaction)) :
    ∀ (ds : List Eth1Deposit) (out : List Eth1Deposit × Option GoError),
      enrichDeposits env headers txs ds = .ret out →
      out.1.map stripEnrichment = ds.map stripEnrichment := by
  intro ds
  induction ds with
  | nil =>
    intro out h
    simp only [enrichDeposits, Outcome.ret.injEq] at h
    subst h
    rfl
  | cons d rest ih =>
    intro out h
    simp only [enrichDeposits] at h
    cases hb : mapGet headers d.BlockNumber with
    | none =>
      simp only [hb, Outcome.ret.injEq] at h
      subst h
      rfl
    | some b =>
      simp only [hb] at h
      cases ht : mapGet txs ("0x" ++ hexKey d.TxHash) with
      | none =>
        simp only [ht, Outcome.ret.injEq] at h
        subst h
        rfl
      | some tx =>
        simp only [ht] at h
        cases hcid : tx.ChainId with
        | panic msg => simp [hcid] at h
        | ret cid =>
          cases cid with
          | none =>
            simp only [hcid, Outcome.ret.injEq] at h
            subst h
            rfl
          | some chainID =>
            simp only [hcid] at h
            cases hs : env.Sender chainID tx with
            | error e =>
              simp only [hs, Outcome.ret.injEq] at h
              subst h
              rfl
            | ok sender =>
              simp only [hs] at h
              cases hrest : enrichDeposits env headers txs rest with
              | panic msg => simp [hrest] at h
              | ret out2 =>
                simp only [hrest, Outcome.ret.injEq] at h
                subst h
                simp only [List.map_cons, ih out2 hrest]
                rfl

theorem forall2_of_map_eq {α β γ : Type} (R R2 : α → β → Prop) (f : β → γ)
    (h : ∀ a b b2, R a b → f b2 = f b → R2 a b2) :
    ∀ (xs : List α) (ys ys2 : List β), List.Forall₂ R xs ys → ys2.map f = ys.map f →
      List.Forall₂ R2 xs ys2 := by
  intro xs ys ys2 hr
  induction hr generalizing ys2 with
  | nil =>
    intro hmap
    have : ys2 = [] := by simpa using hmap
    subst this
    exact List.Forall₂.nil
  | cons hab _ ih =>
    intro hmap
    cases ys2 with
    | nil => simp at hmap
    | cons y2 rest2 =>
      simp only [List.map_cons, List.cons.injEq] at hmap
      exact List.Forall₂.cons (h _ _ _ hab hmap.1) (ih _ hmap.2)

/-! ## Shape of the results of `fetchEth1Deposits` -/

/-- A call that returns without error has passed the log loop, the batched lookup and
the enrichment loop. -/
theorem fetchEth1Deposits_success {PK Sig : Type} (env : Eth1Env PK Sig)
    (fromBlock toBlock : Nat) (logs : List Log) (r : FetchResult)
    (hlogs : env.FilterLogs env.eth1DepositContractAddress fromBlock toBlock = .ok logs)
    (hret : fetchEth1Deposits env fromBlock toBlock = .ret r) (herr : r.err = none) :
    ∃ c, collectDeposits env logs
          { depositsToSave := [], blocksToFetch := [], txsToFetch := [] } = .ret (c, none) ∧
      (eth1BatchRequestHeadersAndTxs env c.blocksToFetch c.txsToFetch).err = none ∧
      enrichDeposits env
          ((eth1BatchRequestHeadersAndTxs env c.blocksToFetch c.txsToFetch).headers.getD [])
          ((eth1BatchRequestHeadersAndTxs env c.blocksToFetch c.txsToFetch).txs.getD [])
          c.depositsToSave = .ret (r.depositsToSave, none) ∧
      r.batchCalls = (eth1BatchRequestHeadersAndTxs env c.blocksToFetch c.txsToFetch).batchCalls := by
  unfold fetchEth1Deposits at hret
  simp only [hlogs] at hret
  cases hc : collectDeposits env logs
      { depositsToSave := [], blocksToFetch := [], txsToFetch := [] } with
  | panic msg => simp [hc] at hret
  | ret v =>
    obtain ⟨c, e⟩ := v
    cases e with
    | some err =>
      simp only [hc, Outcome.ret.injEq] at hret
      subst hret
      simp at herr
    | none =>
      simp only [hc] at hret
      cases hb : (eth1BatchRequestHeadersAndTxs env c.blocksToFetch c.txsToFetch).err with
      | some err =>
        simp only [hb, Outcome.ret.injEq] at hret
        subst hret
        simp at herr
      | none =>
        simp only [hb] at hret
        cases hen : enrichDeposits env
            ((eth1BatchRequestHeadersAndTxs env c.blocksToFetch c.txsToFetch).headers.getD [])
            ((eth1BatchRequestHeadersAndTxs env c.blocksToFetch c.txsToFetch).txs.getD [])
            c.depositsToSave with
        | panic msg => simp [hen] at hret
        | ret out =>
          simp only [hen, Outcome.ret.injEq] at hret
          subst hret
          obtain ⟨o1, o2⟩ := out
          simp only at herr
          subst herr
          exact ⟨c, rfl, hb, hen, rfl⟩

/-! ## Claims about `fetchEth1Deposits` -/

/-- C12: a call of `fetchEth1Deposits` that returns without error yields exactly one
deposit record per log whose topic-0 is the deposit event signature, in log order, each
built from the unpacked data of its log; the other logs add no record, and the one batch
asks for the block numbers and transaction hashes of the matching logs only. -/
theorem fetchEth1Deposits_one_record_per_matching_log {PK Sig : Type} (env : Eth1Env PK Sig)
    (fromBlock toBlock : Nat) (logs : List Log) (r : FetchResult)
    (hlogs : env.FilterLogs env.eth1DepositContractAddress fromBlock toBlock = .ok logs)
    (hret : fetchEth1Deposits env fromBlock toBlock = .ret r) (herr : r.err = none) :
    List.Forall₂
      (fun l d => ∃ u, env.UnpackDepositLogData l.Data = .ok u ∧
        stripEnrichment d = newDeposit env l u)
      (logs.filter (matchesDepositEvent env)) r.depositsToSave ∧
    r.depositsToSave.length = (logs.filter (matchesDepositEvent env)).length ∧
    r.batchCalls
      = [((logs.filter (matchesDepositEvent env)).map (·.BlockNumber)).map (blockElem env) ++
         ((logs.filter (matchesDepositEvent env)).map (fun l => hashHex l.TxHash)).map txElem] := by
  obtain ⟨c, hc, _, hen, hcalls⟩ :=
    fetchEth1Deposits_success env fromBlock toBlock logs r hlogs hret herr
  obtain ⟨new, h1, h2, h3, h4⟩ := collectDeposits_ok env logs _ c hc
  simp only [List.nil_append] at h1 h3 h4
  rw [← h1] at h2
  have hstrip : r.depositsToSave.map stripEnrichment = c.depositsToSave.map stripEnrichment :=
    enrichDeposits_strip env
      ((eth1BatchRequestHeadersAndTxs env c.blocksToFetch c.txsToFetch).headers.getD [])
      ((eth1BatchRequestHeadersAndTxs env c.blocksToFetch c.txsToFetch).txs.getD [])
      c.depositsToSave _ hen
  have hall := forall2_of_map_eq
    (fun l d => ∃ u, env.UnpackDepositLogData l.Data = .ok u ∧ d = newDeposit env l u)
    (fun l d => ∃ u, env.UnpackDepositLogData l.Data = .ok u ∧
      stripEnrichment d = newDeposit env l u)
    stripEnrichment
    (by
      rintro l d d2 ⟨u, hu, hd⟩ heq
      refine ⟨u, hu, ?_⟩
      rw [heq, hd]
      rfl)
    _ _ _ h2 hstrip
  refine ⟨hall, hall.length_eq.symm, ?_⟩
  rw [hcalls, batch_calls, h3, h4]

theorem fetchEth1Deposits_one_record_per_matching_log_witness :
    ([sampleDepositRecord 3448162 171] : List Eth1Deposit).length
      = ([sampleLog 7 [1, 2, 3, 4] 3448162 171, sampleLog 8 [1] 5 1].filter
          (matchesDepositEvent
            (sampleEth1Env [sampleLog 7 [1, 2, 3, 4] 3448162 171, sampleLog 8 [1] 5 1]
              none true))).length :=
  (fetchEth1Deposits_one_record_per_matching_log
    (sampleEth1Env [sampleLog 7 [1, 2, 3, 4] 3448162 171, sampleLog 8 [1] 5 1] none true)
    0 10 [sampleLog 7 [1, 2, 3, 4] 3448162 171, sampleLog 8 [1] 5 1]
    { depositsToSave := [sampleDepositRecord 3448162 171], err := none,
      batchCalls := [[blockElem (sampleEth1Env [] none true) 3448162,
                      txElem (hashHex (sampleHash32 171))]] }
    rfl (by decide) rfl).2.1

/-- C13, as stated, fails: the second log does not unpack, and the list returned with the
error still holds the deposit decoded from the first log. -/
theorem fetchEth1Deposits_unpack_failure_counterexample :
    fetchEth1Deposits
        (sampleEth1Env [sampleLog 7 [1, 2, 3, 4] 3448162 171, sampleLog 7 [1] 5 1] none true)
        0 10
      = .ret { depositsToSave := [sampleRawDeposit 3448162 171],
               err := some (.wrap "error unpacking eth1-deposit-log: %x: %w" ["01"]
                 (.lib "abi: cannot unmarshal")),
               batchCalls := [] } ∧
    ([sampleRawDeposit 3448162 171] : List Eth1Deposit) ≠ [] := by
  decide

/-- C13 (amended): when the data of a matching log does not unpack, `fetchEth1Deposits`
returns at once with an error that wraps the unpack error and names the log data in
hex, before any batched lookup; the list returned with the error holds the deposits
decoded from the earlier logs, not yet enriched. -/
theorem fetchEth1Deposits_unpack_failure {PK Sig : Type} (env : Eth1Env PK Sig)
    (fromBlock toBlock : Nat) (pre post : List Log) (bad : Log) (c : Collected) (e : GoError)
    (hlogs : env.FilterLogs env.eth1DepositContractAddress fromBlock toBlock
      = .ok (pre ++ bad :: post))
    (hpre : collectDeposits env pre
      { depositsToSave := [], blocksToFetch := [], txsToFetch := [] } = .ret (c, none))
    (hbad : matchesDepositEvent env bad = true)
    (hunpack : env.UnpackDepositLogData bad.Data = .error e) :
    fetchEth1Deposits env fromBlock toBlock
      = .ret { depositsToSave := c.depositsToSave,
               err := some (.wrap "error unpacking eth1-deposit-log: %x: %w"
                 [hexKey bad.Data] e),
               batchCalls := [] } ∧
    c.depositsToSave.length = (pre.filter (matchesDepositEvent env)).length := by
  have hstep : collectDeposits env (bad :: post) c
      = .ret (c, some (.wrap "error unpacking eth1-deposit-log: %x: %w" [hexKey bad.Data] e)) := by
    simp only [collectDeposits]
    cases hT : bad.Topics with
    | nil => simp [matchesDepositEvent, hT] at hbad
    | cons topic0 more =>
      have hm : ¬ topic0 ≠ eth1DepositEventSignature env := by
        simpa [matchesDepositEvent, hT] using hbad
      dsimp only
      rw [if_neg hm, hunpack]
  have hall : collectDeposits env (pre ++ bad :: post)
      { depositsToSave := [], blocksToFetch := [], txsToFetch := [] }
      = .ret (c, some (.wrap "error unpacking eth1-deposit-log: %x: %w" [hexKey bad.Data] e)) := by
    rw [collectDeposits_append, hpre]
    exact hstep
  constructor
  · unfold fetchEth1Deposits
    simp only [hlogs, hall]
  · obtain ⟨new, h1, h2, _, _⟩ := collectDeposits_ok env pre _ c hpre
    simp only [List.nil_append] at h1
    rw [h1]
    exact h2.length_eq.symm

theorem fetchEth1Deposits_unpack_failure_witness :
    fetchEth1Deposits
        (sampleEth1Env [sampleLog 7 [1, 2, 3, 4] 3448162 171, sampleLog 7 [1] 5 1] none true)
        0 10
      = .ret { depositsToSave := [sampleRawDeposit 3448162 171],
               err := some (.wrap "error unpacking eth1-deposit-log: %x: %w"
                 [hexKey [1]] (.lib "abi: cannot unmarshal")),
               batchCalls := [] } :=
  (fetchEth1Deposits_unpack_failure
    (sampleEth1Env [sampleLog 7 [1, 2, 3, 4] 3448162 171, sampleLog 7 [1] 5 1] none true)
    0 10 [sampleLog 7 [1, 2, 3, 4] 3448162 171] [] (sampleLog 7 [1] 5 1)
    { depositsToSave := [sampleRawDeposit 3448162 171], blocksToFetch := [3448162],
      txsToFetch := [hashHex (sampleHash32 171)] }
    (.lib "abi: cannot unmarshal") rfl (by decide) (by decide) rfl).1

theorem count_map_eq_length_filter {α : Type} (f : α → Nat) (b : Nat) (xs : List α) :
    (xs.map f).count b = (xs.filter (fun x => decide (f x = b))).length := by
  induction xs with
  | nil => rfl
  | cons x rest ih =>
    by_cases h : f x = b
    · simp [List.filter_cons, h, ih]
    · simp [List.filter_cons, h, ih, List.count_cons]

/-- The traced function ends as `fetchEth1Deposits` does, and the batches of a call that
returns are those it has handed to `BatchCall`. -/
theorem fetchEth1DepositsTraced_snd {PK Sig : Type} (env : Eth1Env PK Sig)
    (fromBlock toBlock : Nat) :
    (fetchEth1DepositsTraced env fromBlock toBlock).2 = fetchEth1Deposits env fromBlock toBlock ∧
    ∀ r, fetchEth1Deposits env fromBlock toBlock = .ret r →
      r.batchCalls = (fetchEth1DepositsTraced env fromBlock toBlock).1 := by
  unfold fetchEth1DepositsTraced fetchEth1Deposits
  cases env.FilterLogs env.eth1DepositContractAddress fromBlock toBlock with
  | error err =>
    refine ⟨rfl, ?_⟩
    intro r hr
    simp only [Outcome.ret.injEq] at hr
    subst hr
    rfl
  | ok logs =>
    dsimp only
    cases collectDeposits env logs
        { depositsToSave := [], blocksToFetch := [], txsToFetch := [] } with
    | panic msg =>
      refine ⟨rfl, ?_⟩
      intro r hr
      cases hr
    | ret v =>
      obtain ⟨c, e⟩ := v
      cases e with
      | some err =>
        refine ⟨rfl, ?_⟩
        intro r hr
        simp only [Outcome.ret.injEq] at hr
        subst hr
        rfl
      | none =>
        dsimp only
        cases (eth1BatchRequestHeadersAndTxs env c.blocksToFetch c.txsToFetch).err with
        | some err =>
          refine ⟨rfl, ?_⟩
          intro r hr
          simp only [Outcome.ret.injEq] at hr
          subst hr
          rfl
        | none =>
          dsimp only
          cases enrichDeposits env
              ((eth1BatchRequestHeadersAndTxs env c.blocksToFetch c.txsToFetch).headers.getD [])
              ((eth1BatchRequestHeadersAndTxs env c.blocksToFetch c.txsToFetch).txs.getD [])
              c.depositsToSave with
          | panic msg =>
            refine ⟨rfl, ?_⟩
            intro r hr
            cases hr
          | ret out =>
            refine ⟨rfl, ?_⟩
            intro r hr
            simp only [Outcome.ret.injEq] at hr
            subst hr
            rfl

/-- Once the log loop has ended normally, the call hands one batch to `BatchCall`, built
from the two lists of the loop, whatever happens afterwards. -/
theorem fetchEth1DepositsTraced_batch {PK Sig : Type} (env : Eth1Env PK Sig)
    (fromBlock toBlock : Nat) (logs : List Log) (c : Collected)
    (hlogs : env.FilterLogs env.eth1DepositContractAddress fromBlock toBlock = .ok logs)
    (hc : collectDeposits env logs
      { depositsToSave := [], blocksToFetch := [], txsToFetch := [] } = .ret (c, none)) :
    (fetchEth1DepositsTraced env fromBlock toBlock).1
      = [c.blocksToFetch.map (blockElem env) ++ c.txsToFetch.map txElem] := by
  unfold fetchEth1DepositsTraced
  simp only [hlogs, hc]
  cases (eth1BatchRequestHeadersAndTxs env c.blocksToFetch c.txsToFetch).err with
  | some err => exact batch_calls env _ _
  | none =>
    dsimp only
    cases enrichDeposits env
        ((eth1BatchRequestHeadersAndTxs env c.blocksToFetch c.txsToFetch).headers.getD [])
        ((eth1BatchRequestHeadersAndTxs env c.blocksToFetch c.txsToFetch).txs.getD [])
        c.depositsToSave with
    | panic msg => exact batch_calls env _ _
    | ret out => exact batch_calls env _ _

/-- C17, as stated, fails: two matching logs of block 9 and of one transaction make the
batch ask for block 9 twice and for the transaction twice. -/
theorem fetchEth1Deposits_requests_once_counterexample :
    fetchEth1Deposits
        (sampleEth1Env [sampleLog 7 [1, 2, 3, 4] 9 171, sampleLog 7 [1, 2, 3, 4] 9 171]
          none true) 0 10
      = .ret { depositsToSave := [sampleDepositRecord 9 171, sampleDepositRecord 9 171],
               err := none,
               batchCalls := [[blockElem (sampleEth1Env [] none true) 9,
                               blockElem (sampleEth1Env [] none true) 9,
                               txElem (hashHex (sampleHash32 171)),
                               txElem (hashHex (sampleHash32 171))]] } ∧
    List.count (blockElem (sampleEth1Env [] none true) 9)
        [blockElem (sampleEth1Env [] none true) 9, blockElem (sampleEth1Env [] none true) 9,
         txElem (hashHex (sampleHash32 171)), txElem (hashHex (sampleHash32 171))] = 2 := by
  decide

/-- C17 (amended): the lists handed to the batched lookup hold one block number and one
transaction hash per matching log, in log order.  So the requested block numbers are
exactly those referenced by the matching logs, and each is requested once per matching
log that references it.  The one batch built from these lists is what the call hands to
`BatchCall`, whether it then returns or panics, and what a returning call reports. -/
theorem fetchEth1Deposits_requests_per_log {PK Sig : Type} (env : Eth1Env PK Sig)
    (fromBlock toBlock : Nat) (logs : List Log) (c : Collected)
    (hlogs : env.FilterLogs env.eth1DepositContractAddress fromBlock toBlock = .ok logs)
    (hc : collectDeposits env logs
      { depositsToSave := [], blocksToFetch := [], txsToFetch := [] } = .ret (c, none)) :
    ((fetchEth1DepositsTraced env fromBlock toBlock).1
        = [c.blocksToFetch.map (blockElem env) ++ c.txsToFetch.map txElem] ∧
      (fetchEth1DepositsTraced env fromBlock toBlock).2
        = fetchEth1Deposits env fromBlock toBlock ∧
      ∀ r, fetchEth1Deposits env fromBlock toBlock = .ret r →
        r.batchCalls = [c.blocksToFetch.map (blockElem env) ++ c.txsToFetch.map txElem]) ∧
    c.blocksToFetch = (logs.filter (matchesDepositEvent env)).map (·.BlockNumber) ∧
    c.txsToFetch = (logs.filter (matchesDepositEvent env)).map (fun l => hashHex l.TxHash) ∧
    (∀ b, b ∈ c.blocksToFetch ↔
      ∃ l ∈ logs, matchesDepositEvent env l = true ∧ l.BlockNumber = b) ∧
    (∀ t, t ∈ c.txsToFetch ↔
      ∃ l ∈ logs, matchesDepositEvent env l = true ∧ hashHex l.TxHash = t) ∧
    (∀ b, c.blocksToFetch.count b
      = ((logs.filter (matchesDepositEvent env)).filter
          (fun l => decide (l.BlockNumber = b))).length) := by
  obtain ⟨new, _, _, h3, h4⟩ := collectDeposits_ok env logs _ c hc
  simp only [List.nil_append] at h3 h4
  have htr := fetchEth1DepositsTraced_batch env fromBlock toBlock logs c hlogs hc
  have hsnd := fetchEth1DepositsTraced_snd env fromBlock toBlock
  refine ⟨⟨htr, hsnd.1, fun r hr => by rw [hsnd.2 r hr, htr]⟩, h3, h4, ?_, ?_, ?_⟩
  · intro b
    rw [h3]
    simp only [List.mem_map, List.mem_filter]
    constructor
    · rintro ⟨l, ⟨hl, hm⟩, hb⟩
      exact ⟨l, hl, hm, hb⟩
    · rintro ⟨l, hl, hm, hb⟩
      exact ⟨l, ⟨hl, hm⟩, hb⟩
  · intro t
    rw [h4]
    simp only [List.mem_map, List.mem_filter]
    constructor
    · rintro ⟨l, ⟨hl, hm⟩, hb⟩
      exact ⟨l, hl, hm, hb⟩
    · rintro ⟨l, hl, hm, hb⟩
      exact ⟨l, ⟨hl, hm⟩, hb⟩
  · intro b
    rw [h3]
    exact count_map_eq_length_filter _ b _

theorem fetchEth1Deposits_requests_per_log_witness :
    fetchEth1Deposits
        (sampleEth1EnvNoTx [sampleLog 7 [1, 2, 3, 4] 9 171, sampleLog 7 [1, 2, 3, 4] 9 171]) 0 10
      = .panic "runtime error: invalid memory address or nil pointer dereference" ∧
    (fetchEth1DepositsTraced
        (sampleEth1EnvNoTx [sampleLog 7 [1, 2, 3, 4] 9 171, sampleLog 7 [1, 2, 3, 4] 9 171])
        0 10).1
      = [[blockElem (sampleEth1Env [] none true) 9, blockElem (sampleEth1Env [] none true) 9,
          txElem (hashHex (sampleHash32 171)), txElem (hashHex (sampleHash32 171))]] ∧
    ([9, 9] : List Nat)
      = ([sampleLog 7 [1, 2, 3, 4] 9 171, sampleLog 7 [1, 2, 3, 4] 9 171].filter
          (matchesDepositEvent
            (sampleEth1EnvNoTx
              [sampleLog 7 [1, 2, 3, 4] 9 171, sampleLog 7 [1, 2, 3, 4] 9 171]))).map
          (·.BlockNumber) :=
  have h := fetchEth1Deposits_requests_per_log
    (sampleEth1EnvNoTx [sampleLog 7 [1, 2, 3, 4] 9 171, sampleLog 7 [1, 2, 3, 4] 9 171])
    0 10 [sampleLog 7 [1, 2, 3, 4] 9 171, sampleLog 7 [1, 2, 3, 4] 9 171]
    { depositsToSave := [sampleRawDeposit 9 171, sampleRawDeposit 9 171],
      blocksToFetch := [9, 9],
      txsToFetch := [hashHex (sampleHash32 171), hashHex (sampleHash32 171)] }
    rfl (by decide)
  ⟨by decide, h.1.1, h.2.1⟩

/-- Deposits fresh from the log loop carry no enrichment. -/
theorem newDeposits_not_enriched {PK Sig : Type} (env : Eth1Env PK Sig) (xs : List Log)
    (ys : List Eth1Deposit)
    (h : List.Forall₂
      (fun l d => ∃ u, env.UnpackDepositLogData l.Data = .ok u ∧ d = newDeposit env l u) xs ys) :
    ys.map stripEnrichment = ys := by
  induction h with
  | nil => rfl
  | cons hab _ ih =>
    obtain ⟨u, _, hd⟩ := hab
    rw [List.map_cons, ih, hd]
    rfl

/-- C18, as stated, fails: the batch transport fails, and the list returned with the
error still holds the deposit decoded from the log. -/
theorem fetchEth1Deposits_transport_failure_counterexample :
    fetchEth1Deposits
        (sampleEth1Env [sampleLog 7 [1, 2, 3, 4] 3448162 171]
          (some (.lib "connection reset")) true) 0 10
      = .ret { depositsToSave := [sampleRawDeposit 3448162 171],
               err := some (.wrap "error getting eth1-blocks: %w" []
                 (.lib "connection reset")),
               batchCalls := [[blockElem (sampleEth1Env [] none true) 3448162,
                               txElem (hashHex (sampleHash32 171))]] } ∧
    ([sampleRawDeposit 3448162 171] : List Eth1Deposit) ≠ [] := by
  decide

/-- C18 (amended): when the transport of the batch fails, `fetchEth1Deposits` returns an
error that wraps the transport error; the list returned with the error holds the
deposits decoded so far, none of them enriched. -/
theorem fetchEth1Deposits_transport_failure {PK Sig : Type} (env : Eth1Env PK Sig)
    (fromBlock toBlock : Nat) (logs : List Log) (c : Collected) (e : GoError)
    (hlogs : env.FilterLogs env.eth1DepositContractAddress fromBlock toBlock = .ok logs)
    (hc : collectDeposits env logs
      { depositsToSave := [], blocksToFetch := [], txsToFetch := [] } = .ret (c, none))
    (hio : env.batchTransport
      (c.blocksToFetch.map (blockElem env) ++ c.txsToFetch.map txElem) = some e) :
    fetchEth1Deposits env fromBlock toBlock
      = .ret { depositsToSave := c.depositsToSave,
               err := some (.wrap "error getting eth1-blocks: %w" [] e),
               batchCalls := [c.blocksToFetch.map (blockElem env) ++
                 c.txsToFetch.map txElem] } ∧
    c.depositsToSave.length = (logs.filter (matchesDepositEvent env)).length ∧
    c.depositsToSave.map stripEnrichment = c.depositsToSave := by
  have hb : (eth1BatchRequestHeadersAndTxs env c.blocksToFetch c.txsToFetch).err = some e := by
    rw [batch_err, hio]
  obtain ⟨new, h1, h2, _, _⟩ := collectDeposits_ok env logs _ c hc
  simp only [List.nil_append] at h1
  refine ⟨?_, ?_, ?_⟩
  · unfold fetchEth1Deposits
    simp only [hlogs, hc, hb, batch_calls]
  · rw [h1]
    exact h2.length_eq.symm
  · rw [h1]
    exact newDeposits_not_enriched env _ _ h2

theorem fetchEth1Deposits_transport_failure_witness :
    fetchEth1Deposits
        (sampleEth1Env [sampleLog 7 [1, 2, 3, 4] 3448162 171]
          (some (.lib "connection reset")) true) 0 10
      = .ret { depositsToSave := [sampleRawDeposit 3448162 171],
               err := some (.wrap "error getting eth1-blocks: %w" []
                 (.lib "connection reset")),
               batchCalls := [[blockElem (sampleEth1Env [] none true) 3448162,
                               txElem (hashHex (sampleHash32 171))]] } :=
  (fetchEth1Deposits_transport_failure
    (sampleEth1Env [sampleLog 7 [1, 2, 3, 4] 3448162 171] (some (.lib "connection reset")) true)
    0 10 [sampleLog 7 [1, 2, 3, 4] 3448162 171]
    { depositsToSave := [sampleRawDeposit 3448162 171], blocksToFetch := [3448162],
      txsToFetch := [hashHex (sampleHash32 171)] }
    (.lib "connection reset") rfl (by decide) rfl).1

theorem toInt64_of_lt (n : Nat) (h : n < 2 ^ 63) : toInt64 n = (n : Int) := by
  have hu : u64 n = n := Nat.mod_eq_of_lt (by omega)
  unfold toInt64
  rw [hu, if_pos h]

/-- A batched lookup without error returns both maps. -/
theorem batch_maps {PK Sig : Type} (env : Eth1Env PK Sig) (blocks : List Nat)
    (txs : List String) (h : (eth1BatchRequestHeadersAndTxs env blocks txs).err = none) :
    ∃ hs ts, (eth1BatchRequestHeadersAndTxs env blocks txs).headers = some hs ∧
      (eth1BatchRequestHeadersAndTxs env blocks txs).txs = some ts := by
  unfold eth1BatchRequestHeadersAndTxs at h ⊢
  simp only [batch_elems, batch_errors] at h ⊢
  cases ht : env.batchTransport (blocks.map (blockElem env) ++ txs.map txElem) with
  | some e => simp [ht] at h
  | none => exact ⟨_, _, rfl, rfl⟩

/-- Every deposit that leaves the enrichment loop without error carries the time of the
header stored for its block number, and the calldata and recovered sender of the
transaction stored for its hash. -/
theorem enrichDeposits_ok {PK Sig : Type} (env : Eth1Env PK Sig)
    (headers : List (Nat × Header)) (txs : List (String × Transaction)) :
    ∀ (ds out : List Eth1Deposit), enrichDeposits env headers txs ds = .ret (out, none) →
      ∀ d ∈ out, ∃ b tx chainID sender,
        mapGet headers d.BlockNumber = some b ∧ d.BlockTs = toInt64 b.Time ∧
        mapGet txs ("0x" ++ hexKey d.TxHash) = some tx ∧ d.TxInput = tx.Data ∧
        tx.ChainId = .ret (some chainID) ∧ env.Sender chainID tx = .ok sender ∧
        d.FromAddress = sender := by
  intro ds
  induction ds with
  | nil =>
    intro out h d hd
    simp only [enrichDeposits, Outcome.ret.injEq, Prod.mk.injEq, and_true] at h
    subst h
    cases hd
  | cons x rest ih =>
    intro out h d hd
    simp only [enrichDeposits] at h
    cases hb : mapGet headers x.BlockNumber with
    | none => simp [hb] at h
    | some b =>
      simp only [hb] at h
      cases ht : mapGet txs ("0x" ++ hexKey x.TxHash) with
      | none => simp [ht] at h
      | some tx =>
        simp only [ht] at h
        cases hcid : tx.ChainId with
        | panic msg => simp [hcid] at h
        | ret cid =>
          cases cid with
          | none => simp [hcid] at h
          | some chainID =>
            simp only [hcid] at h
            cases hs : env.Sender chainID tx with
            | error e => simp [hs] at h
            | ok sender =>
              simp only [hs] at h
              cases hrest : enrichDeposits env headers txs rest with
              | panic msg => simp [hrest] at h
              | ret out2 =>
                obtain ⟨o1, o2⟩ := out2
                simp only [hrest, Outcome.ret.injEq, Prod.mk.injEq] at h
                obtain ⟨hout, herr⟩ := h
                subst hout
                subst herr
                rcases List.mem_cons.mp hd with hhead | htail
                · subst hhead
                  exact ⟨b, tx, chainID, sender, hb, rfl, ht, rfl, hcid, hs, rfl⟩
                · exact ih _ hrest d htail

/-- C19: after a successful `fetchEth1Deposits`, every returned deposit has `BlockTs`
equal to `int64` of the `Time` of the header that the batched lookup stored for its
block number (the same number below 2^63), `TxInput` equal to the calldata of the
transaction stored for its hash, and `FromAddress` equal to the sender recovered from
that transaction with the signer of the chain id of the transaction. -/
theorem fetchEth1Deposits_enriches {PK Sig : Type} (env : Eth1Env PK Sig)
    (fromBlock toBlock : Nat) (logs : List Log) (r : FetchResult)
    (hlogs : env.FilterLogs env.eth1DepositContractAddress fromBlock toBlock = .ok logs)
    (hret : fetchEth1Deposits env fromBlock toBlock = .ret r) (herr : r.err = none) :
    ∃ c headers txs,
      collectDeposits env logs
        { depositsToSave := [], blocksToFetch := [], txsToFetch := [] } = .ret (c, none) ∧
      (eth1BatchRequestHeadersAndTxs env c.blocksToFetch c.txsToFetch).headers = some headers ∧
      (eth1BatchRequestHeadersAndTxs env c.blocksToFetch c.txsToFetch).txs = some txs ∧
      ∀ d ∈ r.depositsToSave, ∃ b tx chainID sender,
        mapGet headers d.BlockNumber = some b ∧ d.BlockTs = toInt64 b.Time ∧
        (b.Time < 2 ^ 63 → d.BlockTs = (b.Time : Int)) ∧
        mapGet txs ("0x" ++ hexKey d.TxHash) = some tx ∧ d.TxInput = tx.Data ∧
        tx.ChainId = .ret (some chainID) ∧ env.Sender chainID tx = .ok sender ∧
        d.FromAddress = sender := by
  obtain ⟨c, hc, hb, hen, _⟩ :=
    fetchEth1Deposits_success env fromBlock toBlock logs r hlogs hret herr
  obtain ⟨hs, ts, hhs, hts⟩ := batch_maps env _ _ hb
  refine ⟨c, hs, ts, hc, hhs, hts, ?_⟩
  rw [hhs, hts] at hen
  intro d hd
  obtain ⟨b, tx, chainID, sender, h1, h2, h3, h4, h5, h6, h7⟩ :=
    enrichDeposits_ok env hs ts _ _ hen d hd
  exact ⟨b, tx, chainID, sender, h1, h2, fun hlt => by rw [h2, toInt64_of_lt _ hlt],
    h3, h4, h5, h6, h7⟩

theorem fetchEth1Deposits_enriches_witness :
    ∃ c headers txs,
      collectDeposits (sampleEth1Env sampleLogs none true) sampleLogs
        { depositsToSave := [], blocksToFetch := [], txsToFetch := [] } = .ret (c, none) ∧
      (eth1BatchRequestHeadersAndTxs (sampleEth1Env sampleLogs none true)
        c.blocksToFetch c.txsToFetch).headers = some headers ∧
      (eth1BatchRequestHeadersAndTxs (sampleEth1Env sampleLogs none true)
        c.blocksToFetch c.txsToFetch).txs = some txs ∧
      ∀ d ∈ sampleFetchResult.depositsToSave, ∃ b tx chainID sender,
        mapGet headers d.BlockNumber = some b ∧ d.BlockTs = toInt64 b.Time ∧
        (b.Time < 2 ^ 63 → d.BlockTs = (b.Time : Int)) ∧
        mapGet txs ("0x" ++ hexKey d.TxHash) = some tx ∧ d.TxInput = tx.Data ∧
        tx.ChainId = .ret (some chainID) ∧
        (sampleEth1Env sampleLogs none true).Sender chainID tx = .ok sender ∧
        d.FromAddress = sender :=
  fetchEth1Deposits_enriches (sampleEth1Env sampleLogs none true) 0 10 sampleLogs
    sampleFetchResult rfl (by decide) rfl

/-- C20: evaluation at the failing input.  The transport of the batch succeeds and the
header sub-call of block 3448162 reports an error.  The header map then holds the zero
value for that block, and `fetchEth1Deposits` returns a `nil` error and the deposit with
`BlockTs = 0`, the timestamp of no header. -/
theorem fetchEth1Deposits_emits_deposit_without_timestamp :
    (sampleEth1Env [sampleLog 7 [1, 2, 3, 4] 3448162 171] none false).batchTransport
        [blockElem (sampleEth1Env [] none false) 3448162,
         txElem (hashHex (sampleHash32 171))] = none ∧
    (sampleEth1Env [sampleLog 7 [1, 2, 3, 4] 3448162 171] none false).replyHeader
        [blockElem (sampleEth1Env [] none false) 3448162,
         txElem (hashHex (sampleHash32 171))] 0 = .error (.lib "header not found") ∧
    fetchEth1Deposits (sampleEth1Env [sampleLog 7 [1, 2, 3, 4] 3448162 171] none false) 0 10
      = .ret { depositsToSave := [{ sampleDepositRecord 3448162 171 with BlockTs := 0 }],
               err := none,
               batchCalls := [[blockElem (sampleEth1Env [] none false) 3448162,
                               txElem (hashHex (sampleHash32 171))]] } :=
  ⟨rfl, rfl, by decide⟩

/-! ## Signature verification inside the ingester -/

theorem newDeposit_flag {PK Sig : Type} (env : Eth1Env PK Sig) (l : Log) (u : Unpacked) :
    flagMatchesVerifier env (newDeposit env l u) := by
  simp [flagMatchesVerifier, newDeposit, Option.isNone_iff_eq_none]

/-- Every deposit that the log loop returns, with or without error, carries the verdict
of the verifier. -/
theorem collectDeposits_flags {PK Sig : Type} (env : Eth1Env PK Sig) (logs : List Log) :
    ∀ (acc c : Collected) (e : Option GoError), collectDeposits env logs acc = .ret (c, e) →
      (∀ d ∈ acc.depositsToSave, flagMatchesVerifier env d) →
      ∀ d ∈ c.depositsToSave, flagMatchesVerifier env d := by
  induction logs with
  | nil =>
    intro acc c e h hacc
    simp only [collectDeposits, Outcome.ret.injEq, Prod.mk.injEq] at h
    rw [← h.1]
    exact hacc
  | cons l rest ih =>
    intro acc c e h hacc
    simp only [collectDeposits] at h
    cases hT : l.Topics with
    | nil => simp [hT] at h
    | cons topic0 more =>
      rw [hT] at h
      dsimp only at h
      by_cases hm : topic0 ≠ eth1DepositEventSignature env
      · rw [if_pos hm] at h
        exact ih acc c e h hacc
      · rw [if_neg hm] at h
        cases hu : env.UnpackDepositLogData l.Data with
        | error err =>
          simp only [hu, Outcome.ret.injEq, Prod.mk.injEq] at h
          rw [← h.1]
          exact hacc
        | ok u =>
          simp only [hu] at h
          apply ih _ c e h
          intro d hd
          rcases List.mem_append.mp hd with h1 | h1
          · exact hacc d h1
          · rw [List.mem_singleton.mp h1]
            exact newDeposit_flag env l u

theorem clearCollected_parts (c c2 : Collected) (h : clearCollected c2 = clearCollected c) :
    c2.blocksToFetch = c.blocksToFetch ∧ c2.txsToFetch = c.txsToFetch ∧
    c2.depositsToSave.map clearValidSignature = c.depositsToSave.map clearValidSignature := by
  cases c
  cases c2
  simp only [clearCollected, Collected.mk.injEq] at h
  exact ⟨h.2.1, h.2.2, h.1⟩

/-- The log loop run with another crypto library differs in the verification flags only. -/
theorem collectDeposits_crypto {PK Sig : Type} (env : Eth1Env PK Sig) (L2 : Crypto PK Sig)
    (logs : List Log) :
    ∀ acc acc2 : Collected, clearCollected acc2 = clearCollected acc →
      mapOutcome (fun p => (clearCollected p.1, p.2))
          (collectDeposits { env with crypto := L2 } logs acc2)
        = mapOutcome (fun p => (clearCollected p.1, p.2)) (collectDeposits env logs acc) := by
  induction logs with
  | nil =>
    intro acc acc2 h
    simp only [collectDeposits, mapOutcome, h]
  | cons l rest ih =>
    intro acc acc2 h
    simp only [collectDeposits]
    cases hT : l.Topics with
    | nil => rfl
    | cons topic0 more =>
      dsimp only
      have hsig : eth1DepositEventSignature { env with crypto := L2 }
          = eth1DepositEventSignature env := rfl
      rw [hsig]
      by_cases hm : topic0 ≠ eth1DepositEventSignature env
      · rw [if_pos hm, if_pos hm]
        exact ih acc acc2 h
      · rw [if_neg hm, if_neg hm]
        cases hu : env.UnpackDepositLogData l.Data with
        | error err => simp only [mapOutcome, h]
        | ok u =>
          dsimp only
          apply ih
          obtain ⟨h1, h2, h3⟩ := clearCollected_parts acc acc2 h
          simp only [clearCollected, List.map_append, h1, h2, h3, List.map_cons, List.map_nil]
          rfl

/-- The batched lookup does not read the crypto library. -/
theorem batch_crypto {PK Sig : Type} (env : Eth1Env PK Sig) (L2 : Crypto PK Sig)
    (blocks : List Nat) (txs : List String) :
    eth1BatchRequestHeadersAndTxs { env with crypto := L2 } blocks txs
      = eth1BatchRequestHeadersAndTxs env blocks txs := rfl

/-- The enrichment loop does not read the crypto library. -/
theorem enrichDeposits_crypto {PK Sig : Type} (env : Eth1Env PK Sig) (L2 : Crypto PK Sig)
    (headers : List (Nat × Header)) (txs : List (String × Transaction))
    (ds : List Eth1Deposit) :
    enrichDeposits { env with crypto := L2 } headers txs ds
      = enrichDeposits env headers txs ds := by
  induction ds with
  | nil => rfl
  | cons d rest ih =>
    simp only [enrichDeposits, ih]

/-- The enrichment loop commutes with resetting the verification flags. -/
theorem enrichDeposits_clear {PK Sig : Type} (env : Eth1Env PK Sig)
    (headers : List (Nat × Header)) (txs : List (String × Transaction))
    (ds : List Eth1Deposit) :
    enrichDeposits env headers txs (ds.map clearValidSignature)
      = mapOutcome (fun p => (p.1.map clearValidSignature, p.2))
          (enrichDeposits env headers txs ds) := by
  induction ds with
  | nil => rfl
  | cons d rest ih =>
    simp only [List.map_cons, enrichDeposits]
    have hb : (clearValidSignature d).BlockNumber = d.BlockNumber := rfl
    have ht : (clearValidSignature d).TxHash = d.TxHash := rfl
    rw [hb, ht]
    cases mapGet headers d.BlockNumber with
    | none => rfl
    | some b =>
      dsimp only
      cases mapGet txs ("0x" ++ hexKey d.TxHash) with
      | none => rfl
      | some tx =>
        dsimp only
        cases tx.ChainId with
        | panic msg => rfl
        | ret cid =>
          cases cid with
          | none => rfl
          | some chainID =>
            dsimp only
            cases env.Sender chainID tx with
            | error e => rfl
            | ok sender =>
              dsimp only
              rw [ih]
              cases enrichDeposits env headers txs rest with
              | panic msg => rfl
              | ret out => rfl

theorem flag_of_strip_eq {PK Sig : Type} (env : Eth1Env PK Sig) (d d2 : Eth1Deposit)
    (h : stripEnrichment d2 = stripEnrichment d) (hd : flagMatchesVerifier env d) :
    flagMatchesVerifier env d2 := by
  cases d
  cases d2
  simp only [stripEnrichment, Eth1Deposit.mk.injEq] at h
  obtain ⟨_, _, _, _, _, _, h1, h2, h3, h4, _, _, h5⟩ := h
  simp only [flagMatchesVerifier] at hd ⊢
  rw [h1, h2, h3, h4, h5]
  exact hd

/-- The flags of every returned list carry the verdict of the verifier. -/
theorem fetchEth1Deposits_flags {PK Sig : Type} (env : Eth1Env PK Sig)
    (fromBlock toBlock : Nat) (r : FetchResult)
    (hret : fetchEth1Deposits env fromBlock toBlock = .ret r) :
    ∀ d ∈ r.depositsToSave, flagMatchesVerifier env d := by
  unfold fetchEth1Deposits at hret
  cases hF : env.FilterLogs env.eth1DepositContractAddress fromBlock toBlock with
  | error err =>
    simp only [hF, Outcome.ret.injEq] at hret
    subst hret
    intro d hd
    cases hd
  | ok logs =>
    simp only [hF] at hret
    cases hc : collectDeposits env logs
        { depositsToSave := [], blocksToFetch := [], txsToFetch := [] } with
    | panic msg => simp [hc] at hret
    | ret v =>
      obtain ⟨c, e⟩ := v
      have hflags := collectDeposits_flags env logs _ c e hc (by intro d hd; cases hd)
      cases e with
      | some err =>
        simp only [hc, Outcome.ret.injEq] at hret
        subst hret
        exact hflags
      | none =>
        simp only [hc] at hret
        cases hb : (eth1BatchRequestHeadersAndTxs env c.blocksToFetch c.txsToFetch).err with
        | some err =>
          simp only [hb, Outcome.ret.injEq] at hret
          subst hret
          exact hflags
        | none =>
          simp only [hb] at hret
          cases hen : enrichDeposits env
              ((eth1BatchRequestHeadersAndTxs env c.blocksToFetch c.txsToFetch).headers.getD [])
              ((eth1BatchRequestHeadersAndTxs env c.blocksToFetch c.txsToFetch).txs.getD [])
              c.depositsToSave with
          | panic msg => simp [hen] at hret
          | ret out =>
            simp only [hen, Outcome.ret.injEq] at hret
            subst hret
            intro d hd
            have hmap := enrichDeposits_strip env _ _ _ out hen
            have hin : stripEnrichment d ∈ c.depositsToSave.map stripEnrichment := by
              rw [← hmap]
              exact List.mem_map.mpr ⟨d, hd, rfl⟩
            obtain ⟨d0, hd0, heq⟩ := List.mem_map.mp hin
            exact flag_of_strip_eq env d0 d heq.symm (hflags d0 hd0)

/-- Apart from the flags, the result does not depend on the crypto library. -/
theorem fetchEth1Deposits_crypto {PK Sig : Type} (env : Eth1Env PK Sig) (L2 : Crypto PK Sig)
    (fromBlock toBlock : Nat) :
    mapOutcome clearFlags (fetchEth1Deposits { env with crypto := L2 } fromBlock toBlock)
      = mapOutcome clearFlags (fetchEth1Deposits env fromBlock toBlock) := by
  unfold fetchEth1Deposits
  have hF2 : ({ env with crypto := L2 } : Eth1Env PK Sig).FilterLogs
      ({ env with crypto := L2 } : Eth1Env PK Sig).eth1DepositContractAddress fromBlock toBlock
      = env.FilterLogs env.eth1DepositContractAddress fromBlock toBlock := rfl
  rw [hF2]
  cases hF : env.FilterLogs env.eth1DepositContractAddress fromBlock toBlock with
  | error err => rfl
  | ok logs =>
    dsimp only
    have hrel := collectDeposits_crypto env L2 logs
      { depositsToSave := [], blocksToFetch := [], txsToFetch := [] }
      { depositsToSave := [], blocksToFetch := [], txsToFetch := [] } rfl
    cases hc : collectDeposits env logs
        { depositsToSave := [], blocksToFetch := [], txsToFetch := [] } with
    | panic msg =>
      cases hc2 : collectDeposits { env with crypto := L2 } logs
          { depositsToSave := [], blocksToFetch := [], txsToFetch := [] } with
      | panic msg2 =>
        rw [hc, hc2] at hrel
        simp only [mapOutcome, Outcome.panic.injEq] at hrel
        simp only [mapOutcome, hrel]
      | ret v2 =>
        rw [hc, hc2] at hrel
        simp [mapOutcome] at hrel
    | ret v =>
      cases hc2 : collectDeposits { env with crypto := L2 } logs
          { depositsToSave := [], blocksToFetch := [], txsToFetch := [] } with
      | panic msg2 =>
        rw [hc, hc2] at hrel
        simp [mapOutcome] at hrel
      | ret v2 =>
        rw [hc, hc2] at hrel
        obtain ⟨c, e⟩ := v
        obtain ⟨c2, e2⟩ := v2
        simp only [mapOutcome, Outcome.ret.injEq, Prod.mk.injEq] at hrel
        obtain ⟨hcc, hee⟩ := hrel
        subst hee
        obtain ⟨h1, h2, h3⟩ := clearCollected_parts c c2 hcc
        cases e2 with
        | some err =>
          simp only [mapOutcome, clearFlags, h3]
        | none =>
          dsimp only
          rw [batch_crypto, h1, h2]
          cases hb : (eth1BatchRequestHeadersAndTxs env c.blocksToFetch c.txsToFetch).err with
          | some err =>
            simp only [mapOutcome, clearFlags, h3]
          | none =>
            dsimp only
            rw [enrichDeposits_crypto]
            have hA := enrichDeposits_clear env
              ((eth1BatchRequestHeadersAndTxs env c.blocksToFetch c.txsToFetch).headers.getD [])
              ((eth1BatchRequestHeadersAndTxs env c.blocksToFetch c.txsToFetch).txs.getD [])
              c2.depositsToSave
            have hB := enrichDeposits_clear env
              ((eth1BatchRequestHeadersAndTxs env c.blocksToFetch c.txsToFetch).headers.getD [])
              ((eth1BatchRequestHeadersAndTxs env c.blocksToFetch c.txsToFetch).txs.getD [])
              c.depositsToSave
            rw [h3, hB] at hA
            cases hen : enrichDeposits env
                ((eth1BatchRequestHeadersAndTxs env c.blocksToFetch c.txsToFetch).headers.getD [])
                ((eth1BatchRequestHeadersAndTxs env c.blocksToFetch c.txsToFetch).txs.getD [])
                c.depositsToSave with
            | panic msg =>
              cases hen2 : enrichDeposits env
                  ((eth1BatchRequestHeadersAndTxs env c.blocksToFetch c.txsToFetch).headers.getD [])
                  ((eth1BatchRequestHeadersAndTxs env c.blocksToFetch c.txsToFetch).txs.getD [])
                  c2.depositsToSave with
              | panic msg2 =>
                rw [hen, hen2] at hA
                simp only [mapOutcome, Outcome.panic.injEq] at hA
                simp only [mapOutcome, hA]
              | ret out2 =>
                rw [hen, hen2] at hA
                simp [mapOutcome] at hA
            | ret out =>
              cases hen2 : enrichDeposits env
                  ((eth1BatchRequestHeadersAndTxs env c.blocksToFetch c.txsToFetch).headers.getD [])
                  ((eth1BatchRequestHeadersAndTxs env c.blocksToFetch c.txsToFetch).txs.getD [])
                  c2.depositsToSave with
              | panic msg2 =>
                rw [hen, hen2] at hA
                simp [mapOutcome] at hA
              | ret out2 =>
                rw [hen, hen2] at hA
                simp only [mapOutcome, Outcome.ret.injEq, Prod.mk.injEq] at hA
                simp only [mapOutcome, clearFlags, Outcome.ret.injEq, FetchResult.mk.injEq,
                  and_true]
                exact ⟨hA.1.symm, hA.2.symm⟩

/-- C14: the signature check never turns into an error of `fetchEth1Deposits`.  Every
deposit of a returned list has `ValidSignature` true exactly when
`VerifyEth1DepositSignature` returned `nil` for its public key, withdrawal credentials,
amount and signature; and the whole outcome (error, deposits and their order, batch)
is the same for every crypto library, up to these flags. -/
theorem fetchEth1Deposits_verification_is_a_flag {PK Sig : Type} (env : Eth1Env PK Sig)
    (L2 : Crypto PK Sig) (fromBlock toBlock : Nat) :
    (∀ r, fetchEth1Deposits env fromBlock toBlock = .ret r →
      ∀ d ∈ r.depositsToSave, flagMatchesVerifier env d) ∧
    mapOutcome clearFlags (fetchEth1Deposits { env with crypto := L2 } fromBlock toBlock)
      = mapOutcome clearFlags (fetchEth1Deposits env fromBlock toBlock) ∧
    (∀ r r2, fetchEth1Deposits env fromBlock toBlock = .ret r →
      fetchEth1Deposits { env with crypto := L2 } fromBlock toBlock = .ret r2 →
      r2.err = r.err ∧ r2.depositsToSave.length = r.depositsToSave.length) := by
  refine ⟨fun r hret => fetchEth1Deposits_flags env fromBlock toBlock r hret,
    fetchEth1Deposits_crypto env L2 fromBlock toBlock, ?_⟩
  intro r r2 hr hr2
  have h := fetchEth1Deposits_crypto env L2 fromBlock toBlock
  rw [hr, hr2] at h
  simp only [mapOutcome, Outcome.ret.injEq] at h
  have herr : r2.err = r.err := congrArg (fun x => x.err) h
  have hlen := congrArg (fun x => x.depositsToSave.length) h
  simp only [clearFlags, List.length_map] at hlen
  exact ⟨herr, hlen⟩

theorem fetchEth1Deposits_verification_is_a_flag_witness :
    fetchEth1Deposits { sampleEth1Env sampleLogs none true with crypto := sampleCrypto false }
        0 10
      = .ret { sampleFetchResult with
          depositsToSave := [{ sampleDepositRecord 3448162 171 with ValidSignature := false }] } ∧
    flagMatchesVerifier
      { sampleEth1Env sampleLogs none true with crypto := sampleCrypto false }
      { sampleDepositRecord 3448162 171 with ValidSignature := false } ∧
    (none : Option GoError) = sampleFetchResult.err := by
  have hrun : fetchEth1Deposits
      { sampleEth1Env sampleLogs none true with crypto := sampleCrypto false } 0 10
      = .ret { sampleFetchResult with
          depositsToSave := [{ sampleDepositRecord 3448162 171 with ValidSignature := false }] } := by
    decide
  have h1 := (fetchEth1Deposits_verification_is_a_flag
    { sampleEth1Env sampleLogs none true with crypto := sampleCrypto false }
    (sampleCrypto true) 0 10).1 _ hrun _ (List.mem_singleton.mpr rfl)
  have h2 := (fetchEth1Deposits_verification_is_a_flag (sampleEth1Env sampleLogs none true)
    (sampleCrypto false) 0 10).2.2 sampleFetchResult _ (by decide) hrun
  exact ⟨hrun, h1, h2.1⟩

/-! ## Claims about the fetches of the block loop -/

/-- The traced loop is the loop. -/
theorem blockLoopTraced_fst (w : World) (hi fuel : Nat) :
    ∀ (slot : Nat) (data : BlockMap),
      (blockLoopTraced w hi fuel slot data).map (·.1) = blockLoop w hi fuel slot data := by
  induction fuel with
  | zero =>
    intro slot data
    by_cases hs : slot ≤ hi <;> simp [blockLoopTraced, blockLoop, hs]
  | succ fuel ih =>
    intro slot data
    by_cases hs : slot ≤ hi
    · simp only [blockLoopTraced, blockLoop, hs, if_true]
      cases hr : w.GetBlocksBySlot slot with
      | error err => rfl
      | ok blocks =>
        simp only [Option.map_map]
        exact ih _ _
    · simp [blockLoopTraced, blockLoop, hs]

/-- Below the largest bound, with enough fuel and successful fetches, the loop fetches
the slots from its start to its bound, one after the other, and ends. -/
theorem blockLoopTraced_range (w : World) (hi : Nat) (hhi : hi < maxU64) (fuel : Nat) :
    ∀ (slot : Nat) (data : BlockMap), hi + 1 - slot ≤ fuel →
      (∀ q, slot ≤ q → q ≤ hi → ∃ bs, w.GetBlocksBySlot q = .ok bs) →
      blockLoopTraced w hi fuel slot data
        = some (.ok (mergeBlocks data (observedFrom w slot (hi + 1 - slot))),
                List.range' slot (hi + 1 - slot)) := by
  induction fuel with
  | zero =>
    intro slot data hf _
    have hs : ¬ slot ≤ hi := by omega
    have h0 : hi + 1 - slot = 0 := by omega
    simp [blockLoopTraced, hs, h0, observedFrom, mergeBlocks]
  | succ fuel ih =>
    intro slot data hf hok
    by_cases hs : slot ≤ hi
    · obtain ⟨bs, hbs⟩ := hok slot (Nat.le_refl _) hs
      have hu : u64 (slot + 1) = slot + 1 := by
        simp only [u64, maxU64] at *
        exact Nat.mod_eq_of_lt (by omega)
      have hn : hi + 1 - slot = (hi + 1 - (slot + 1)) + 1 := by omega
      simp only [blockLoopTraced, hs, if_true, hbs, hu]
      rw [ih (slot + 1) _ (by omega) (fun q h1 h2 => hok q (by omega) h2)]
      rw [hn, observedFrom, mergeBlocks_append, List.range'_succ]
      simp [responseBlocks, hbs]
    · have h0 : hi + 1 - slot = 0 := by omega
      simp [blockLoopTraced, hs, h0, observedFrom, mergeBlocks]

/-- C25: for `SlotsPerEpoch >= 1` and `(epoch+1)*SlotsPerEpoch <= 2^64-1` the loop bounds
do not wrap, and when every fetch of the epoch succeeds the block loop ends after
exactly `SlotsPerEpoch` fetches, of the slots `epoch*SlotsPerEpoch`, ...,
`(epoch+1)*SlotsPerEpoch-1` in ascending order. -/
theorem blockLoop_fetches_epoch_slots (w : World) (epoch fuel : Nat)
    (hspe : 1 ≤ w.SlotsPerEpoch) (hbound : (epoch + 1) * w.SlotsPerEpoch ≤ 2 ^ 64 - 1)
    (hok : ∀ q, epoch * w.SlotsPerEpoch ≤ q → q < (epoch + 1) * w.SlotsPerEpoch →
      ∃ bs, w.GetBlocksBySlot q = .ok bs)
    (hfuel : w.SlotsPerEpoch ≤ fuel) :
    firstSlot w epoch = epoch * w.SlotsPerEpoch ∧
    lastSlot w epoch = (epoch + 1) * w.SlotsPerEpoch - 1 ∧
    blockLoopTraced w (lastSlot w epoch) fuel (firstSlot w epoch) []
      = some (.ok (mergeBlocks [] (observed w epoch)),
              List.range' (epoch * w.SlotsPerEpoch) w.SlotsPerEpoch) ∧
    blockLoop w (lastSlot w epoch) fuel (firstSlot w epoch) []
      = some (.ok (mergeBlocks [] (observed w epoch))) ∧
    (List.range' (epoch * w.SlotsPerEpoch) w.SlotsPerEpoch).length = w.SlotsPerEpoch := by
  have hmul : (epoch + 1) * w.SlotsPerEpoch = epoch * w.SlotsPerEpoch + w.SlotsPerEpoch :=
    Nat.succ_mul _ _
  have hfirst : firstSlot w epoch = epoch * w.SlotsPerEpoch := by
    simp only [firstSlot, u64]
    exact Nat.mod_eq_of_lt (by omega)
  have hlast : lastSlot w epoch = (epoch + 1) * w.SlotsPerEpoch - 1 := by
    simp only [lastSlot, u64, maxU64]
    omega
  have hlt : lastSlot w epoch < maxU64 := by
    rw [hlast]
    simp only [maxU64]
    omega
  have hcount : lastSlot w epoch + 1 - firstSlot w epoch = w.SlotsPerEpoch := by
    rw [hlast, hfirst]
    omega
  have htr := blockLoopTraced_range w (lastSlot w epoch) hlt fuel (firstSlot w epoch) []
    (by omega)
    (by
      intro q h1 h2
      apply hok q
      · rw [← hfirst]; exact h1
      · rw [hlast] at h2; omega)
  have hobs : observed w epoch
      = observedFrom w (firstSlot w epoch) (lastSlot w epoch + 1 - firstSlot w epoch) := rfl
  rw [hcount] at htr
  rw [hobs, hcount]
  refine ⟨hfirst, hlast, ?_, ?_, by simp⟩
  · rw [htr, hfirst]
  · rw [← blockLoopTraced_fst, htr]
    rfl

theorem blockLoop_fetches_epoch_slots_witness :
    blockLoopTraced sampleWorld (lastSlot sampleWorld 1) 2 (firstSlot sampleWorld 1) []
      = some (.ok (mergeBlocks [] (observed sampleWorld 1)), List.range' (1 * 2) 2) :=
  (blockLoop_fetches_epoch_slots sampleWorld 1 2 (by decide) (by decide)
    (by
      intro q _ _
      by_cases h : q = 2
      · exact ⟨[sampleBlock 2 [171, 1] 9, sampleBlock 2 [171, 2] 9], by simp [sampleWorld, h]⟩
      · exact ⟨[], by simp [sampleWorld, h]⟩)
    (by decide)).2.2.1

/-! ## Claims about the two copies of the verifier -/

/-- C26: the two copies agree.  The verifier of eth1.go returns what the verifier of
bls.go returns for `spadina`, the same error or `nil`, and the two copies of
`ComputeDomain` return equal results on equal arguments. -/
theorem verifier_copies_agree {PK Sig : Type} (L : Crypto PK Sig) :
    (∀ obj : DepositData,
      Eth1.VerifyEth1DepositSignature L obj = Bls.VerifyEth1DepositSignature L obj "spadina") ∧
    (∀ obj : DepositData,
      Eth1.VerifyEth1DepositSignature L obj ≠ none ↔
        Bls.VerifyEth1DepositSignature L obj "spadina" ≠ none) ∧
    (∀ (domainType : Bytes4) (forkVersion genesisValidatorsRoot : Option (List Byte)),
      Eth1.ComputeDomain L domainType forkVersion genesisValidatorsRoot
        = Bls.ComputeDomain L domainType forkVersion genesisValidatorsRoot) := by
  have hcfg : Bls.networkConfig L "spadina" = L.SpadinaConfig := by
    simp [Bls.networkConfig]
  have heq : ∀ obj : DepositData,
      Eth1.VerifyEth1DepositSignature L obj
        = Bls.VerifyEth1DepositSignature L obj "spadina" := by
    intro obj
    unfold Eth1.VerifyEth1DepositSignature Bls.VerifyEth1DepositSignature
    simp only [hcfg, Eth1_ComputeDomain_eq]
  refine ⟨heq, ?_, fun dt fv gvr => Eth1_ComputeDomain_eq L dt fv gvr⟩
  intro obj
  rw [heq obj]

/-! ## Claims about the consistency of the batched lookup -/

theorem mapGet_map_value {K V W : Type} [DecidableEq K] (f : V → W) (m : List (K × V)) (k : K) :
    mapGet (m.map fun kv => (kv.1, f kv.2)) k = (mapGet m k).map f := by
  induction m with
  | nil => rfl
  | cons e rest ih =>
    obtain ⟨k1, v1⟩ := e
    by_cases h : k1 = k
    · simp [mapGet, h]
    · simp [mapGet, h, ih]

theorem mapGet_mapSet_ne_none {K V : Type} [DecidableEq K] (m : List (K × V)) (k k2 : K) (v : V)
    (h : mapGet m k ≠ none ∨ k = k2) : mapGet (mapSet m k2 v) k ≠ none := by
  by_cases hk : k2 = k
  · subst hk
    simp [mapGet_mapSet_same]
  · rw [mapGet_mapSet_other _ _ _ _ hk]
    rcases h with h | h
    · exact h
    · exact absurd h.symm hk

/-- After the first loop every requested block number is a key of the header map. -/
theorem foldl_addBlockElem_headers {PK Sig : Type} (env : Eth1Env PK Sig) (blocks : List Nat) :
    ∀ st : BatchState,
      (∀ b, (mapGet st.headers b ≠ none ∨ b ∈ blocks) →
        mapGet (blocks.foldl (addBlockElem env) st).headers b ≠ none) ∧
      (blocks.foldl (addBlockElem env) st).txs = st.txs := by
  induction blocks with
  | nil =>
    intro st
    refine ⟨?_, rfl⟩
    intro b h
    rcases h with h | h
    · exact h
    · cases h
  | cons x rest ih =>
    intro st
    obtain ⟨h1, h2⟩ := ih (addBlockElem env st x)
    refine ⟨?_, by rw [List.foldl_cons, h2]; rfl⟩
    intro b h
    rw [List.foldl_cons]
    apply h1
    rcases h with h | h
    · exact Or.inl (mapGet_mapSet_ne_none _ _ _ _ (Or.inl h))
    · rcases List.mem_cons.mp h with h | h
      · exact Or.inl (mapGet_mapSet_ne_none _ _ _ _ (Or.inr h))
      · exact Or.inr h

/-- After the second loop every requested hash is a key of the transaction map. -/
theorem foldl_addTxElem_txs (txs : List String) :
    ∀ st : BatchState,
      (∀ t, (mapGet st.txs t ≠ none ∨ t ∈ txs) →
        mapGet (txs.foldl addTxElem st).txs t ≠ none) ∧
      (txs.foldl addTxElem st).headers = st.headers := by
  induction txs with
  | nil =>
    intro st
    refine ⟨?_, rfl⟩
    intro t h
    rcases h with h | h
    · exact h
    · cases h
  | cons x rest ih =>
    intro st
    obtain ⟨h1, h2⟩ := ih (addTxElem st x)
    refine ⟨?_, by rw [List.foldl_cons, h2]; rfl⟩
    intro t h
    rw [List.foldl_cons]
    apply h1
    rcases h with h | h
    · exact Or.inl (mapGet_mapSet_ne_none _ _ _ _ (Or.inl h))
    · rcases List.mem_cons.mp h with h | h
      · exact Or.inl (mapGet_mapSet_ne_none _ _ _ _ (Or.inr h))
      · exact Or.inr h

/-- The maps of a batched lookup have a key for every requested block number and hash. -/
theorem batch_keys {PK Sig : Type} (env : Eth1Env PK Sig) (blocks : List Nat)
    (txs : List String) (hs : List (Nat × Header)) (ts : List (String × Transaction))
    (hh : (eth1BatchRequestHeadersAndTxs env blocks txs).headers = some hs)
    (ht : (eth1BatchRequestHeadersAndTxs env blocks txs).txs = some ts) :
    (∀ b ∈ blocks, mapGet hs b ≠ none) ∧ (∀ t ∈ txs, mapGet ts t ≠ none) := by
  unfold eth1BatchRequestHeadersAndTxs at hh ht
  simp only [batch_errors] at hh ht
  cases hio : env.batchTransport (txs.foldl addTxElem (blocks.foldl (addBlockElem env)
      { elems := [], headers := [], txs := [], errors := [] })).elems with
  | some e => simp [hio] at hh
  | none =>
    simp only [hio, Option.some.injEq] at hh ht
    subst hh
    subst ht
    constructor
    · intro b hb
      rw [mapGet_map_value, (foldl_addTxElem_txs txs _).2]
      have := (foldl_addBlockElem_headers env blocks
        { elems := [], headers := [], txs := [], errors := [] }).1 b (Or.inr hb)
      cases hget : mapGet (blocks.foldl (addBlockElem env)
          { elems := [], headers := [], txs := [], errors := [] }).headers b with
      | none => exact absurd hget this
      | some i => simp
    · intro t htm
      rw [mapGet_map_value]
      have := (foldl_addTxElem_txs txs (blocks.foldl (addBlockElem env)
        { elems := [], headers := [], txs := [], errors := [] })).1 t (Or.inr htm)
      cases hget : mapGet (txs.foldl addTxElem (blocks.foldl (addBlockElem env)
          { elems := [], headers := [], txs := [], errors := [] })).txs t with
      | none => exact absurd hget this
      | some i => simp

theorem forall2_mem_right {α β : Type} (R : α → β → Prop) (xs : List α) (ys : List β)
    (h : List.Forall₂ R xs ys) : ∀ y ∈ ys, ∃ x ∈ xs, R x y := by
  induction h with
  | nil => intro y hy; cases hy
  | cons hab _ ih =>
    intro y hy
    rcases List.mem_cons.mp hy with h1 | h1
    · subst h1
      exact ⟨_, List.mem_cons_self _ _, hab⟩
    · obtain ⟨x, hx, hr⟩ := ih y h1
      exact ⟨x, List.mem_cons_of_mem _ hx, hr⟩

/-- With a key for every deposit in both maps, the enrichment loop never ends with one
of the two consistency errors. -/
theorem enrichDeposits_no_consistency_error {PK Sig : Type} (env : Eth1Env PK Sig)
    (headers : List (Nat × Header)) (txs : List (String × Transaction)) :
    ∀ (ds : List Eth1Deposit) (out : List Eth1Deposit × Option GoError),
      (∀ d ∈ ds, mapGet headers d.BlockNumber ≠ none ∧
        mapGet txs ("0x" ++ hexKey d.TxHash) ≠ none) →
      enrichDeposits env headers txs ds = .ret out →
      out.2 ≠ some (.errorf
        "error getting block for eth1-deposit: block does not exist in fetched map" []) ∧
      out.2 ≠ some (.errorf
        "error getting tx for eth1-deposit: tx does not exist in fetched map" []) := by
  intro ds
  induction ds with
  | nil =>
    intro out _ h
    simp only [enrichDeposits, Outcome.ret.injEq] at h
    subst h
    exact ⟨by simp, by simp⟩
  | cons d rest ih =>
    intro out hkeys h
    obtain ⟨hb, ht⟩ := hkeys d (List.mem_cons_self _ _)
    simp only [enrichDeposits] at h
    cases hb2 : mapGet headers d.BlockNumber with
    | none => exact absurd hb2 hb
    | some b =>
      simp only [hb2] at h
      cases ht2 : mapGet txs ("0x" ++ hexKey d.TxHash) with
      | none => exact absurd ht2 ht
      | some tx =>
        simp only [ht2] at h
        cases hcid : tx.ChainId with
        | panic msg => simp [hcid] at h
        | ret cid =>
          cases cid with
          | none =>
            simp only [hcid, Outcome.ret.injEq] at h
            subst h
            exact ⟨by simp, by simp⟩
          | some chainID =>
            simp only [hcid] at h
            cases hs : env.Sender chainID tx with
            | error e =>
              simp only [hs, Outcome.ret.injEq] at h
              subst h
              exact ⟨by simp, by simp⟩
            | ok sender =>
              simp only [hs] at h
              cases hrest : enrichDeposits env headers txs rest with
              | panic msg => simp [hrest] at h
              | ret out2 =>
                simp only [hrest, Outcome.ret.injEq] at h
                subst h
                exact ih out2 (fun x hx => hkeys x (List.mem_cons_of_mem _ hx)) hrest

/-- The enrichment loop returns when `ChainId()` panics on none of the transactions stored
for the deposits. -/
theorem enrichDeposits_returns {PK Sig : Type} (env : Eth1Env PK Sig)
    (headers : List (Nat × Header)) (txs : List (String × Transaction)) :
    ∀ ds : List Eth1Deposit,
      (∀ d ∈ ds, ∀ tx, mapGet txs ("0x" ++ hexKey d.TxHash) = some tx →
        ∃ cid, tx.ChainId = .ret cid) →
      ∃ out, enrichDeposits env headers txs ds = .ret out := by
  intro ds
  induction ds with
  | nil => intro _; exact ⟨_, rfl⟩
  | cons d rest ih =>
    intro hcids
    simp only [enrichDeposits]
    cases hb2 : mapGet headers d.BlockNumber with
    | none => exact ⟨_, rfl⟩
    | some b =>
      dsimp only
      cases ht2 : mapGet txs ("0x" ++ hexKey d.TxHash) with
      | none => exact ⟨_, rfl⟩
      | some tx =>
        dsimp only
        obtain ⟨cid, hcid⟩ := hcids d (List.mem_cons_self _ _) tx ht2
        rw [hcid]
        cases cid with
        | none => exact ⟨_, rfl⟩
        | some chainID =>
          dsimp only
          cases env.Sender chainID tx with
          | error e => exact ⟨_, rfl⟩
          | ok sender =>
            dsimp only
            obtain ⟨out2, hout2⟩ := ih (fun x hx => hcids x (List.mem_cons_of_mem _ hx))
            rw [hout2]
            exact ⟨_, rfl⟩

/-- C23: when the transport of the batch succeeds, both maps are returned, the header
map has a key for the block number of every deposit built from a matching log, and the
transaction map has the key `"0x"` + hex of its `TxHash`, which is the string
`TxHash.Hex()` under which the transaction was requested.  So no call returns one of the
two consistency errors; and the call does return when `ChainId()` panics on none of the
transactions stored for the deposits. -/
theorem fetchEth1Deposits_maps_complete {PK Sig : Type} (env : Eth1Env PK Sig)
    (fromBlock toBlock : Nat) (logs : List Log) (c : Collected)
    (hlogs : env.FilterLogs env.eth1DepositContractAddress fromBlock toBlock = .ok logs)
    (hc : collectDeposits env logs
      { depositsToSave := [], blocksToFetch := [], txsToFetch := [] } = .ret (c, none))
    (hio : env.batchTransport
      (c.blocksToFetch.map (blockElem env) ++ c.txsToFetch.map txElem) = none) :
    ∃ hs ts,
      (eth1BatchRequestHeadersAndTxs env c.blocksToFetch c.txsToFetch).headers = some hs ∧
      (eth1BatchRequestHeadersAndTxs env c.blocksToFetch c.txsToFetch).txs = some ts ∧
      (∀ d ∈ c.depositsToSave, mapGet hs d.BlockNumber ≠ none ∧
        mapGet ts ("0x" ++ hexKey d.TxHash) ≠ none) ∧
      (∀ l : Log, hashHex l.TxHash = "0x" ++ hexKey l.TxHash.val) ∧
      (∀ r, fetchEth1Deposits env fromBlock toBlock = .ret r →
        r.err ≠ some (.errorf
          "error getting block for eth1-deposit: block does not exist in fetched map" []) ∧
        r.err ≠ some (.errorf
          "error getting tx for eth1-deposit: tx does not exist in fetched map" [])) ∧
      ((∀ d ∈ c.depositsToSave, ∀ tx, mapGet ts ("0x" ++ hexKey d.TxHash) = some tx →
          ∃ cid, tx.ChainId = .ret cid) →
        ∃ r, fetchEth1Deposits env fromBlock toBlock = .ret r) := by
  have hb : (eth1BatchRequestHeadersAndTxs env c.blocksToFetch c.txsToFetch).err = none := by
    rw [batch_err, hio]
  obtain ⟨hs, ts, hhs, hts⟩ := batch_maps env _ _ hb
  obtain ⟨hkb, hkt⟩ := batch_keys env _ _ hs ts hhs hts
  obtain ⟨new, h1, h2, h3, h4⟩ := collectDeposits_ok env logs _ c hc
  simp only [List.nil_append] at h1 h3 h4
  have hkeys : ∀ d ∈ c.depositsToSave, mapGet hs d.BlockNumber ≠ none ∧
      mapGet ts ("0x" ++ hexKey d.TxHash) ≠ none := by
    intro d hd
    rw [h1] at hd
    obtain ⟨l, hl, u, _, hdl⟩ := forall2_mem_right _ _ _ h2 d hd
    subst hdl
    constructor
    · apply hkb
      rw [h3]
      exact List.mem_map.mpr ⟨l, hl, rfl⟩
    · apply hkt
      rw [h4]
      exact List.mem_map.mpr ⟨l, hl, rfl⟩
  have hrun : fetchEth1Deposits env fromBlock toBlock
      = match enrichDeposits env hs ts c.depositsToSave with
        | .panic msg => .panic msg
        | .ret out =>
          .ret { depositsToSave := out.1, err := out.2,
                 batchCalls := (eth1BatchRequestHeadersAndTxs env c.blocksToFetch
                   c.txsToFetch).batchCalls } := by
    unfold fetchEth1Deposits
    simp only [hlogs, hc, hb, hhs, hts, Option.getD_some]
  refine ⟨hs, ts, hhs, hts, hkeys, fun _ => rfl, ?_, ?_⟩
  · intro r hr
    rw [hrun] at hr
    cases hen : enrichDeposits env hs ts c.depositsToSave with
    | panic msg => simp [hen] at hr
    | ret out =>
      simp only [hen, Outcome.ret.injEq] at hr
      subst hr
      exact enrichDeposits_no_consistency_error env hs ts c.depositsToSave out hkeys hen
  · intro hcids
    obtain ⟨out, hout⟩ := enrichDeposits_returns env hs ts c.depositsToSave hcids
    rw [hrun, hout]
    exact ⟨_, rfl⟩

theorem fetchEth1Deposits_maps_complete_witness :
    ∃ hs ts,
      (eth1BatchRequestHeadersAndTxs (sampleEth1Env sampleLogs none true)
        [3448162] [hashHex (sampleHash32 171)]).headers = some hs ∧
      (eth1BatchRequestHeadersAndTxs (sampleEth1Env sampleLogs none true)
        [3448162] [hashHex (sampleHash32 171)]).txs = some ts ∧
      (∀ d ∈ [sampleRawDeposit 3448162 171], mapGet hs d.BlockNumber ≠ none ∧
        mapGet ts ("0x" ++ hexKey d.TxHash) ≠ none) ∧
      (∀ l : Log, hashHex l.TxHash = "0x" ++ hexKey l.TxHash.val) ∧
      (∀ r, fetchEth1Deposits (sampleEth1Env sampleLogs none true) 0 10 = .ret r →
        r.err ≠ some (.errorf
          "error getting block for eth1-deposit: block does not exist in fetched map" []) ∧
        r.err ≠ some (.errorf
          "error getting tx for eth1-deposit: tx does not exist in fetched map" [])) ∧
      ((∀ d ∈ [sampleRawDeposit 3448162 171], ∀ tx,
          mapGet ts ("0x" ++ hexKey d.TxHash) = some tx → ∃ cid, tx.ChainId = .ret cid) →
        ∃ r, fetchEth1Deposits (sampleEth1Env sampleLogs none true) 0 10 = .ret r) :=
  fetchEth1Deposits_maps_complete (sampleEth1Env sampleLogs none true) 0 10 sampleLogs
    { depositsToSave := [sampleRawDeposit 3448162 171], blocksToFetch := [3448162],
      txsToFetch := [hashHex (sampleHash32 171)] }
    rfl (by decide) rfl

/-- C24: evaluation at the failing input.  The node returns one log without topics, and
the read of `Topics[0]` panics. -/
theorem fetchEth1Deposits_panics_on_empty_topics :
    fetchEth1Deposits
        (sampleEth1Env [{ sampleLog 7 [1, 2, 3, 4] 5 1 with Topics := [] }] none true) 0 10
      = .panic "runtime error: index out of range [0] with length 0" := by
  decide

/-! ## Claims about the charts page -/

/-- Without a failing result the receive loop appends one chart per result, in arrival
order. -/
theorem receiveCharts_ok {D : Type} (results : List (chartHandlerRes D)) :
    ∀ acc : List (ChartsPageDataChart D), (∀ r ∈ results, r.Error = none) →
      receiveCharts results acc
        = .ok (acc ++ results.map fun r =>
            { Order := r.Order, Path := r.Path, Data := r.Data }) := by
  induction results with
  | nil => intro acc _; simp [receiveCharts]
  | cons r rest ih =>
    intro acc h
    have hr : r.Error = none := h r (List.mem_cons_self _ _)
    simp only [receiveCharts, hr]
    rw [ih _ (fun x hx => h x (List.mem_cons_of_mem _ hx))]
    simp

/-- With a failing result the receive loop ends with the error of one of the results. -/
theorem receiveCharts_error {D : Type} (results : List (chartHandlerRes D)) :
    ∀ acc : List (ChartsPageDataChart D), (∃ r ∈ results, r.Error ≠ none) →
      ∃ err, receiveCharts results acc = .error err ∧ ∃ r ∈ results, r.Error = some err := by
  induction results with
  | nil =>
    intro acc h
    obtain ⟨r, hr, _⟩ := h
    cases hr
  | cons r rest ih =>
    intro acc h
    cases hr : r.Error with
    | some err =>
      exact ⟨err, by simp [receiveCharts, hr], r, List.mem_cons_self _ _, hr⟩
    | none =>
      have hrest : ∃ x ∈ rest, x.Error ≠ none := by
        obtain ⟨x, hx, hxe⟩ := h
        rcases List.mem_cons.mp hx with h1 | h1
        · subst h1
          exact absurd hr hxe
        · exact ⟨x, h1, hxe⟩
      obtain ⟨err, h1, x, hx, hxe⟩ := ih _ hrest
      exact ⟨err, by simp only [receiveCharts, hr]; exact h1, x, List.mem_cons_of_mem _ hx, hxe⟩

theorem insertChart_perm {D : Type} (c : ChartsPageDataChart D) :
    ∀ l : List (ChartsPageDataChart D), (insertChart c l).Perm (c :: l) := by
  intro l
  induction l with
  | nil => exact List.Perm.refl _
  | cons x xs ih =>
    by_cases h : c.Order < x.Order
    · simp [insertChart, h]
    · simp only [insertChart, h, if_false]
      exact (List.Perm.cons x ih).trans (List.Perm.swap c x xs)

theorem sortCharts_perm {D : Type} :
    ∀ l : List (ChartsPageDataChart D), (sortCharts l).Perm l := by
  intro l
  induction l with
  | nil => exact List.Perm.refl _
  | cons c cs ih => exact (insertChart_perm c _).trans (List.Perm.cons c ih)

theorem insertChart_sorted {D : Type} (c : ChartsPageDataChart D) :
    ∀ l : List (ChartsPageDataChart D), List.Pairwise (fun a b => a.Order ≤ b.Order) l →
      List.Pairwise (fun a b => a.Order ≤ b.Order) (insertChart c l) := by
  intro l
  induction l with
  | nil => intro _; simp [insertChart]
  | cons x xs ih =>
    intro h
    obtain ⟨hx, hxs⟩ := List.pairwise_cons.mp h
    by_cases hc : c.Order < x.Order
    · simp only [insertChart, hc, if_true]
      refine List.pairwise_cons.mpr ⟨?_, h⟩
      intro y hy
      rcases List.mem_cons.mp hy with h1 | h1
      · subst h1
        exact Int.le_of_lt hc
      · exact Int.le_trans (Int.le_of_lt hc) (hx y h1)
    · simp only [insertChart, hc, if_false]
      refine List.pairwise_cons.mpr ⟨?_, ih hxs⟩
      intro y hy
      have hy2 : y ∈ c :: xs := (insertChart_perm c xs).mem_iff.mp hy
      rcases List.mem_cons.mp hy2 with h1 | h1
      · subst h1
        omega
      · exact hx y h1

theorem sortCharts_sorted {D : Type} :
    ∀ l : List (ChartsPageDataChart D),
      List.Pairwise (fun a b => a.Order ≤ b.Order) (sortCharts l) := by
  intro l
  induction l with
  | nil => exact List.Pairwise.nil
  | cons c cs ih => exact insertChart_sorted c _ ih

/-- C22: with the results of the handlers of `ChartHandlers` arriving in any order, a run
in which every handler succeeds returns one chart per handler, with the name of the
handler as `Path`, its order as `Order` and its data, arranged in strictly increasing
`Order`; a run in which some handler fails returns no list and the error of a failed
handler. -/
theorem getChartsPageData_ordered {D : Type} (dataFunc : String → Option D × Option GoError)
    (arrival : List (String × Int)) (harrival : arrival.Perm ChartHandlers) :
    ((∀ h ∈ ChartHandlers, (dataFunc h.1).2 = none) →
      ∃ charts, getChartsPageData dataFunc arrival = (some charts, none) ∧
        (charts.map fun c => (c.Path, c.Order)).Perm ChartHandlers ∧
        charts.length = ChartHandlers.length ∧
        List.Pairwise (fun a b => a.Order < b.Order) charts ∧
        ∀ c ∈ charts, c.Data = (dataFunc c.Path).1) ∧
    ((∃ h ∈ ChartHandlers, (dataFunc h.1).2 ≠ none) →
      ∃ err, getChartsPageData dataFunc arrival = (none, some err) ∧
        ∃ h ∈ ChartHandlers, (dataFunc h.1).2 = some err) := by
  constructor
  · intro hall
    have hres : ∀ r ∈ arrival.map (runChartHandler dataFunc), r.Error = none := by
      intro r hr
      obtain ⟨h, hh, hrh⟩ := List.mem_map.mp hr
      subst hrh
      exact hall h (harrival.mem_iff.mp hh)
    have hrecv := receiveCharts_ok (arrival.map (runChartHandler dataFunc)) [] hres
    simp only [List.nil_append, List.map_map] at hrecv
    refine ⟨sortCharts (arrival.map ((fun r : chartHandlerRes D =>
        ({ Order := r.Order, Path := r.Path, Data := r.Data } : ChartsPageDataChart D)) ∘
        runChartHandler dataFunc)), ?_, ?_, ?_, ?_, ?_⟩
    · simp only [getChartsPageData, hrecv]
    · have h1 := (sortCharts_perm (arrival.map ((fun r : chartHandlerRes D =>
        ({ Order := r.Order, Path := r.Path, Data := r.Data } : ChartsPageDataChart D)) ∘
        runChartHandler dataFunc))).map (fun c => (c.Path, c.Order))
      refine h1.trans ?_
      rw [List.map_map]
      have hid : ((fun c : ChartsPageDataChart D => (c.Path, c.Order)) ∘
          ((fun r : chartHandlerRes D =>
            ({ Order := r.Order, Path := r.Path, Data := r.Data } : ChartsPageDataChart D)) ∘
          runChartHandler dataFunc)) = id := by
        funext h
        rfl
      rw [hid, List.map_id]
      exact harrival
    · rw [(sortCharts_perm _).length_eq, List.length_map]
      exact harrival.length_eq
    · have hle := sortCharts_sorted (arrival.map ((fun r : chartHandlerRes D =>
        ({ Order := r.Order, Path := r.Path, Data := r.Data } : ChartsPageDataChart D)) ∘
        runChartHandler dataFunc))
      have hperm : ((sortCharts (arrival.map ((fun r : chartHandlerRes D =>
          ({ Order := r.Order, Path := r.Path, Data := r.Data } : ChartsPageDataChart D)) ∘
          runChartHandler dataFunc))).map fun c => c.Order).Perm (ChartHandlers.map Prod.snd) := by
        refine ((sortCharts_perm _).map _).trans ?_
        rw [List.map_map]
        exact harrival.map _
      have hnd : ((sortCharts (arrival.map ((fun r : chartHandlerRes D =>
          ({ Order := r.Order, Path := r.Path, Data := r.Data } : ChartsPageDataChart D)) ∘
          runChartHandler dataFunc))).map fun c => c.Order).Nodup :=
        hperm.nodup_iff.mpr (by decide)
      have hne := List.pairwise_map.mp hnd
      exact (hle.and hne).imp (fun h => by omega)
    · intro c hc
      have hc2 := (sortCharts_perm _).mem_iff.mp hc
      obtain ⟨h, _, hch⟩ := List.mem_map.mp hc2
      subst hch
      rfl
  · intro hfail
    have hres : ∃ r ∈ arrival.map (runChartHandler dataFunc), r.Error ≠ none := by
      obtain ⟨h, hh, hne⟩ := hfail
      exact ⟨runChartHandler dataFunc h,
        List.mem_map.mpr ⟨h, harrival.mem_iff.mpr hh, rfl⟩, hne⟩
    obtain ⟨err, hrecv, r, hr, hre⟩ :=
      receiveCharts_error (arrival.map (runChartHandler dataFunc)) [] hres
    refine ⟨err, by simp only [getChartsPageData, hrecv], ?_⟩
    obtain ⟨h, hh, hrh⟩ := List.mem_map.mp hr
    subst hrh
    exact ⟨h, harrival.mem_iff.mp hh, hre⟩

theorem getChartsPageData_ordered_witness :
    ∃ charts, getChartsPageData (D := Nat) (fun name => (some name.length, none))
        ChartHandlers.reverse = (some charts, none) ∧
      (charts.map fun c => (c.Path, c.Order)).Perm ChartHandlers ∧
      charts.length = ChartHandlers.length ∧
      List.Pairwise (fun a b => a.Order < b.Order) charts ∧
      ∀ c ∈ charts, c.Data = some c.Path.length :=
  (getChartsPageData_ordered (D := Nat) (fun name => (some name.length, none))
    ChartHandlers.reverse (List.reverse_perm _)).1 (fun _ _ => rfl)

/-! ## Claims about the query parameters of the validators table -/

theorem mapGet_mem_values {K V : Type} [DecidableEq K] (m : List (K × V)) (k : K) (v : V)
    (h : mapGet m k = some v) : v ∈ m.map Prod.snd := by
  induction m with
  | nil => cases h
  | cons e rest ih =>
    obtain ⟨k1, v1⟩ := e
    by_cases hk : k1 = k
    · simp only [mapGet, hk, if_true, Option.some.injEq] at h
      simp [h]
    · simp only [mapGet, hk, if_false] at h
      exact List.mem_cons_of_mem _ (ih h)

theorem ite_mem {α : Type} (c : Prop) [Decidable c] (a b : α) (l : List α) (ha : a ∈ l)
    (hb : b ∈ l) : (if c then a else b) ∈ l := by
  by_cases h : c
  · rw [if_pos h]
    exact ha
  · rw [if_neg h]
    exact hb

theorem stateFilterClause_whitelist (filterByState : List Byte) :
    stateFilterClause filterByState ∈
      ["", "AND a.state LIKE 'pending%'", "AND a.state LIKE 'active%'",
       "AND a.state = 'active_online'", "AND a.state = 'active_offline'",
       "AND a.state LIKE 'slashing%'", "AND a.state = 'slashing_online'",
       "AND a.state = 'slashing_offline'", "AND a.state = 'slashed'",
       "AND a.state LIKE 'exiting%'", "AND a.state = 'exiting_online'",
       "AND a.state = 'exiting_offline'", "AND a.state = 'exited'"] := by
  unfold stateFilterClause
  iterate 12 (refine ite_mem _ _ _ _ (by decide) ?_)
  decide

/-- C27: whenever `parseValidatorsDataQueryParams` succeeds, `OrderBy` is one of the nine
column names, `OrderDir` one of the four directions, `StateFilter` empty or one of the
twelve clauses, whatever the query holds; `Length` lies between 0 and 100, and `Search`
has at most 128 bytes. -/
theorem parseValidatorsDataQueryParams_whitelists
    (ParseUint : List Byte → Except GoError Nat) (ParseInt : List Byte → Except GoError Int)
    (q : String → List Byte) (params : ValidatorsDataQueryParams)
    (h : parseValidatorsDataQueryParams ParseUint ParseInt q = (some params, none)) :
    params.OrderBy ∈ ["pubkey", "validatorindex", "balance", "state", "activationepoch",
      "exitepoch", "withdrawableepoch", "lastattestationslot", "executedproposals"] ∧
    (mapGet orderByMap (q "order[0][column]") = none → params.OrderBy = "validatorindex") ∧
    params.OrderDir ∈ ["asc", "desc", "asc nulls first", "desc nulls last"] ∧
    params.StateFilter ∈
      ["", "AND a.state LIKE 'pending%'", "AND a.state LIKE 'active%'",
       "AND a.state = 'active_online'", "AND a.state = 'active_offline'",
       "AND a.state LIKE 'slashing%'", "AND a.state = 'slashing_online'",
       "AND a.state = 'slashing_offline'", "AND a.state = 'slashed'",
       "AND a.state LIKE 'exiting%'", "AND a.state = 'exiting_online'",
       "AND a.state = 'exiting_offline'", "AND a.state = 'exited'"] ∧
    0 ≤ params.Length ∧ params.Length ≤ 100 ∧ params.Search.length ≤ 128 := by
  unfold parseValidatorsDataQueryParams at h
  cases hd : ParseUint (q "draw") with
  | error err => simp [hd] at h
  | ok draw =>
    cases hs : ParseUint (q "start") with
    | error err => simp [hd, hs] at h
    | ok start =>
      cases hl : ParseInt (q "length") with
      | error err => simp [hd, hs, hl] at h
      | ok length =>
        simp only [hd, hs, hl, Prod.mk.injEq, Option.some.injEq, and_true] at h
        subst h
        refine ⟨?_, ?_, ?_, stateFilterClause_whitelist _, ?_, ?_, ?_⟩
        · dsimp only
          cases hget : mapGet orderByMap (q "order[0][column]") with
          | none => simp
          | some column =>
            exact mapGet_mem_values orderByMap _ column hget
        · intro hnone
          dsimp only
          rw [hnone]
        · dsimp only
          split_ifs <;> simp
        · dsimp only
          split_ifs <;> omega
        · dsimp only
          split_ifs <;> omega
        · dsimp only
          split_ifs with hlen
          · simp
          · omega

theorem parseValidatorsDataQueryParams_whitelists_witness :
    ("lastattestationslot" : String) ∈ ["pubkey", "validatorindex", "balance", "state",
      "activationepoch", "exitepoch", "withdrawableepoch", "lastattestationslot",
      "executedproposals"] ∧
    ("asc nulls first" : String) ∈ ["asc", "desc", "asc nulls first", "desc nulls last"] ∧
    (0 : Int) ≤ 100 ∧ (100 : Int) ≤ 100 := by
  have h := parseValidatorsDataQueryParams_whitelists (fun _ => .ok 1) (fun _ => .ok 500)
    (fun k => if k = "order[0][column]" then stringBytes "7"
      else if k = "search[value]" then stringBytes "0x00x0xab" else stringBytes "asc")
    { Search := stringBytes "0ab", OrderBy := "lastattestationslot",
      OrderDir := "asc nulls first", Draw := 1, Start := 1, Length := 100, StateFilter := "" }
    (by decide)
  exact ⟨h.1, h.2.2.1, h.2.2.2.2.1, h.2.2.2.2.2.1⟩

/-! ## Claims about the POAP graffiti -/

/-- C28: evaluation at the failing input.  The graffiti `poap` followed by the base64 of
twenty zero bytes and the byte 5 has 32 characters and passes every check, since the
guard admits a client id equal to the length of `poapClients`; the read of
`poapClients[5]` panics.  With the byte 4 the call returns the last client. -/
theorem decodePoapGraffiti_panics_on_client_five :
    (stringBytes "poapAAAAAAAAAAAAAAAAAAAAAAAAAAAF").length = 32 ∧
    poapClients.length = 5 ∧
    decodePoapGraffiti sampleIsValidEth1Address (stringBytes "poapAAAAAAAAAAAAAAAAAAAAAAAAAAAF")
      = .panic "runtime error: index out of range" ∧
    decodePoapGraffiti sampleIsValidEth1Address (stringBytes "poapAAAAAAAAAAAAAAAAAAAAAAAAAAAE")
      = .ret ("0x0000000000000000000000000000000000000000", "Lodestar", none) := by
  decide

/-! ## Claims about the counters of the validator page -/

theorem sumWhere_le (p : ProposedBlocksCountRow → Bool) (rows : List ProposedBlocksCountRow) :
    sumWhere p rows ≤ (rows.map (·.Count)).sum := by
  induction rows with
  | nil => simp [sumWhere]
  | cons r rest ih =>
    simp only [sumWhere, List.filter_cons, List.map_cons, List.sum_cons] at *
    by_cases h : p r = true
    · simp only [h, if_true, List.map_cons, List.sum_cons]
      omega
    · simp only [h]
      simp only [Bool.false_eq_true, if_false]
      omega

theorem sumWhere_concat (p : ProposedBlocksCountRow → Bool) (rows : List ProposedBlocksCountRow)
    (c : ProposedBlocksCountRow) :
    sumWhere p (rows ++ [c]) = sumWhere p rows + (if p c = true then c.Count else 0) := by
  by_cases h : p c = true
  · simp [sumWhere, List.filter_append, List.filter_cons, h]
  · simp [sumWhere, List.filter_append, List.filter_cons, h]

theorem countRow_spec (rows : List ProposedBlocksCountRow) (c : ProposedBlocksCountRow)
    (hsum : ((rows ++ [c]).map (·.Count)).sum < 2 ^ 64) :
    countRow (specCounters rows) c = specCounters (rows ++ [c]) := by
  have htotal : (rows.map (·.Count)).sum + c.Count < 2 ^ 64 := by
    simpa using hsum
  have key : ∀ p, u64 (sumWhere p rows + c.Count) = sumWhere p rows + c.Count := by
    intro p
    have := sumWhere_le p rows
    exact Nat.mod_eq_of_lt (by omega)
  simp only [countRow, specCounters, sumWhere_concat, key]
  by_cases h3 : c.Status = 3
  · simp [h3, key]
  · by_cases h2 : c.Status = 2
    · by_cases c1 : c.Cutoff = 1
      · simp [h2, c1, key]
      · by_cases c7 : c.Cutoff = 7
        · simp [h2, c7, key]
        · by_cases c31 : c.Cutoff = 31
          · simp [h2, c31, key]
          · simp [h2, c1, c7, c31, key]
    · by_cases h1 : c.Status = 1
      · by_cases c1 : c.Cutoff = 1
        · simp [h1, c1, key]
        · by_cases c7 : c.Cutoff = 7
          · simp [h1, c7, key]
          · by_cases c31 : c.Cutoff = 31
            · simp [h1, c31, key]
            · simp [h1, c1, c7, c31, key]
      · by_cases h0 : c.Status = 0
        · simp [h0, key]
        · simp [h3, h2, h1, h0, key]

theorem sumWhere_mono (p q : ProposedBlocksCountRow → Bool)
    (hpq : ∀ r, p r = true → q r = true) (rows : List ProposedBlocksCountRow) :
    sumWhere p rows ≤ sumWhere q rows := by
  induction rows using List.reverseRecOn with
  | nil => simp [sumWhere]
  | append_singleton rows c ih =>
    rw [sumWhere_concat, sumWhere_concat]
    by_cases hp : p c = true
    · rw [if_pos hp, if_pos (hpq c hp)]
      omega
    · rw [if_neg hp]
      by_cases hq : q c = true
      · rw [if_pos hq]
        omega
      · rw [if_neg hq]
        omega

/-- Without overflow the counters of the loop are the sums of the specification. -/
theorem countProposedBlocks_spec (rows : List ProposedBlocksCountRow)
    (hsum : (rows.map (·.Count)).sum < 2 ^ 64) :
    countProposedBlocks rows = specCounters rows := by
  induction rows using List.reverseRecOn with
  | nil => rfl
  | append_singleton rows c ih =>
    have hrows : (rows.map (·.Count)).sum < 2 ^ 64 := by
      have : (rows.map (·.Count)).sum + c.Count < 2 ^ 64 := by simpa using hsum
      omega
    have hstep : countProposedBlocks (rows ++ [c]) = countRow (countProposedBlocks rows) c := by
      simp [countProposedBlocks, List.foldl_append]
    rw [hstep, ih hrows]
    exact countRow_spec rows c hsum

/-- C29: when the sum of all counts fits `uint64`, each counter of the loop is the sum of
the counts of the rows of its status whose cutoff lies within its window, the total is
the sum of all counts, and the counters are nested: 1d <= 7d <= 31d <= all, for the
executed and for the missed proposals. -/
theorem countProposedBlocks_nested (rows : List ProposedBlocksCountRow)
    (hsum : (rows.map (·.Count)).sum < 2 ^ 64) :
    countProposedBlocks rows = specCounters rows ∧
    (countProposedBlocks rows).TotalProposedBlocksCount = (rows.map (·.Count)).sum ∧
    (countProposedBlocks rows).executedProposedBlocksCount1d
      ≤ (countProposedBlocks rows).executedProposedBlocksCount7d ∧
    (countProposedBlocks rows).executedProposedBlocksCount7d
      ≤ (countProposedBlocks rows).executedProposedBlocksCount31d ∧
    (countProposedBlocks rows).executedProposedBlocksCount31d
      ≤ (countProposedBlocks rows).ExecutedProposedBlocksCount ∧
    (countProposedBlocks rows).missedProposedBlocksCount1d
      ≤ (countProposedBlocks rows).missedProposedBlocksCount7d ∧
    (countProposedBlocks rows).missedProposedBlocksCount7d
      ≤ (countProposedBlocks rows).missedProposedBlocksCount31d ∧
    (countProposedBlocks rows).missedProposedBlocksCount31d
      ≤ (countProposedBlocks rows).MissedProposedBlocksCount := by
  have hspec := countProposedBlocks_spec rows hsum
  rw [hspec]
  refine ⟨rfl, ?_, ?_, ?_, ?_, ?_, ?_, ?_⟩
  · simp [specCounters, sumWhere]
  all_goals
    simp only [specCounters]
    apply sumWhere_mono
    intro r hr
    simp only [decide_eq_true_eq] at hr ⊢
    tauto

theorem countProposedBlocks_nested_witness :
    (countProposedBlocks [⟨3, 1, 1⟩, ⟨4, 1, 7⟩, ⟨5, 1, 31⟩, ⟨6, 1, 0⟩, ⟨2, 2, 7⟩]).executedProposedBlocksCount7d
      ≤ (countProposedBlocks [⟨3, 1, 1⟩, ⟨4, 1, 7⟩, ⟨5, 1, 31⟩, ⟨6, 1, 0⟩, ⟨2, 2, 7⟩]).executedProposedBlocksCount31d :=
  (countProposedBlocks_nested [⟨3, 1, 1⟩, ⟨4, 1, 7⟩, ⟨5, 1, 31⟩, ⟨6, 1, 0⟩, ⟨2, 2, 7⟩]
    (by decide)).2.2.2.1

/-! ## Claims about the income of the validator page -/

/-- C30: evaluation at the failing input.  With an empty balance history the loop does
not run, `Income7d` is still 0, and the read of `balanceHistory[0]` panics, whatever the
clock, the cutoffs and the current balance are; with at least one row the computation
returns. -/
theorem computeIncome_panics_on_empty_history (EpochToTime : Nat → Int)
    (cutoff1d cutoff7d cutoff31d : Int) (CurrentBalance : Nat) :
    computeIncome EpochToTime cutoff1d cutoff7d cutoff31d CurrentBalance []
      = .panic "runtime error: index out of range [0] with length 0" ∧
    ∀ (first : ValidatorBalanceHistory) (rest : List ValidatorBalanceHistory),
      ∃ s, computeIncome EpochToTime cutoff1d cutoff7d cutoff31d CurrentBalance (first :: rest)
        = .ret s := by
  constructor
  · rfl
  · intro first rest
    unfold computeIncome
    simp only [List.head?_cons]
    generalize List.foldl (incomeRow EpochToTime cutoff1d cutoff7d cutoff31d CurrentBalance)
      { Income1d := 0, Income7d := 0, Income31d := 0, IncomeTotal := 0 } (first :: rest) = s
    by_cases h7 : s.Income7d = 0 <;> by_cases h31 : s.Income31d = 0 <;> simp [h7, h31]

end Explorer
